import Mathlib

/-!
# SOCIAL_APP: the local document store (`src/utils/storage.js`)

A shallow embedding of the data-access layer of the app and the properties
its specification states about it.

Modelling conventions

* A JavaScript object that only ever crosses `JSON.stringify` / `JSON.parse`
  is a `Record`: the list of its own keys, in insertion order, each with a
  JSON value.  A key that is missing reads as `none` (JavaScript `undefined`).
* User and Notification records are built by spreading caller objects, so
  they are open `Record`s.  FriendRequest, Message, Comment and Like records
  are only ever built by the fixed object literals of `storage.js`, from
  string arguments, so they are structures with exactly the literal's keys.
* `AsyncStorage` is a `Store`: one slot per key the app uses, plus the keys
  of other owners.  A slot holds the value its text parses to; text that
  `JSON.parse` rejects is `Slot.corrupt`.
* `Date.now()` and `new Date().toISOString()` are read from a `Clock` the
  caller passes; `new Date(text)` is the parameter `parseDate`.
* JSON numbers are integers here: no operation of the store computes with a
  number it reads.  No record of the app has a key that is an array index
  (JavaScript lists such keys first), so insertion order is the key order.
* `from` and `to` are reserved words of Lean: the fields are `from_` and `to_`.
* Every `await`ed step runs to completion before the next one: an operation
  is a function from the store before it to the store after it and its
  return value.
-/

namespace SocialApp

/-! ## JSON values and records -/

/-- JSON values, as `JSON.parse` produces them. -/
inductive JVal where
  | null : JVal
  | bool (b : Bool) : JVal
  | num (n : Int) : JVal
  | str (s : String) : JVal
  | arr (items : List JVal) : JVal
  | obj (fields : List (String × JVal)) : JVal

mutual
/-- Structural equality test on JSON values. -/
def JVal.beq : JVal → JVal → Bool
  | JVal.null, JVal.null => true
  | JVal.bool a, JVal.bool b => a == b
  | JVal.num a, JVal.num b => a == b
  | JVal.str a, JVal.str b => a == b
  | JVal.arr a, JVal.arr b => JVal.beqList a b
  | JVal.obj a, JVal.obj b => JVal.beqFields a b
  | _, _ => false
/-- Structural equality test on lists of JSON values. -/
def JVal.beqList : List JVal → List JVal → Bool
  | [], [] => true
  | x :: xs, y :: ys => JVal.beq x y && JVal.beqList xs ys
  | _, _ => false
/-- Structural equality test on key-value lists. -/
def JVal.beqFields : List (String × JVal) → List (String × JVal) → Bool
  | [], [] => true
  | (k, x) :: xs, (k', y) :: ys => k == k' && JVal.beq x y && JVal.beqFields xs ys
  | _, _ => false
end

/-- A JavaScript object: its own keys in insertion order. -/
abbrev Record := List (String × JVal)

/-- Property read `r[k]`; `none` is `undefined`. -/
def getField : Record → String → Option JVal
  | [], _ => none
  | (k', v) :: rest, k => if k' = k then some v else getField rest k

/-- Property write `r[k] = v`: an existing key keeps its place, a new key goes last. -/
def setField : Record → String → JVal → Record
  | [], k, v => [(k, v)]
  | (k', v') :: rest, k, v =>
    if k' = k then (k, v) :: rest else (k', v') :: setField rest k v

/-- Object spread `{ ...a, ...b }`: for each own key of `b`, in order, the value
read from `b` under that key is written to a copy of `a`. -/
def spread (a b : Record) : Record :=
  (b.map Prod.fst).foldl
    (fun acc k =>
      match getField b k with
      | some v => setField acc k v
      | none => acc)
    a

/-- Strict equality `x === y` on values read from parsed JSON and on string
arguments.  Two arrays or objects are never the same reference. -/
def strictEq : Option JVal → Option JVal → Bool
  | none, none => true
  | some JVal.null, some JVal.null => true
  | some (JVal.bool a), some (JVal.bool b) => a == b
  | some (JVal.num a), some (JVal.num b) => a == b
  | some (JVal.str a), some (JVal.str b) => a == b
  | _, _ => false

/-- JavaScript truthiness of a property read. -/
def truthy : Option JVal → Bool
  | none => false
  | some JVal.null => false
  | some (JVal.bool b) => b
  | some (JVal.num n) => n != 0
  | some (JVal.str s) => s != ""
  | some (JVal.arr _) => true
  | some (JVal.obj _) => true

/-! ## Array helpers -/

/-- `Array.prototype.findIndex`; `none` is `-1`. -/
def findIndex {α : Type} (p : α → Bool) : List α → Option Nat
  | [] => none
  | x :: xs => if p x then some 0 else (findIndex p xs).map (· + 1)

/-- `Array.prototype.find`; `none` is `undefined`. -/
def findFirst {α : Type} (p : α → Bool) : List α → Option α
  | [] => none
  | x :: xs => if p x then some x else findFirst p xs

/-- In-place update of the element at an index (`xs[i] = f(xs[i])`). -/
def modifyAt {α : Type} (f : α → α) : Nat → List α → List α
  | _, [] => []
  | 0, x :: xs => f x :: xs
  | n + 1, x :: xs => x :: modifyAt f n xs

/-- Element read `xs[i]`. -/
def elemAt {α : Type} : List α → Nat → Option α
  | [], _ => none
  | x :: _, 0 => some x
  | _ :: xs, n + 1 => elemAt xs n

/-! ## Typed records -/

/-- The object literal of `sendFriendRequest`. -/
structure FriendRequest where
  id : String
  from_ : String
  to_ : String
  status : String
  timestamp : String
  deriving DecidableEq, Repr

/-- The object literal of `sendMessage`. -/
structure Message where
  id : String
  from_ : String
  to_ : String
  text : String
  timestamp : String
  read : Bool
  deriving DecidableEq, Repr

/-- The object literal of `addComment`. -/
structure Comment where
  id : String
  postId : String
  username : String
  text : String
  timestamp : String
  deriving DecidableEq, Repr

/-- The object literal of `toggleLike`. -/
structure Like where
  id : String
  postId : String
  username : String
  timestamp : String
  deriving DecidableEq, Repr

/-! ## The store -/

/-- What `AsyncStorage.getItem` finds under a key. -/
inductive Slot (α : Type) where
  | absent : Slot α
  | corrupt : Slot α
  | value (a : α) : Slot α

/-- The key-value store: the eight keys of the app and the keys of other owners. -/
structure Store where
  users : Slot (List Record)
  posts : Slot (List Record)
  comments : Slot (List Comment)
  likes : Slot (List Like)
  messages : Slot (List Message)
  friendRequests : Slot (List FriendRequest)
  notifications : Slot (List Record)
  currentUser : Slot Record
  other : List (String × String)

/-- A store with no key at all. -/
def Store.empty : Store :=
  { users := Slot.absent, posts := Slot.absent, comments := Slot.absent,
    likes := Slot.absent, messages := Slot.absent, friendRequests := Slot.absent,
    notifications := Slot.absent, currentUser := Slot.absent, other := [] }

/-- The getter pattern `text ? JSON.parse(text) : []` inside `try`/`catch` returning `[]`. -/
def readList {α : Type} : Slot (List α) → List α
  | Slot.value xs => xs
  | _ => []

/-- The clock readings of one operation: `Date.now()` and `new Date().toISOString()`. -/
structure Clock where
  nowMs : Nat
  iso : String

/-- Decimal text of `Date.now()`, as `Date.now().toString()` gives it. -/
def Clock.idText (c : Clock) : String := toString c.nowMs

/-! ## User management -/

def getUsers (s : Store) : List Record := readList s.users

def getCurrentUser (s : Store) : Option Record :=
  match s.currentUser with
  | Slot.value u => some u
  | _ => none

def saveUser (s : Store) (user : Record) : Store × Record :=
  let users := getUsers s
  let users' :=
    match findIndex (fun u => strictEq (getField u "username") (getField user "username")) users with
    | some existingIndex => modifyAt (fun old => spread old user) existingIndex users
    | none => users ++ [user]
  ({ s with users := Slot.value users', currentUser := Slot.value user }, user)

def updateCurrentUser (s : Store) (updates : Record) : Store × Option Record :=
  match getCurrentUser s with
  | none => (s, none)
  | some currentUser =>
    let updatedUser := spread currentUser updates
    ((saveUser s updatedUser).1, some updatedUser)

def getUserByUsername (s : Store) (username : String) : Option Record :=
  findFirst (fun u => strictEq (getField u "username") (some (JVal.str username))) (getUsers s)

/-! ## Friend requests -/

def getFriendRequests (s : Store) : List FriendRequest := readList s.friendRequests

def sendFriendRequest (c : Clock) (s : Store) (fromUsername toUsername : String) :
    Store × FriendRequest :=
  let requests := getFriendRequests s
  match findFirst
      (fun r => r.from_ == fromUsername && r.to_ == toUsername && r.status == "pending")
      requests with
  | some existingRequest => (s, existingRequest)
  | none =>
    let newRequest : FriendRequest :=
      { id := c.idText, from_ := fromUsername, to_ := toUsername,
        status := "pending", timestamp := c.iso }
    ({ s with friendRequests := Slot.value (requests ++ [newRequest]) }, newRequest)

/-- `friends.includes(name)` on an array parsed from JSON. -/
def includes (friends : List JVal) (name : String) : Bool :=
  friends.any (fun f => strictEq (some f) (some (JVal.str name)))

/-- `if (!users[i].friends) users[i].friends = []`. -/
def ensureFriends (i : Nat) (users : List Record) : List Record :=
  modifyAt
    (fun u => if truthy (getField u "friends") then u else setField u "friends" (JVal.arr []))
    i users

/-- `if (!users[i].friends.includes(name)) users[i].friends.push(name)`.
An array takes the push.  A non-empty string answers `includes` by substring
search and has no `push`; any other truthy value has no `includes`: both raise
a `TypeError`. -/
def addFriend (i : Nat) (name : String) (users : List Record) : Except String (List Record) :=
  match elemAt users i with
  | none => Except.error "TypeError"
  | some u =>
    match getField u "friends" with
    | some (JVal.arr friends) =>
      if includes friends name then Except.ok users
      else
        Except.ok
          (modifyAt (fun u' => setField u' "friends" (JVal.arr (friends ++ [JVal.str name])))
            i users)
    | some (JVal.str text) =>
      if name.data <:+: text.data then Except.ok users else Except.error "TypeError"
    | _ => Except.error "TypeError"

/-- The `currentUser` refresh at the end of `acceptFriendRequest`. -/
def refreshCurrentUser (s : Store) (request : FriendRequest) (users : List Record)
    (fromUserIndex toUserIndex : Nat) : Store :=
  match getCurrentUser s with
  | none => s
  | some currentUser =>
    if strictEq (getField currentUser "username") (some (JVal.str request.from_)) then
      match elemAt users fromUserIndex with
      | some u => { s with currentUser := Slot.value u }
      | none => s
    else if strictEq (getField currentUser "username") (some (JVal.str request.to_)) then
      match elemAt users toUserIndex with
      | some u => { s with currentUser := Slot.value u }
      | none => s
    else s

/-- The `request` found by `requests.find` is an element of `requests`: the
assignment to its `status` is an update of `requests` at the index of the first
match.  A raised `TypeError` leaves the store as the writes before it made it. -/
def acceptFriendRequest (s : Store) (requestId : String) :
    Store × Except String (Option FriendRequest) :=
  let requests := getFriendRequests s
  match findIndex (fun r => r.id == requestId) requests with
  | none => (s, Except.ok none)
  | some requestIndex =>
    let requests' := modifyAt (fun r => { r with status := "accepted" }) requestIndex requests
    match elemAt requests' requestIndex with
    | none => (s, Except.ok none)
    | some request =>
      let s1 : Store := { s with friendRequests := Slot.value requests' }
      let users := getUsers s1
      match findIndex (fun u => strictEq (getField u "username") (some (JVal.str request.from_)))
          users,
        findIndex (fun u => strictEq (getField u "username") (some (JVal.str request.to_)))
          users with
      | some fromUserIndex, some toUserIndex =>
        let users1 := ensureFriends fromUserIndex users
        let users2 := ensureFriends toUserIndex users1
        match addFriend fromUserIndex request.to_ users2 with
        | Except.error e => (s1, Except.error e)
        | Except.ok users3 =>
          match addFriend toUserIndex request.from_ users3 with
          | Except.error e => (s1, Except.error e)
          | Except.ok users4 =>
            let s2 : Store := { s1 with users := Slot.value users4 }
            (refreshCurrentUser s2 request users4 fromUserIndex toUserIndex,
              Except.ok (some request))
      | _, _ => (s1, Except.ok (some request))

def rejectFriendRequest (s : Store) (requestId : String) : Store :=
  { s with
    friendRequests := Slot.value ((getFriendRequests s).filter (fun r => r.id != requestId)) }

/-! ## Registration (`RegisterScreen.handleRegister`) -/

/-- The registration handler.  It reads `users` itself: text that does not
parse raises inside its `try` and the handler ends without a write. -/
def handleRegister (c : Clock) (s : Store) (username email password : String) : Store :=
  if username = "" ∨ email = "" ∨ password = "" then s
  else
    match s.users with
    | Slot.corrupt => s
    | slot =>
      let users := readList slot
      if users.any (fun u => strictEq (getField u "email") (some (JVal.str email))) then s
      else
        let newUser : Record :=
          [("id", JVal.str c.idText), ("username", JVal.str username),
            ("email", JVal.str email), ("password", JVal.str password)]
        { s with users := Slot.value (users ++ [newUser]), currentUser := Slot.value newUser }

/-! ## Sorting by date -/

/-- The comparator value `new Date(x) - new Date(y)`; `none` is `NaN`, which
arises when either text is not a date. -/
def dateDiff (parseDate : String → Option Int) (x y : String) : Option Int :=
  match parseDate x, parseDate y with
  | some tx, some ty => some (tx - ty)
  | _, _ => none

/-- Whether a comparator value lets the first argument stay before the second:
it is not positive (`NaN` is read as `0`). -/
def staysBefore : Option Int → Bool
  | some d => decide (d ≤ 0)
  | none => true

/-- One insertion step of the sort: `a` goes before the first element it may stay before. -/
def sortInsert {α : Type} (cmp : α → α → Option Int) (a : α) : List α → List α
  | [] => [a]
  | b :: l => if staysBefore (cmp a b) then a :: b :: l else b :: sortInsert cmp a l

/-- `Array.prototype.sort(cmp)` as a stable sort.  For a comparator that is a
consistent ordering of the elements the result is the one every stable sort
gives. -/
def jsSort {α : Type} (cmp : α → α → Option Int) : List α → List α
  | [] => []
  | a :: l => sortInsert cmp a (jsSort cmp l)

/-! ## Messages -/

def getMessages (s : Store) : List Message := readList s.messages

def sendMessage (c : Clock) (s : Store) (fromUsername toUsername text : String) :
    Store × Message :=
  let newMessage : Message :=
    { id := c.idText, from_ := fromUsername, to_ := toUsername, text := text,
      timestamp := c.iso, read := false }
  ({ s with messages := Slot.value (getMessages s ++ [newMessage]) }, newMessage)

def getConversation (parseDate : String → Option Int) (s : Store) (user1 user2 : String) :
    List Message :=
  jsSort (fun a b => dateDiff parseDate a.timestamp b.timestamp)
    ((getMessages s).filter
      (fun m => (m.from_ == user1 && m.to_ == user2) || (m.from_ == user2 && m.to_ == user1)))

def markMessagesAsRead (s : Store) (fromUsername toUsername : String) : Store :=
  { s with
    messages := Slot.value ((getMessages s).map (fun m =>
      if m.from_ == fromUsername && m.to_ == toUsername && !m.read then { m with read := true }
      else m)) }

def getUnreadCount (s : Store) (username : String) : Nat :=
  ((getMessages s).filter (fun m => m.to_ == username && !m.read)).length

/-! ## Comments -/

def getComments (s : Store) : List Comment := readList s.comments

def addComment (c : Clock) (s : Store) (postId username text : String) : Store × Comment :=
  let newComment : Comment :=
    { id := c.idText, postId := postId, username := username, text := text,
      timestamp := c.iso }
  ({ s with comments := Slot.value (getComments s ++ [newComment]) }, newComment)

def getPostComments (parseDate : String → Option Int) (s : Store) (postId : String) :
    List Comment :=
  jsSort (fun a b => dateDiff parseDate b.timestamp a.timestamp)
    ((getComments s).filter (fun c => c.postId == postId))

def deleteComment (s : Store) (commentId : String) : Store :=
  { s with comments := Slot.value ((getComments s).filter (fun c => c.id != commentId)) }

/-! ## Likes -/

def getLikes (s : Store) : List Like := readList s.likes

def toggleLike (c : Clock) (s : Store) (postId username : String) : Store × Bool :=
  let likes := getLikes s
  match findFirst (fun l => l.postId == postId && l.username == username) likes with
  | some _ =>
    ({ s with
       likes := Slot.value
         (likes.filter (fun l => !(l.postId == postId && l.username == username))) },
      false)
  | none =>
    let newLike : Like :=
      { id := c.idText, postId := postId, username := username, timestamp := c.iso }
    ({ s with likes := Slot.value (likes ++ [newLike]) }, true)

def getPostLikes (s : Store) (postId : String) : List Like :=
  (getLikes s).filter (fun l => l.postId == postId)

def isPostLiked (s : Store) (postId username : String) : Bool :=
  (getLikes s).any (fun l => l.postId == postId && l.username == username)

/-! ## Notifications -/

def getNotifications (s : Store) : List Record := readList s.notifications

/-- The literal `{ id, timestamp, read: false, ...notification }`: the three
stamped keys come first and the keys of `notification` are written over them. -/
def addNotification (c : Clock) (s : Store) (notification : Record) : Store × Record :=
  let newNotification : Record :=
    spread
      [("id", JVal.str c.idText), ("timestamp", JVal.str c.iso), ("read", JVal.bool false)]
      notification
  ({ s with notifications := Slot.value (newNotification :: getNotifications s) },
    newNotification)

def markNotificationAsRead (s : Store) (notificationId : String) : Store :=
  { s with
    notifications := Slot.value ((getNotifications s).map (fun n =>
      if strictEq (getField n "id") (some (JVal.str notificationId)) then
        setField n "read" (JVal.bool true)
      else n)) }

def markAllNotificationsAsRead (s : Store) : Store :=
  { s with
    notifications := Slot.value
      ((getNotifications s).map (fun n => setField n "read" (JVal.bool true))) }

/-- The argument is optional: `none` is a call without a username.  The branch
test `username ? ... : ...` is on the truthiness of the string. -/
def getUnreadNotificationCount (s : Store) (username : Option String) : Nat :=
  let notifications := getNotifications s
  match username with
  | some name =>
    if name != "" then
      (notifications.filter (fun n =>
        strictEq (getField n "to") (some (JVal.str name)) && !truthy (getField n "read"))).length
    else (notifications.filter (fun n => !truthy (getField n "read"))).length
  | none => (notifications.filter (fun n => !truthy (getField n "read"))).length

/-! ## Bulk removal (`src/utils/clearDatabase.js`) -/

/-- `AsyncStorage.removeItem(key)`: the key is gone afterwards, whoever owns it. -/
def removeItem (s : Store) (key : String) : Store :=
  if key = "users" then { s with users := Slot.absent }
  else if key = "posts" then { s with posts := Slot.absent }
  else if key = "comments" then { s with comments := Slot.absent }
  else if key = "likes" then { s with likes := Slot.absent }
  else if key = "messages" then { s with messages := Slot.absent }
  else if key = "friendRequests" then { s with friendRequests := Slot.absent }
  else if key = "notifications" then { s with notifications := Slot.absent }
  else if key = "currentUser" then { s with currentUser := Slot.absent }
  else { s with other := s.other.filter (fun kv => kv.1 != key) }

/-- `AsyncStorage.multiRemove(keys)`. -/
def multiRemove (s : Store) (keys : List String) : Store :=
  keys.foldl removeItem s

/-- The bulk clear, when the storage carries the call out; it returns `true`. -/
def clearAllData (s : Store) : Store × Bool :=
  (multiRemove s
    ["posts", "comments", "likes", "messages", "friendRequests", "users", "currentUser"],
    true)

/-- The full reset `AsyncStorage.clear()`, when the storage carries the call out. -/
def resetDatabase (_s : Store) : Store × Bool :=
  (Store.empty, true)

/-! ## Screen handlers that write through the store -/

/-- The post object a screen holds: the literal of `CreatePostScreen`. -/
structure Post where
  id : String
  userId : String
  username : String
  images : List String
  imageUri : Option String
  caption : String
  timestamp : String
  likes : Int
  comments : Int
  deriving DecidableEq, Repr

/-- The post as the JSON object a notification embeds under `postData`. -/
def Post.toRecord (post : Post) : Record :=
  [("id", JVal.str post.id), ("userId", JVal.str post.userId),
    ("username", JVal.str post.username),
    ("images", JVal.arr (post.images.map JVal.str)),
    ("imageUri", match post.imageUri with
      | some uri => JVal.str uri
      | none => JVal.null),
    ("caption", JVal.str post.caption), ("timestamp", JVal.str post.timestamp),
    ("likes", JVal.num post.likes), ("comments", JVal.num post.comments)]

/-- White space and line terminators, the characters `String.prototype.trim` strips. -/
def isTrimmed (ch : Char) : Bool :=
  let n := ch.toNat
  n == 9 || n == 10 || n == 11 || n == 12 || n == 13 || n == 32 || n == 160 || n == 5760 ||
    (8192 ≤ n && n ≤ 8202) || n == 8232 || n == 8233 || n == 8239 || n == 8287 ||
    n == 12288 || n == 65279

/-- `text.trim()`. -/
def trim (text : String) : String :=
  String.mk (((text.data.dropWhile isTrimmed).reverse.dropWhile isTrimmed).reverse)

/-- `PostCard.handleLike`, with the button not already busy: the like is
toggled, and a notification is added when the post is now liked and is not the
user's own.  The two store calls read the clock separately. -/
def handleLike (cLike cNote : Clock) (s : Store) (post : Post) (currentUsername : String) :
    Store :=
  let toggled := toggleLike cLike s post.id currentUsername
  if toggled.2 && post.username != currentUsername then
    (addNotification cNote toggled.1
      [("type", JVal.str "like"), ("from", JVal.str currentUsername),
        ("to", JVal.str post.username), ("message", JVal.str "liked your post"),
        ("postId", JVal.str post.id), ("postData", JVal.obj post.toRecord)]).1
  else toggled.1

/-- `CommentsScreen.handleAddComment`: nothing happens for blank input; otherwise
the trimmed text is added as a comment, and a notification is added when the
post is not the user's own. -/
def handleAddComment (cComment cNote : Clock) (s : Store) (post : Post)
    (currentUsername inputText : String) : Store :=
  if trim inputText = "" then s
  else
    let added := addComment cComment s post.id currentUsername (trim inputText)
    if post.username != currentUsername then
      (addNotification cNote added.1
        [("type", JVal.str "comment"), ("from", JVal.str currentUsername),
          ("to", JVal.str post.username), ("message", JVal.str "commented on your post"),
          ("postId", JVal.str post.id), ("postData", JVal.obj post.toRecord)]).1
    else added.1

/-- `FriendsScreen.handleSendRequest` and `UserProfileScreen.handleAddFriend`:
the one store call they make. -/
def handleSendRequest (c : Clock) (s : Store) (currentUsername username : String) : Store :=
  (sendFriendRequest c s currentUsername username).1

/-- `ChatScreen.loadChat`, for the store it leaves: the session user is read
from the store, and `markMessagesAsRead(username, user.username)` writes the
messages back.  Without a session user `user.username` raises before any write;
a `username` field that is not a string equals the `to` of no message, and the
messages are written back as they are. -/
def loadChat (s : Store) (username : String) : Store :=
  match getCurrentUser s with
  | none => s
  | some user =>
    match getField user "username" with
    | some (JVal.str me) => markMessagesAsRead s username me
    | _ => { s with messages := Slot.value (getMessages s) }

/-- `ChatScreen.handleSend`: nothing happens for blank input; otherwise the
trimmed text is sent from `currentUser.username`, the session user the screen
holds, and `loadChat` runs. -/
def handleSend (c : Clock) (s : Store) (currentUsername username inputText : String) : Store :=
  if trim inputText = "" then s
  else loadChat (sendMessage c s currentUsername username (trim inputText)).1 username

/-- `HomeScreen.handleDeletePost`, once `Delete` is pressed in the alert: when
the key `posts` holds text, the posts with another id are written back.  Text
that does not parse raises inside the `try` and nothing is written. -/
def handleDeletePost (s : Store) (postId : String) : Store :=
  match s.posts with
  | Slot.value allPosts =>
    { s with
      posts := Slot.value
        (allPosts.filter (fun post => !strictEq (getField post "id") (some (JVal.str postId)))) }
  | _ => s

/-! ## The conversation list (`MessagesScreen.loadConversations`) -/

/-- An entry of the conversation list. -/
structure Conversation where
  username : String
  displayName : JVal
  profilePic : Option JVal
  lastMessage : String
  timestamp : String
  unreadCount : Nat

/-- `Map.prototype.get` on a `Map` kept as its entries in insertion order. -/
def mapGet {α : Type} : List (String × α) → String → Option α
  | [], _ => none
  | (k', v) :: rest, k => if k' = k then some v else mapGet rest k

/-- `Map.prototype.set`: a key that is there keeps its place, a new key goes last. -/
def mapSet {α : Type} : List (String × α) → String → α → List (String × α)
  | [], k, v => [(k, v)]
  | (k', v') :: rest, k, v =>
    if k' = k then (k, v) :: rest else (k', v') :: mapSet rest k v

/-- The comparison `new Date(x) > new Date(y)`; it is false when either text
is not a date. -/
def dateGreater (parseDate : String → Option Int) (x y : String) : Bool :=
  match parseDate x, parseDate y with
  | some tx, some ty => decide (ty < tx)
  | _, _ => false

/-- The body of `messages.forEach` that fills `conversationMap`; `me` is
`user.username`. -/
def conversationStep (parseDate : String → Option Int) (me : Option JVal)
    (conversationMap : List (String × Message)) (msg : Message) : List (String × Message) :=
  if strictEq (some (JVal.str msg.from_)) me || strictEq (some (JVal.str msg.to_)) me then
    let otherUser := if strictEq (some (JVal.str msg.from_)) me then msg.to_ else msg.from_
    match mapGet conversationMap otherUser with
    | none => mapSet conversationMap otherUser msg
    | some existing =>
      if dateGreater parseDate msg.timestamp existing.timestamp then
        mapSet conversationMap otherUser msg
      else conversationMap
  else conversationMap

/-- The entry built for one key of `conversationMap`. -/
def conversationEntry (me : Option JVal) (messages : List Message) (users : List Record)
    (entry : String × Message) : Conversation :=
  let otherUserData :=
    findFirst (fun u => strictEq (getField u "username") (some (JVal.str entry.1))) users
  { username := entry.1,
    displayName :=
      match otherUserData.bind (fun u => getField u "displayName") with
      | some name => if truthy (some name) then name else JVal.str entry.1
      | none => JVal.str entry.1,
    profilePic := otherUserData.bind (fun u => getField u "profilePic"),
    lastMessage := entry.2.text,
    timestamp := entry.2.timestamp,
    unreadCount :=
      (messages.filter
        (fun m => m.from_ == entry.1 && strictEq (some (JVal.str m.to_)) me && !m.read)).length }

/-- The list `loadConversations` hands to `setConversations`; `none` when there
is no session user and the screen keeps what it shows. -/
def loadConversations (parseDate : String → Option Int) (s : Store) :
    Option (List Conversation) :=
  match getCurrentUser s with
  | none => none
  | some user =>
    let messages := getMessages s
    let users := getUsers s
    let conversationMap :=
      messages.foldl (conversationStep parseDate (getField user "username")) []
    let conversationList :=
      conversationMap.map (conversationEntry (getField user "username") messages users)
    some (jsSort (fun a b => dateDiff parseDate b.timestamp a.timestamp) conversationList)

/-! ## The store operations when the storage can reject a call

The definitions above are the operations on a storage that carries every call
out.  The ones below follow the same source functions through their `try` /
`catch`: `Faults` says which `getItem` and `setItem` calls the storage rejects.
An operation reads and writes a key at most once, so faults by key cover every
way its calls can be rejected.  A `Run` is how an operation ends: the store it
leaves, the keys of the writes the storage rejected, and the value returned or
the error raised to the caller. -/

/-- The calls the storage rejects, by key. -/
structure Faults where
  rejectsRead : String → Bool
  rejectsWrite : String → Bool

/-- A storage that carries every call out. -/
def Faults.none : Faults := ⟨fun _ => false, fun _ => false⟩

/-- A storage that rejects every write (a full quota) and carries every read out. -/
def Faults.noWrites : Faults := ⟨fun _ => false, fun _ => true⟩

/-- How an operation ends. -/
structure Run (α : Type) where
  store : Store
  rejected : List String
  result : Except String α

/-- `await AsyncStorage.getItem(key)`. -/
def getItem {α : Type} (f : Faults) (key : String) (slot : Slot α) : Except String (Slot α) :=
  if f.rejectsRead key then Except.error "getItem rejected" else Except.ok slot

/-- `text ? JSON.parse(text) : []`. -/
def parseList {α : Type} : Slot (List α) → Except String (List α)
  | Slot.absent => Except.ok []
  | Slot.corrupt => Except.error "SyntaxError"
  | Slot.value xs => Except.ok xs

/-- A collection getter: the read and the parse inside `try`, and a `catch`
that logs and returns `[]`. -/
def getList {α : Type} (f : Faults) (key : String) (slot : Slot (List α)) :
    Except String (List α) :=
  match (match getItem f key slot with
    | Except.ok text => parseList text
    | Except.error e => Except.error e) with
  | Except.ok xs => Except.ok xs
  | Except.error _ => Except.ok []

def getUsersF (f : Faults) (s : Store) : Except String (List Record) :=
  getList f "users" s.users

def getFriendRequestsF (f : Faults) (s : Store) : Except String (List FriendRequest) :=
  getList f "friendRequests" s.friendRequests

def getMessagesF (f : Faults) (s : Store) : Except String (List Message) :=
  getList f "messages" s.messages

def getCommentsF (f : Faults) (s : Store) : Except String (List Comment) :=
  getList f "comments" s.comments

def getLikesF (f : Faults) (s : Store) : Except String (List Like) :=
  getList f "likes" s.likes

def getNotificationsF (f : Faults) (s : Store) : Except String (List Record) :=
  getList f "notifications" s.notifications

/-- `getCurrentUser`: `user ? JSON.parse(user) : null` inside `try`, and a
`catch` that logs and returns `null`. -/
def getCurrentUserF (f : Faults) (s : Store) : Except String (Option Record) :=
  match getItem f "currentUser" s.currentUser with
  | Except.ok (Slot.value u) => Except.ok (some u)
  | _ => Except.ok none

def saveUserF (f : Faults) (s : Store) (user : Record) : Run Record :=
  match getUsersF f s with
  | Except.error e => ⟨s, [], Except.error e⟩
  | Except.ok users =>
    let users' :=
      match findIndex
          (fun u => strictEq (getField u "username") (getField user "username")) users with
      | some existingIndex => modifyAt (fun old => spread old user) existingIndex users
      | none => users ++ [user]
    if f.rejectsWrite "users" then ⟨s, ["users"], Except.error "setItem rejected"⟩
    else if f.rejectsWrite "currentUser" then
      ⟨{ s with users := Slot.value users' }, ["currentUser"], Except.error "setItem rejected"⟩
    else
      ⟨{ s with users := Slot.value users', currentUser := Slot.value user }, [],
        Except.ok user⟩

def sendFriendRequestF (f : Faults) (c : Clock) (s : Store) (fromUsername toUsername : String) :
    Run FriendRequest :=
  match getFriendRequestsF f s with
  | Except.error e => ⟨s, [], Except.error e⟩
  | Except.ok requests =>
    match findFirst
        (fun r => r.from_ == fromUsername && r.to_ == toUsername && r.status == "pending")
        requests with
    | some existingRequest => ⟨s, [], Except.ok existingRequest⟩
    | none =>
      let newRequest : FriendRequest :=
        { id := c.idText, from_ := fromUsername, to_ := toUsername,
          status := "pending", timestamp := c.iso }
      if f.rejectsWrite "friendRequests" then
        ⟨s, ["friendRequests"], Except.error "setItem rejected"⟩
      else
        ⟨{ s with friendRequests := Slot.value (requests ++ [newRequest]) }, [],
          Except.ok newRequest⟩

/-- The `currentUser` refresh at the end of `acceptFriendRequest`, with its write. -/
def refreshCurrentUserF (f : Faults) (s : Store) (request : FriendRequest)
    (users : List Record) (fromUserIndex toUserIndex : Nat) : Run (Option FriendRequest) :=
  match getCurrentUserF f s with
  | Except.error e => ⟨s, [], Except.error e⟩
  | Except.ok none => ⟨s, [], Except.ok (some request)⟩
  | Except.ok (some currentUser) =>
    let refreshed : Option Record :=
      if strictEq (getField currentUser "username") (some (JVal.str request.from_)) then
        elemAt users fromUserIndex
      else if strictEq (getField currentUser "username") (some (JVal.str request.to_)) then
        elemAt users toUserIndex
      else none
    match refreshed with
    | none => ⟨s, [], Except.ok (some request)⟩
    | some u =>
      if f.rejectsWrite "currentUser" then
        ⟨s, ["currentUser"], Except.error "setItem rejected"⟩
      else ⟨{ s with currentUser := Slot.value u }, [], Except.ok (some request)⟩

def acceptFriendRequestF (f : Faults) (s : Store) (requestId : String) :
    Run (Option FriendRequest) :=
  match getFriendRequestsF f s with
  | Except.error e => ⟨s, [], Except.error e⟩
  | Except.ok requests =>
    match findIndex (fun r => r.id == requestId) requests with
    | none => ⟨s, [], Except.ok none⟩
    | some requestIndex =>
      let requests' := modifyAt (fun r => { r with status := "accepted" }) requestIndex requests
      match elemAt requests' requestIndex with
      | none => ⟨s, [], Except.ok none⟩
      | some request =>
        if f.rejectsWrite "friendRequests" then
          ⟨s, ["friendRequests"], Except.error "setItem rejected"⟩
        else
          let s1 : Store := { s with friendRequests := Slot.value requests' }
          match getUsersF f s1 with
          | Except.error e => ⟨s1, [], Except.error e⟩
          | Except.ok users =>
            match findIndex
                (fun u => strictEq (getField u "username") (some (JVal.str request.from_)))
                users,
              findIndex
                (fun u => strictEq (getField u "username") (some (JVal.str request.to_)))
                users with
            | some fromUserIndex, some toUserIndex =>
              let users1 := ensureFriends fromUserIndex users
              let users2 := ensureFriends toUserIndex users1
              match addFriend fromUserIndex request.to_ users2 with
              | Except.error e => ⟨s1, [], Except.error e⟩
              | Except.ok users3 =>
                match addFriend toUserIndex request.from_ users3 with
                | Except.error e => ⟨s1, [], Except.error e⟩
                | Except.ok users4 =>
                  if f.rejectsWrite "users" then
                    ⟨s1, ["users"], Except.error "setItem rejected"⟩
                  else
                    refreshCurrentUserF f { s1 with users := Slot.value users4 } request
                      users4 fromUserIndex toUserIndex
            | _, _ => ⟨s1, [], Except.ok (some request)⟩

def rejectFriendRequestF (f : Faults) (s : Store) (requestId : String) : Run Unit :=
  match getFriendRequestsF f s with
  | Except.error e => ⟨s, [], Except.error e⟩
  | Except.ok requests =>
    if f.rejectsWrite "friendRequests" then
      ⟨s, ["friendRequests"], Except.error "setItem rejected"⟩
    else
      ⟨{ s with friendRequests := Slot.value (requests.filter (fun r => r.id != requestId)) },
        [], Except.ok ()⟩

def sendMessageF (f : Faults) (c : Clock) (s : Store) (fromUsername toUsername text : String) :
    Run Message :=
  match getMessagesF f s with
  | Except.error e => ⟨s, [], Except.error e⟩
  | Except.ok messages =>
    let newMessage : Message :=
      { id := c.idText, from_ := fromUsername, to_ := toUsername, text := text,
        timestamp := c.iso, read := false }
    if f.rejectsWrite "messages" then ⟨s, ["messages"], Except.error "setItem rejected"⟩
    else ⟨{ s with messages := Slot.value (messages ++ [newMessage]) }, [], Except.ok newMessage⟩

/-- The `catch` of `markMessagesAsRead` logs and does not raise again. -/
def markMessagesAsReadF (f : Faults) (s : Store) (fromUsername toUsername : String) :
    Run Unit :=
  match getMessagesF f s with
  | Except.error _ => ⟨s, [], Except.ok ()⟩
  | Except.ok messages =>
    if f.rejectsWrite "messages" then ⟨s, ["messages"], Except.ok ()⟩
    else
      ⟨{ s with
         messages := Slot.value (messages.map (fun m =>
           if m.from_ == fromUsername && m.to_ == toUsername && !m.read then
             { m with read := true }
           else m)) },
        [], Except.ok ()⟩

def addCommentF (f : Faults) (c : Clock) (s : Store) (postId username text : String) :
    Run Comment :=
  match getCommentsF f s with
  | Except.error e => ⟨s, [], Except.error e⟩
  | Except.ok comments =>
    let newComment : Comment :=
      { id := c.idText, postId := postId, username := username, text := text,
        timestamp := c.iso }
    if f.rejectsWrite "comments" then ⟨s, ["comments"], Except.error "setItem rejected"⟩
    else ⟨{ s with comments := Slot.value (comments ++ [newComment]) }, [], Except.ok newComment⟩

def deleteCommentF (f : Faults) (s : Store) (commentId : String) : Run Unit :=
  match getCommentsF f s with
  | Except.error e => ⟨s, [], Except.error e⟩
  | Except.ok comments =>
    if f.rejectsWrite "comments" then ⟨s, ["comments"], Except.error "setItem rejected"⟩
    else
      ⟨{ s with comments := Slot.value (comments.filter (fun c => c.id != commentId)) }, [],
        Except.ok ()⟩

def toggleLikeF (f : Faults) (c : Clock) (s : Store) (postId username : String) : Run Bool :=
  match getLikesF f s with
  | Except.error e => ⟨s, [], Except.error e⟩
  | Except.ok likes =>
    match findFirst (fun l => l.postId == postId && l.username == username) likes with
    | some _ =>
      if f.rejectsWrite "likes" then ⟨s, ["likes"], Except.error "setItem rejected"⟩
      else
        ⟨{ s with
           likes := Slot.value
             (likes.filter (fun l => !(l.postId == postId && l.username == username))) },
          [], Except.ok false⟩
    | none =>
      let newLike : Like :=
        { id := c.idText, postId := postId, username := username, timestamp := c.iso }
      if f.rejectsWrite "likes" then ⟨s, ["likes"], Except.error "setItem rejected"⟩
      else ⟨{ s with likes := Slot.value (likes ++ [newLike]) }, [], Except.ok true⟩

def addNotificationF (f : Faults) (c : Clock) (s : Store) (notification : Record) :
    Run Record :=
  match getNotificationsF f s with
  | Except.error e => ⟨s, [], Except.error e⟩
  | Except.ok notifications =>
    let newNotification : Record :=
      spread
        [("id", JVal.str c.idText), ("timestamp", JVal.str c.iso), ("read", JVal.bool false)]
        notification
    if f.rejectsWrite "notifications" then
      ⟨s, ["notifications"], Except.error "setItem rejected"⟩
    else
      ⟨{ s with notifications := Slot.value (newNotification :: notifications) }, [],
        Except.ok newNotification⟩

/-- The `catch` of `markNotificationAsRead` logs and does not raise again. -/
def markNotificationAsReadF (f : Faults) (s : Store) (notificationId : String) : Run Unit :=
  match getNotificationsF f s with
  | Except.error _ => ⟨s, [], Except.ok ()⟩
  | Except.ok notifications =>
    if f.rejectsWrite "notifications" then ⟨s, ["notifications"], Except.ok ()⟩
    else
      ⟨{ s with
         notifications := Slot.value (notifications.map (fun n =>
           if strictEq (getField n "id") (some (JVal.str notificationId)) then
             setField n "read" (JVal.bool true)
           else n)) },
        [], Except.ok ()⟩

/-- The `catch` of `markAllNotificationsAsRead` logs and does not raise again. -/
def markAllNotificationsAsReadF (f : Faults) (s : Store) : Run Unit :=
  match getNotificationsF f s with
  | Except.error _ => ⟨s, [], Except.ok ()⟩
  | Except.ok notifications =>
    if f.rejectsWrite "notifications" then ⟨s, ["notifications"], Except.ok ()⟩
    else
      ⟨{ s with
         notifications := Slot.value
           (notifications.map (fun n => setField n "read" (JVal.bool true))) },
        [], Except.ok ()⟩

/-! ## Predicates the properties are stated with -/

/-- The pending requests of the collection for an ordered pair. -/
def pendingRequests (s : Store) (a b : String) : List FriendRequest :=
  (getFriendRequests s).filter (fun r => r.from_ == a && r.to_ == b && r.status == "pending")

/-- The `friends` field of a user record is an array, or is missing or falsy
(the cases `acceptFriendRequest` starts an empty list for). -/
def friendsOk (u : Record) : Bool :=
  match getField u "friends" with
  | some (JVal.arr _) => true
  | v => !truthy v

/-- The `friends` array of a user record, when the field is an array. -/
def friendsList (u : Record) : Option (List JVal) :=
  match getField u "friends" with
  | some (JVal.arr friends) => some friends
  | _ => none

/-- Whether the `friends` array of a user record contains `other`. -/
def listsFriend (u : Record) (other : String) : Bool :=
  match friendsList u with
  | some friends => includes friends other
  | none => false

/-- Whether `getUserByUsername(name)` finds a record whose `friends` array contains `other`. -/
def hasFriend (s : Store) (name other : String) : Bool :=
  match getUserByUsername s name with
  | some u => listsFriend u other
  | none => false

/-- The `username` fields of a users array, in order. -/
def usernames (users : List Record) : List (Option JVal) :=
  users.map (fun u => getField u "username")

/-- At most one Like for each pair of a post and a user. -/
def likesUnique (likes : List Like) : Prop :=
  ∀ (postId username : String),
    (likes.filter (fun l => l.postId == postId && l.username == username)).length ≤ 1

/-- Both texts are dates and the first is not after the second. -/
def notAfter (parseDate : String → Option Int) (x y : String) : Bool :=
  match parseDate x, parseDate y with
  | some tx, some ty => decide (tx ≤ ty)
  | _, _ => false

/-- Whether a slot holds text. -/
def Slot.present {α : Type} : Slot α → Bool
  | Slot.absent => false
  | _ => true

/-- The eight keys of the app. -/
def appKeys : List String :=
  ["users", "posts", "comments", "likes", "messages", "friendRequests", "notifications",
    "currentUser"]

/-- Whether the storage holds the key (`getItem(key)` is not `null`). -/
def hasKey (s : Store) (key : String) : Bool :=
  if key = "users" then s.users.present
  else if key = "posts" then s.posts.present
  else if key = "comments" then s.comments.present
  else if key = "likes" then s.likes.present
  else if key = "messages" then s.messages.present
  else if key = "friendRequests" then s.friendRequests.present
  else if key = "notifications" then s.notifications.present
  else if key = "currentUser" then s.currentUser.present
  else s.other.any (fun kv => kv.1 == key)

/-- The text stored under a key of another owner. -/
def otherItem (s : Store) (key : String) : Option String :=
  (s.other.find? (fun kv => kv.1 == key)).map Prod.snd

/-- The notification is addressed to `u`: its `to` is the string `u`. -/
def addressedTo (n : Record) (u : String) : Bool :=
  match getField n "to" with
  | some (JVal.str t) => t == u
  | _ => false

/-- The notification is not read: its `read` is false (or missing, or falsy). -/
def isUnread (n : Record) : Bool := !truthy (getField n "read")

/-- The number of unread notifications addressed to `u`. -/
def unreadNotificationsTo (notifications : List Record) (u : String) : Nat :=
  notifications.countP (fun n => addressedTo n u && isUnread n)

/-- The number of unread notifications. -/
def unreadNotifications (notifications : List Record) : Nat :=
  notifications.countP isUnread

/-- At most one pending request for each ordered pair of users. -/
def pendingUnique (requests : List FriendRequest) : Prop :=
  ∀ (a b : String),
    (requests.filter (fun r => r.from_ == a && r.to_ == b && r.status == "pending")).length ≤ 1

/-- A getter fails soft: it returns a list whatever happens, and the empty list
when its key is absent, when the stored text does not parse, and when the read
is rejected. -/
def FailsSoft {α : Type} (got : Except String (List α)) (readRejected : Bool)
    (slot : Slot (List α)) : Prop :=
  (∃ xs, got = Except.ok xs) ∧
    (slot = Slot.absent → got = Except.ok []) ∧
    (slot = Slot.corrupt → got = Except.ok []) ∧
    (readRejected = true → got = Except.ok [])

/-- A run propagates a rejected write: if the storage rejected one of its
writes, it ended in the error raised to the caller. -/
def Propagates {α : Type} (run : Run α) : Prop :=
  run.rejected ≠ [] → run.result = Except.error "setItem rejected"

/-- No two records of a users array share a username: the `username` fields of
two different records are never `===`. -/
def usernamesUnique (users : List Record) : Prop :=
  users.Pairwise
    (fun x y => strictEq (getField x "username") (getField y "username") = false)

/-- The users array `acceptFriendRequest` writes for a request, when it comes
to write one: both users are found and no step on their `friends` raises. -/
def acceptedUsers (users : List Record) (request : FriendRequest) : Option (List Record) :=
  match findIndex (fun u => strictEq (getField u "username") (some (JVal.str request.from_)))
      users,
    findIndex (fun u => strictEq (getField u "username") (some (JVal.str request.to_)))
      users with
  | some fromUserIndex, some toUserIndex =>
    match addFriend fromUserIndex request.to_
        (ensureFriends toUserIndex (ensureFriends fromUserIndex users)) with
    | Except.error _ => none
    | Except.ok users3 =>
      match addFriend toUserIndex request.from_ users3 with
      | Except.error _ => none
      | Except.ok users4 => some users4
  | _, _ => none

/-- The `friends` field of a user record already answers `includes(name)` with
`true`: an array that contains the name, or a non-empty string that has it as a
substring. -/
def hasName (u : Record) (name : String) : Bool :=
  match getField u "friends" with
  | some (JVal.arr friends) => includes friends name
  | some (JVal.str text) => text != "" && decide (name.data <:+: text.data)
  | _ => false

/-- The message was exchanged between `me` and `other`, in one direction or the other. -/
def exchanged (me other : String) (m : Message) : Bool :=
  (m.from_ == me && m.to_ == other) || (m.from_ == other && m.to_ == me)

/-- What `conversationMap` holds once the messages `done` are filed: no key
twice; no entry for a user who exchanged no message with `me`; and under each
key a message exchanged with that user, that no message exchanged with that
user is dated after. -/
def ConversationInv (parseDate : String → Option Int) (me : String) (done : List Message)
    (conversationMap : List (String × Message)) : Prop :=
  (conversationMap.map Prod.fst).Nodup ∧
    (∀ name, mapGet conversationMap name = none →
      ∀ msg ∈ done, exchanged me name msg = false) ∧
    (∀ name last, mapGet conversationMap name = some last →
      last ∈ done ∧ exchanged me name last = true ∧
        ∀ msg ∈ done, exchanged me name msg = true →
          notAfter parseDate msg.timestamp last.timestamp = true)

/-- A store with one notification, one user and a key of another owner. -/
def sampleStore : Store :=
  { Store.empty with
    users := Slot.value [[("username", JVal.str "alice")]],
    notifications := Slot.value
      [[("id", JVal.str "1"), ("type", JVal.str "like"), ("to", JVal.str "alice"),
        ("read", JVal.bool false)]],
    currentUser := Slot.value [("username", JVal.str "alice")],
    other := [("theme", "dark")] }

/-- The users `alice` and `bob`, with `alice` the session user. -/
def chatStore : Store :=
  { Store.empty with
    users := Slot.value [[("username", JVal.str "alice")], [("username", JVal.str "bob")]],
    currentUser := Slot.value [("username", JVal.str "alice")] }

/-! ## Sample data for the closed instances -/

/-- A date parser that knows three instants of 1 January 2024. -/
def sampleParseDate (text : String) : Option Int :=
  if text = "2024-01-01T00:00:00.000Z" then some 1704067200000
  else if text = "2024-01-01T00:00:01.000Z" then some 1704067201000
  else if text = "2024-01-01T00:00:02.000Z" then some 1704067202000
  else none

/-- Three messages, stored out of date order, two of them between `a` and `b`. -/
def sampleMessages : List Message :=
  [⟨"3", "b", "a", "later", "2024-01-01T00:00:02.000Z", false⟩,
   ⟨"2", "a", "c", "other", "2024-01-01T00:00:01.000Z", false⟩,
   ⟨"1", "a", "b", "first", "2024-01-01T00:00:00.000Z", true⟩]

/-- Three comments, two of them on post `p`, the older one first. -/
def sampleComments : List Comment :=
  [⟨"1", "p", "a", "first", "2024-01-01T00:00:00.000Z"⟩,
   ⟨"2", "q", "a", "other", "2024-01-01T00:00:01.000Z"⟩,
   ⟨"3", "p", "b", "later", "2024-01-01T00:00:02.000Z"⟩]

/-! ## Decidable equality of JSON values and stores -/

mutual
theorem JVal.beq_iff : ∀ (a b : JVal), JVal.beq a b = true ↔ a = b
  | JVal.null, b => by cases b <;> simp [JVal.beq]
  | JVal.bool a, b => by cases b <;> simp [JVal.beq]
  | JVal.num a, b => by cases b <;> simp [JVal.beq]
  | JVal.str a, b => by cases b <;> simp [JVal.beq]
  | JVal.arr a, b => by cases b <;> simp [JVal.beq, JVal.beqList_iff a]
  | JVal.obj a, b => by cases b <;> simp [JVal.beq, JVal.beqFields_iff a]
theorem JVal.beqList_iff : ∀ (a b : List JVal), JVal.beqList a b = true ↔ a = b
  | [], b => by cases b <;> simp [JVal.beqList]
  | x :: xs, b => by
    cases b <;> simp [JVal.beqList, JVal.beq_iff x, JVal.beqList_iff xs]
theorem JVal.beqFields_iff :
    ∀ (a b : List (String × JVal)), JVal.beqFields a b = true ↔ a = b
  | [], b => by cases b <;> simp [JVal.beqFields]
  | (k, x) :: xs, b => by
    cases b with
    | nil => simp [JVal.beqFields]
    | cons h t =>
      cases h
      simp [JVal.beqFields, JVal.beq_iff x, JVal.beqFields_iff xs, and_assoc]
end

instance : DecidableEq JVal := fun a b =>
  if h : JVal.beq a b = true then isTrue ((JVal.beq_iff a b).1 h)
  else isFalse (fun e => h ((JVal.beq_iff a b).2 e))

deriving instance DecidableEq for Slot

deriving instance DecidableEq for Store

deriving instance DecidableEq for Conversation

/-! ## Records -/

theorem getField_setField_same (r : Record) (k : String) (v : JVal) :
    getField (setField r k v) k = some v := by
  induction r with
  | nil => simp [setField, getField]
  | cons kv rest ih =>
    obtain ⟨k', v'⟩ := kv
    by_cases hk : k' = k
    · simp [setField, getField, hk]
    · simp [setField, getField, hk, ih]

theorem getField_setField_other (r : Record) (k k' : String) (v : JVal) (hne : k' ≠ k) :
    getField (setField r k v) k' = getField r k' := by
  induction r with
  | nil => simp [setField, getField, Ne.symm hne]
  | cons kv rest ih =>
    obtain ⟨k₀, v₀⟩ := kv
    by_cases hk : k₀ = k
    · subst hk
      simp [setField, getField, Ne.symm hne]
    · by_cases hk' : k₀ = k'
      · subst hk'
        simp [setField, getField, hk]
      · simp [setField, getField, hk, hk', ih]

theorem getField_eq_none_of_not_mem (r : Record) (k : String) (h : k ∉ r.map Prod.fst) :
    getField r k = none := by
  induction r with
  | nil => rfl
  | cons kv rest ih =>
    obtain ⟨k₀, v₀⟩ := kv
    simp only [List.map_cons, List.mem_cons, not_or] at h
    simp [getField, Ne.symm h.1, ih h.2]

theorem getField_isSome_of_mem (r : Record) (k : String) (h : k ∈ r.map Prod.fst) :
    ∃ v, getField r k = some v := by
  induction r with
  | nil => simp at h
  | cons kv rest ih =>
    obtain ⟨k₀, v₀⟩ := kv
    by_cases hk : k₀ = k
    · exact ⟨v₀, by simp [getField, hk]⟩
    · simp only [List.map_cons, List.mem_cons] at h
      rcases h with h | h
      · exact absurd h.symm hk
      · obtain ⟨v, hv⟩ := ih h
        exact ⟨v, by simp [getField, hk, hv]⟩

theorem setField_setField_same (r : Record) (k : String) (v w : JVal) :
    setField (setField r k v) k w = setField r k w := by
  induction r with
  | nil => simp [setField]
  | cons kv rest ih =>
    obtain ⟨k₀, v₀⟩ := kv
    by_cases hk : k₀ = k
    · simp [setField, hk]
    · simp [setField, hk, ih]

theorem readList_value {α : Type} (xs : List α) : readList (Slot.value xs) = xs := rfl

/-- Reading a key of `{ ...a, ...b }` over a list of keys of `b` still to copy. -/
theorem getField_spread_aux (b : Record) (k : String) :
    ∀ (ks : List String) (acc : Record), (∀ x ∈ ks, x ∈ b.map Prod.fst) →
      getField
        (ks.foldl
          (fun acc k => match getField b k with
            | some v => setField acc k v
            | none => acc) acc) k
        = if k ∈ ks then getField b k else getField acc k := by
  intro ks
  induction ks with
  | nil => intro acc _; simp
  | cons x xs ih =>
    intro acc hsub
    have hx : x ∈ b.map Prod.fst := hsub x (List.mem_cons_self _ _)
    have hxs : ∀ y ∈ xs, y ∈ b.map Prod.fst := fun y hy => hsub y (List.mem_cons_of_mem _ hy)
    obtain ⟨v, hv⟩ := getField_isSome_of_mem b x hx
    rw [List.foldl_cons, ih _ hxs]
    by_cases hmem : k ∈ xs
    · simp [hmem]
    · by_cases hkx : k = x
      · subst hkx
        simp [hmem, hv, getField_setField_same]
      · simp [hmem, hkx, hv, getField_setField_other _ _ _ _ hkx]

/-- A key of `{ ...a, ...b }` reads as in `b` when `b` has it, and as in `a` otherwise. -/
theorem getField_spread (a b : Record) (k : String) :
    getField (spread a b) k =
      match getField b k with
      | some v => some v
      | none => getField a k := by
  unfold spread
  rw [getField_spread_aux b k (b.map Prod.fst) a (fun _ h => h)]
  by_cases hmem : k ∈ b.map Prod.fst
  · obtain ⟨v, hv⟩ := getField_isSome_of_mem b k hmem
    simp [hmem, hv]
  · simp [hmem, getField_eq_none_of_not_mem b k hmem]

/-! ## Arrays -/

theorem findFirst_eq_none_of_findIndex_none {α : Type} (p : α → Bool) (l : List α)
    (h : findIndex p l = none) : findFirst p l = none := by
  induction l with
  | nil => rfl
  | cons x xs ih =>
    by_cases hp : p x = true
    · simp [findIndex, hp] at h
    · simp only [findIndex, hp, Bool.false_eq_true, if_false, Option.map_eq_none'] at h
      simp [findFirst, hp, ih h]

theorem findFirst_append_of_findIndex_none {α : Type} (p : α → Bool) (l : List α) (x : α)
    (h : findIndex p l = none) :
    findFirst p (l ++ [x]) = if p x then some x else none := by
  induction l with
  | nil => simp [findFirst]
  | cons y ys ih =>
    by_cases hp : p y = true
    · simp [findIndex, hp] at h
    · simp only [findIndex, hp, Bool.false_eq_true, if_false, Option.map_eq_none'] at h
      simp [findFirst, hp, ih h]

theorem findIndex_some_spec {α : Type} (p : α → Bool) :
    ∀ (l : List α) (i : Nat), findIndex p l = some i →
      ∃ x, elemAt l i = some x ∧ findFirst p l = some x ∧ p x = true := by
  intro l
  induction l with
  | nil => intro i h; simp [findIndex] at h
  | cons y ys ih =>
    intro i h
    by_cases hp : p y = true
    · simp only [findIndex, hp, if_true, Option.some.injEq] at h
      subst h
      exact ⟨y, rfl, by simp [findFirst, hp], hp⟩
    · simp only [findIndex, hp, Bool.false_eq_true, if_false, Option.map_eq_some'] at h
      obtain ⟨j, hj, rfl⟩ := h
      obtain ⟨x, hx, hfx, hpx⟩ := ih j hj
      exact ⟨x, by simpa [elemAt] using hx, by simp [findFirst, hp, hfx], hpx⟩

theorem findFirst_modifyAt {α : Type} (p : α → Bool) (f : α → α) :
    ∀ (l : List α) (i : Nat), findIndex p l = some i → (∀ y, p y = true → p (f y) = true) →
      findFirst p (modifyAt f i l) = (findFirst p l).map f := by
  intro l
  induction l with
  | nil => intro i h; simp [findIndex] at h
  | cons x xs ih =>
    intro i h hf
    by_cases hp : p x = true
    · simp only [findIndex, hp, if_true, Option.some.injEq] at h
      subst h
      simp [modifyAt, findFirst, hp, hf x hp]
    · simp only [findIndex, hp, Bool.false_eq_true, if_false, Option.map_eq_some'] at h
      obtain ⟨j, hj, rfl⟩ := h
      simp [modifyAt, findFirst, hp, ih j hj hf]

/-! ## Users -/

/-- C1: after `saveUser(u)`, `getUserByUsername(u.username)` returns `u`
shallow-merged over the record stored before under that username, and `u`
itself when there was none. -/
theorem saveUser_getUserByUsername (s : Store) (u : Record) (name : String)
    (hname : getField u "username" = some (JVal.str name)) :
    getUserByUsername (saveUser s u).1 name =
      some (match getUserByUsername s name with
        | some stored => spread stored u
        | none => u) := by
  have key : ∀ users : List Record,
      findFirst (fun r => strictEq (getField r "username") (some (JVal.str name)))
          (match findIndex
              (fun r => strictEq (getField r "username") (some (JVal.str name))) users with
            | some existingIndex => modifyAt (fun old => spread old u) existingIndex users
            | none => users ++ [u])
        = some (match findFirst
              (fun r => strictEq (getField r "username") (some (JVal.str name))) users with
            | some stored => spread stored u
            | none => u) := by
    intro users
    cases hidx : findIndex
        (fun r => strictEq (getField r "username") (some (JVal.str name))) users with
    | none =>
      rw [findFirst_eq_none_of_findIndex_none _ _ hidx]
      simp only []
      rw [findFirst_append_of_findIndex_none _ _ _ hidx]
      simp [hname, strictEq]
    | some i =>
      simp only []
      rw [findFirst_modifyAt _ _ _ i hidx]
      · obtain ⟨x, -, hx, -⟩ := findIndex_some_spec _ _ i hidx
        rw [hx]
        rfl
      · intro y _
        simp [getField_spread, hname, strictEq]
  simpa [getUserByUsername, saveUser, hname, getUsers, readList] using key (getUsers s)

theorem saveUser_getUserByUsername_witness :
    getField [("username", JVal.str "alice"), ("email", JVal.str "new@x.org")] "username"
        = some (JVal.str "alice") ∧
      getUserByUsername
          (saveUser
            { Store.empty with
              users := Slot.value
                [[("username", JVal.str "bob")],
                 [("username", JVal.str "alice"), ("email", JVal.str "old@x.org"),
                  ("bio", JVal.str "hi")]] }
            [("username", JVal.str "alice"), ("email", JVal.str "new@x.org")]).1 "alice"
        = some [("username", JVal.str "alice"), ("email", JVal.str "new@x.org"),
            ("bio", JVal.str "hi")] :=
  ⟨by decide,
    (saveUser_getUserByUsername _ _ "alice" (by decide)).trans (by decide)⟩

theorem findFirst_eq_find? {α : Type} (p : α → Bool) (l : List α) :
    findFirst p l = l.find? p := by
  induction l with
  | nil => rfl
  | cons x xs ih =>
    by_cases hp : p x = true
    · simp [findFirst, hp]
    · simp [findFirst, hp, ih]

theorem findFirst_eq_none_iff {α : Type} (p : α → Bool) (l : List α) :
    findFirst p l = none ↔ l.filter p = [] := by
  rw [findFirst_eq_find?, List.find?_eq_none, List.filter_eq_nil_iff]

theorem findFirst_some_mem {α : Type} (p : α → Bool) (l : List α) (x : α)
    (h : findFirst p l = some x) : x ∈ l ∧ p x = true := by
  rw [findFirst_eq_find?] at h
  exact ⟨List.mem_of_find?_eq_some h, List.find?_some h⟩

theorem findFirst_append_of_none {α : Type} (p : α → Bool) (l m : List α)
    (h : findFirst p l = none) : findFirst p (l ++ m) = findFirst p m := by
  rw [findFirst_eq_find?] at h
  simp [findFirst_eq_find?, List.find?_append, h]

/-! ## Friend requests -/

/-- C2 (as stated, refuted): in a store that already holds two pending requests
from `a` to `b`, two calls of `sendFriendRequest(a,b)` leave two of them; and in
a store that holds one, the first call creates no request and the second call
returns the stored one, whose id is not the one the first call would stamp. -/
theorem sendFriendRequest_twice_counterexample :
    (pendingRequests
        (sendFriendRequest ⟨2000, "t2"⟩
          (sendFriendRequest ⟨1000, "t1"⟩
            { Store.empty with
              friendRequests := Slot.value
                [⟨"1", "a", "b", "pending", "t"⟩, ⟨"2", "a", "b", "pending", "t"⟩] }
            "a" "b").1 "a" "b").1 "a" "b").length = 2 ∧
      (sendFriendRequest ⟨2000, "t2"⟩
          (sendFriendRequest ⟨1000, "t1"⟩
            { Store.empty with
              friendRequests := Slot.value [⟨"1", "a", "b", "pending", "t"⟩] }
            "a" "b").1 "a" "b").2.id ≠ (Clock.mk 1000 "t1").idText := by
  decide

/-- C2 (amended): in a store with at most one pending request from `a` to `b`,
two calls of `sendFriendRequest(a,b)` in a row leave exactly one; the second
call returns the request the first call returned and leaves the store as the
first call left it; and when none was pending before, that request is the one
the first call created and appended. -/
theorem sendFriendRequest_twice (c1 c2 : Clock) (s : Store) (a b : String)
    (hone : (pendingRequests s a b).length ≤ 1) :
    (pendingRequests (sendFriendRequest c2 (sendFriendRequest c1 s a b).1 a b).1 a b).length = 1 ∧
      (sendFriendRequest c2 (sendFriendRequest c1 s a b).1 a b).2
        = (sendFriendRequest c1 s a b).2 ∧
      (sendFriendRequest c2 (sendFriendRequest c1 s a b).1 a b).1
        = (sendFriendRequest c1 s a b).1 ∧
      (pendingRequests s a b = [] →
        (sendFriendRequest c1 s a b).2 = ⟨c1.idText, a, b, "pending", c1.iso⟩ ∧
        getFriendRequests (sendFriendRequest c1 s a b).1
          = getFriendRequests s ++ [(sendFriendRequest c1 s a b).2]) := by
  cases hfind : findFirst
      (fun r : FriendRequest => r.from_ == a && r.to_ == b && r.status == "pending")
      (getFriendRequests s) with
  | some r =>
    have hfirst : sendFriendRequest c1 s a b = (s, r) := by
      simp [sendFriendRequest, hfind]
    have hsecond : sendFriendRequest c2 s a b = (s, r) := by
      simp [sendFriendRequest, hfind]
    have hmem : r ∈ pendingRequests s a b := by
      obtain ⟨h1, h2⟩ := findFirst_some_mem _ _ _ hfind
      exact List.mem_filter.2 ⟨h1, h2⟩
    rw [hfirst]
    dsimp only
    rw [hsecond]
    refine ⟨?_, rfl, rfl, ?_⟩
    · have hpos : 0 < (pendingRequests s a b).length := List.length_pos_of_mem hmem
      show (pendingRequests s a b).length = 1
      omega
    · intro hnil
      rw [hnil] at hmem
      simp at hmem
  | none =>
    have hnil : pendingRequests s a b = [] := (findFirst_eq_none_iff _ _).1 hfind
    obtain ⟨r, hr⟩ : ∃ r : FriendRequest, r = ⟨c1.idText, a, b, "pending", c1.iso⟩ := ⟨_, rfl⟩
    obtain ⟨s1, hs1⟩ : ∃ s1 : Store,
        s1 = { s with friendRequests := Slot.value (getFriendRequests s ++ [r]) } := ⟨_, rfl⟩
    have hreqs : getFriendRequests s1 = getFriendRequests s ++ [r] := by
      rw [hs1]
      rfl
    have hfirst : sendFriendRequest c1 s a b = (s1, r) := by
      simp [sendFriendRequest, hfind, hs1, hr]
    have hfind2 : findFirst
        (fun r : FriendRequest => r.from_ == a && r.to_ == b && r.status == "pending")
        (getFriendRequests s1) = some r := by
      rw [hreqs, findFirst_append_of_none _ _ _ hfind]
      simp [findFirst, hr]
    have hsecond : sendFriendRequest c2 s1 a b = (s1, r) := by
      simp [sendFriendRequest, hfind2]
    rw [hfirst]
    dsimp only
    rw [hsecond]
    refine ⟨?_, rfl, rfl, fun _ => ⟨hr, hreqs⟩⟩
    show (pendingRequests s1 a b).length = 1
    unfold pendingRequests at hnil ⊢
    rw [hreqs, List.filter_append, hnil]
    simp [hr]

theorem sendFriendRequest_twice_witness :
    (pendingRequests Store.empty "a" "b").length ≤ 1 ∧
      (pendingRequests
        (sendFriendRequest ⟨2000, "t2"⟩ (sendFriendRequest ⟨1000, "t1"⟩ Store.empty "a" "b").1
          "a" "b").1 "a" "b").length = 1 :=
  ⟨by decide,
    (sendFriendRequest_twice ⟨1000, "t1"⟩ ⟨2000, "t2"⟩ Store.empty "a" "b" (by decide)).1⟩

theorem elemAt_modifyAt {α : Type} (f : α → α) :
    ∀ (l : List α) (i j : Nat),
      elemAt (modifyAt f i l) j = if j = i then (elemAt l j).map f else elemAt l j := by
  intro l
  induction l with
  | nil => intro i j; cases i <;> simp [modifyAt, elemAt]
  | cons x xs ih =>
    intro i j
    cases i with
    | zero =>
      cases j with
      | zero => simp [modifyAt, elemAt]
      | succ j => simp [modifyAt, elemAt]
    | succ i =>
      cases j with
      | zero => simp [modifyAt, elemAt]
      | succ j => simp [modifyAt, elemAt, ih i j]

theorem findFirst_some_findIndex {α : Type} (p : α → Bool) :
    ∀ (l : List α) (x : α), findFirst p l = some x →
      ∃ i, findIndex p l = some i ∧ elemAt l i = some x := by
  intro l
  induction l with
  | nil => intro x h; simp [findFirst] at h
  | cons y ys ih =>
    intro x h
    by_cases hp : p y = true
    · simp only [findFirst, hp, if_true, Option.some.injEq] at h
      subst h
      exact ⟨0, by simp [findIndex, hp], rfl⟩
    · simp only [findFirst, hp, Bool.false_eq_true, if_false] at h
      obtain ⟨i, hi, hx⟩ := ih x h
      exact ⟨i + 1, by simp [findIndex, hp, hi], by simpa [elemAt] using hx⟩

theorem findIndex_usernames (v : Option JVal) (l : List Record) :
    findIndex (fun u => strictEq (getField u "username") v) l
      = findIndex (fun o => strictEq o v) (usernames l) := by
  induction l with
  | nil => rfl
  | cons x xs ih =>
    simp only [usernames, List.map_cons, findIndex] at ih ⊢
    rw [ih]

theorem usernames_modifyAt (f : Record → Record)
    (hf : ∀ u, getField (f u) "username" = getField u "username") :
    ∀ (l : List Record) (i : Nat), usernames (modifyAt f i l) = usernames l := by
  intro l
  induction l with
  | nil => intro i; cases i <;> rfl
  | cons x xs ih =>
    intro i
    cases i with
    | zero => simp [modifyAt, usernames, hf]
    | succ i =>
      have := ih i
      simp only [usernames] at this
      simp [modifyAt, usernames, this]

/-! ## The friends lists -/

theorem includes_append (fs : List JVal) (x y : String) (h : includes fs x = true) :
    includes (fs ++ [JVal.str y]) x = true := by
  simp only [includes, List.any_append, Bool.or_eq_true] at h ⊢
  exact Or.inl h

theorem includes_append_self (fs : List JVal) (y : String) :
    includes (fs ++ [JVal.str y]) y = true := by
  simp [includes, strictEq]

theorem friendsList_setField (u : Record) (fs : List JVal) :
    friendsList (setField u "friends" (JVal.arr fs)) = some fs := by
  simp [friendsList, getField_setField_same]

theorem friendsOk_of_friendsList (u : Record) (fs : List JVal) (h : friendsList u = some fs) :
    friendsOk u = true := by
  unfold friendsList at h
  unfold friendsOk
  split at h <;> simp_all

theorem truthy_of_friendsList (u : Record) (fs : List JVal) (h : friendsList u = some fs) :
    truthy (getField u "friends") = true := by
  unfold friendsList at h
  split at h
  · rename_i hf
    rw [hf]
    rfl
  · simp at h

theorem usernames_ensureFriends (i : Nat) (l : List Record) :
    usernames (ensureFriends i l) = usernames l := by
  unfold ensureFriends
  apply usernames_modifyAt
  intro u
  split
  · rfl
  · exact getField_setField_other _ _ _ _ (by decide)

/-- The step `if (!users[i].friends) users[i].friends = []`, seen from any index. -/
theorem ensureFriends_elemAt (i : Nat) (l : List Record) (j : Nat) (u : Record)
    (h : elemAt l j = some u) (hok : friendsOk u = true) :
    ∃ u', elemAt (ensureFriends i l) j = some u' ∧ friendsOk u' = true ∧
      (j = i → (friendsList u').isSome = true) ∧
      ((friendsList u).isSome = true → (friendsList u').isSome = true) := by
  unfold ensureFriends
  rw [elemAt_modifyAt, h]
  by_cases hji : j = i
  · simp only [hji, if_true, Option.map_some']
    by_cases ht : truthy (getField u "friends") = true
    · simp only [ht, if_true]
      refine ⟨u, rfl, hok, fun _ => ?_, fun hx => hx⟩
      unfold friendsOk at hok
      unfold friendsList
      split at hok
      · rename_i hf
        simp [hf]
      · simp [ht] at hok
    · simp only [ht, Bool.false_eq_true, if_false]
      refine ⟨_, rfl, friendsOk_of_friendsList _ [] (friendsList_setField _ _), fun _ => ?_,
        fun _ => ?_⟩ <;> simp [friendsList_setField]
  · simp only [hji, if_false]
    exact ⟨u, rfl, hok, fun hx => hx.elim, fun hx => hx⟩

/-- The step `if (!users[i].friends.includes(name)) users[i].friends.push(name)` on
a record whose `friends` is an array: it does not raise, keeps every username,
keeps every array and what it contains, and leaves `name` in the array at `i`. -/
theorem addFriend_spec (i : Nat) (name : String) (l : List Record) (u : Record)
    (h : elemAt l i = some u) (harr : (friendsList u).isSome = true) :
    ∃ l', addFriend i name l = Except.ok l' ∧ usernames l' = usernames l ∧
      ∀ j w, elemAt l j = some w →
        ∃ w', elemAt l' j = some w' ∧
          ((friendsList w).isSome = true → (friendsList w').isSome = true) ∧
          (∀ x, listsFriend w x = true → listsFriend w' x = true) ∧
          (j = i → listsFriend w' name = true) := by
  obtain ⟨fs, hfs⟩ := Option.isSome_iff_exists.1 harr
  have hget : getField u "friends" = some (JVal.arr fs) := by
    unfold friendsList at hfs
    split at hfs
    · rename_i hf
      simp only [Option.some.injEq] at hfs
      rw [hf, hfs]
    · simp at hfs
  by_cases hinc : includes fs name = true
  · refine ⟨l, by simp [addFriend, h, hget, hinc], rfl, ?_⟩
    intro j w hw
    refine ⟨w, hw, fun hx => hx, fun _ hx => hx, fun hji => ?_⟩
    subst hji
    rw [h] at hw
    cases hw
    simp [listsFriend, hfs, hinc]
  · refine ⟨modifyAt (fun u' => setField u' "friends" (JVal.arr (fs ++ [JVal.str name]))) i l,
      by simp [addFriend, h, hget, hinc], ?_, ?_⟩
    · apply usernames_modifyAt
      intro r
      exact getField_setField_other _ _ _ _ (by decide)
    · intro j w hw
      rw [elemAt_modifyAt, hw]
      by_cases hji : j = i
      · subst hji
        rw [h] at hw
        cases hw
        simp only [if_true, Option.map_some']
        refine ⟨_, rfl, fun _ => by simp [friendsList_setField], fun x hx => ?_, fun _ => ?_⟩
        · simp only [listsFriend, hfs] at hx
          simp only [listsFriend, friendsList_setField]
          exact includes_append _ _ _ hx
        · simp only [listsFriend, friendsList_setField]
          exact includes_append_self _ _
      · simp only [hji, if_false]
        exact ⟨w, rfl, fun hx => hx, fun _ hx => hx, fun hx => hx.elim⟩

theorem refreshCurrentUser_users (s : Store) (r : FriendRequest) (users : List Record)
    (fi ti : Nat) : (refreshCurrentUser s r users fi ti).users = s.users := by
  unfold refreshCurrentUser
  split
  · rfl
  · split
    · split <;> rfl
    · split
      · split <;> rfl
      · rfl

theorem refreshCurrentUser_friendRequests (s : Store) (r : FriendRequest)
    (users : List Record) (fi ti : Nat) :
    (refreshCurrentUser s r users fi ti).friendRequests = s.friendRequests := by
  unfold refreshCurrentUser
  split
  · rfl
  · split
    · split <;> rfl
    · split
      · split <;> rfl
      · rfl

/-- The four steps on the users array in `acceptFriendRequest`, for two stored
users whose `friends` fields are arrays or falsy. -/
theorem friends_steps (users : List Record) (a b : String) (fi ti : Nat) (ua ub : Record)
    (hfi : elemAt users fi = some ua) (hti : elemAt users ti = some ub)
    (hoka : friendsOk ua = true) (hokb : friendsOk ub = true) :
    ∃ users3 users4,
      addFriend fi b (ensureFriends ti (ensureFriends fi users)) = Except.ok users3 ∧
      addFriend ti a users3 = Except.ok users4 ∧
      usernames users4 = usernames users ∧
      (∃ u4, elemAt users4 fi = some u4 ∧ listsFriend u4 b = true) ∧
      (∃ v4, elemAt users4 ti = some v4 ∧ listsFriend v4 a = true) := by
  obtain ⟨u1, hu1, hu1ok, hu1arr, -⟩ := ensureFriends_elemAt fi users fi ua hfi hoka
  obtain ⟨v1, hv1, hv1ok, -, -⟩ := ensureFriends_elemAt fi users ti ub hti hokb
  obtain ⟨u2, hu2, -, -, hu2arr⟩ := ensureFriends_elemAt ti _ fi u1 hu1 hu1ok
  obtain ⟨v2, hv2, -, hv2arr, -⟩ := ensureFriends_elemAt ti _ ti v1 hv1 hv1ok
  obtain ⟨users3, h3, hn3, hspec3⟩ :=
    addFriend_spec fi b _ u2 hu2 (hu2arr (hu1arr rfl))
  obtain ⟨u3, hu3, -, -, hu3b⟩ := hspec3 fi u2 hu2
  obtain ⟨v3, hv3, hv3arr, -, -⟩ := hspec3 ti v2 hv2
  obtain ⟨users4, h4, hn4, hspec4⟩ :=
    addFriend_spec ti a users3 v3 hv3 (hv3arr (hv2arr rfl))
  obtain ⟨u4, hu4, -, hu4keep, -⟩ := hspec4 fi u3 hu3
  obtain ⟨v4, hv4, -, -, hv4a⟩ := hspec4 ti v3 hv3
  refine ⟨users3, users4, h3, h4, ?_, ⟨u4, hu4, hu4keep b (hu3b rfl)⟩, ⟨v4, hv4, hv4a rfl⟩⟩
  rw [hn4, hn3, usernames_ensureFriends, usernames_ensureFriends]

/-- C3 (as stated, refuted): the store holds the request `1` from `alice` to
`bob` and the user `alice` only; after `acceptFriendRequest("1")` no `bob` is
stored and `alice` has no `friends` that contains `bob`.  Two more stores, both
with `alice` and `bob` stored: an older request from `carol` to `dave` carries
the same id `1`, and it is the one accepted; the `friends` field of `alice` is
the number `7`, and the call raises before any user is written. -/
theorem acceptFriendRequest_symmetric_counterexample :
    (hasFriend
        (acceptFriendRequest
          { Store.empty with
            users := Slot.value [[("username", JVal.str "alice")]],
            friendRequests := Slot.value [⟨"1", "alice", "bob", "pending", "t"⟩] }
          "1").1 "alice" "bob" = false ∧
      getUserByUsername
        (acceptFriendRequest
          { Store.empty with
            users := Slot.value [[("username", JVal.str "alice")]],
            friendRequests := Slot.value [⟨"1", "alice", "bob", "pending", "t"⟩] }
          "1").1 "bob" = none) ∧
      hasFriend
        (acceptFriendRequest
          { Store.empty with
            users := Slot.value
              [[("username", JVal.str "alice")], [("username", JVal.str "bob")],
               [("username", JVal.str "carol")], [("username", JVal.str "dave")]],
            friendRequests := Slot.value
              [⟨"1", "carol", "dave", "pending", "t"⟩, ⟨"1", "alice", "bob", "pending", "t"⟩] }
          "1").1 "alice" "bob" = false ∧
      ((acceptFriendRequest
          { Store.empty with
            users := Slot.value
              [[("username", JVal.str "alice"), ("friends", JVal.num 7)],
               [("username", JVal.str "bob")]],
            friendRequests := Slot.value [⟨"1", "alice", "bob", "pending", "t"⟩] }
          "1").2 = Except.error "TypeError" ∧
        hasFriend
          (acceptFriendRequest
            { Store.empty with
              users := Slot.value
                [[("username", JVal.str "alice"), ("friends", JVal.num 7)],
                 [("username", JVal.str "bob")]],
              friendRequests := Slot.value [⟨"1", "alice", "bob", "pending", "t"⟩] }
            "1").1 "bob" "alice" = false) :=
  ⟨by decide, by decide, rfl, by decide⟩

/-- C3 (amended): when the first request with id `i` goes from `a` to `b`, both
users are stored, and the `friends` field of each is an array or falsy, then
`acceptFriendRequest(i)` returns the accepted request, and afterwards the friends
list of `getUserByUsername(a)` contains `b` and that of `getUserByUsername(b)`
contains `a`. -/
theorem acceptFriendRequest_symmetric (s : Store) (i a b : String) (r : FriendRequest)
    (ua ub : Record)
    (hreq : findFirst (fun q => q.id == i) (getFriendRequests s) = some r)
    (hfrom : r.from_ = a) (hto : r.to_ = b)
    (hua : getUserByUsername s a = some ua) (hub : getUserByUsername s b = some ub)
    (hoka : friendsOk ua = true) (hokb : friendsOk ub = true) :
    (acceptFriendRequest s i).2 = Except.ok (some { r with status := "accepted" }) ∧
      hasFriend (acceptFriendRequest s i).1 a b = true ∧
      hasFriend (acceptFriendRequest s i).1 b a = true := by
  obtain ⟨ri, hri, hrelem⟩ := findFirst_some_findIndex _ _ _ hreq
  obtain ⟨fi, hfi, hfelem⟩ := findFirst_some_findIndex _ _ _ hua
  obtain ⟨ti, hti, htelem⟩ := findFirst_some_findIndex _ _ _ hub
  have hmod : elemAt (modifyAt (fun q : FriendRequest => { q with status := "accepted" }) ri
      (getFriendRequests s)) ri = some { r with status := "accepted" } := by
    rw [elemAt_modifyAt, hrelem]
    simp
  obtain ⟨users3, users4, h3, h4, hnames, ⟨u4, hu4, hu4b⟩, ⟨v4, hv4, hv4a⟩⟩ :=
    friends_steps (getUsers s) a b fi ti ua ub hfelem htelem hoka hokb
  have hfi4 : findIndex (fun u => strictEq (getField u "username") (some (JVal.str a))) users4
      = some fi := by
    rw [findIndex_usernames, hnames, ← findIndex_usernames]
    exact hfi
  have hti4 : findIndex (fun u => strictEq (getField u "username") (some (JVal.str b))) users4
      = some ti := by
    rw [findIndex_usernames, hnames, ← findIndex_usernames]
    exact hti
  obtain ⟨x, hx, hfx, -⟩ := findIndex_some_spec _ _ _ hfi4
  obtain ⟨y, hy, hfy, -⟩ := findIndex_some_spec _ _ _ hti4
  rw [hu4] at hx
  rw [hv4] at hy
  cases hx
  cases hy
  have hrun : acceptFriendRequest s i =
      (refreshCurrentUser
          { s with
            friendRequests := Slot.value
              (modifyAt (fun q : FriendRequest => { q with status := "accepted" }) ri
                (getFriendRequests s)),
            users := Slot.value users4 }
          { r with status := "accepted" } users4 fi ti,
        Except.ok (some { r with status := "accepted" })) := by
    unfold acceptFriendRequest
    simp only [hri, hmod]
    subst hfrom hto
    simp only [getUsers] at hfi hti h3 h4
    simp only [getUsers, hfi, hti, h3, h4]
  rw [hrun]
  refine ⟨rfl, ?_, ?_⟩
  · simp only [hasFriend, getUserByUsername, getUsers, refreshCurrentUser_users, readList, hfx,
      hu4b]
  · simp only [hasFriend, getUserByUsername, getUsers, refreshCurrentUser_users, readList, hfy,
      hv4a]

theorem acceptFriendRequest_symmetric_witness :
    hasFriend
        (acceptFriendRequest
          { Store.empty with
            users := Slot.value
              [[("username", JVal.str "alice")],
               [("username", JVal.str "bob"), ("friends", JVal.arr [JVal.str "carol"])]],
            friendRequests := Slot.value [⟨"1", "alice", "bob", "pending", "t"⟩] }
          "1").1 "alice" "bob" = true ∧
      hasFriend
        (acceptFriendRequest
          { Store.empty with
            users := Slot.value
              [[("username", JVal.str "alice")],
               [("username", JVal.str "bob"), ("friends", JVal.arr [JVal.str "carol"])]],
            friendRequests := Slot.value [⟨"1", "alice", "bob", "pending", "t"⟩] }
          "1").1 "bob" "alice" = true :=
  (acceptFriendRequest_symmetric _ "1" "alice" "bob" ⟨"1", "alice", "bob", "pending", "t"⟩
    [("username", JVal.str "alice")]
    [("username", JVal.str "bob"), ("friends", JVal.arr [JVal.str "carol"])]
    (by decide) rfl rfl (by decide) (by decide) (by decide) (by decide)).2

/-- C4: in a store whose users are `alice` and `bob`, neither with a `friends`
field, and with no friend request yet, `sendFriendRequest("alice","bob")` followed
by `acceptFriendRequest` of the returned id leaves `alice.friends = ["bob"]`,
`bob.friends = ["alice"]`, and the one stored request with status `accepted`. -/
theorem scenario_alice_bob_friends (c : Clock) (s : Store) (ua ub : Record)
    (husers : getUsers s = [ua, ub])
    (hna : getField ua "username" = some (JVal.str "alice"))
    (hnb : getField ub "username" = some (JVal.str "bob"))
    (hfa : getField ua "friends" = none) (hfb : getField ub "friends" = none)
    (hreqs : getFriendRequests s = []) :
    (getUserByUsername
        (acceptFriendRequest (sendFriendRequest c s "alice" "bob").1
          (sendFriendRequest c s "alice" "bob").2.id).1 "alice").bind
        (fun u => getField u "friends") = some (JVal.arr [JVal.str "bob"]) ∧
      (getUserByUsername
        (acceptFriendRequest (sendFriendRequest c s "alice" "bob").1
          (sendFriendRequest c s "alice" "bob").2.id).1 "bob").bind
        (fun u => getField u "friends") = some (JVal.arr [JVal.str "alice"]) ∧
      getFriendRequests
        (acceptFriendRequest (sendFriendRequest c s "alice" "bob").1
          (sendFriendRequest c s "alice" "bob").2.id).1
        = [⟨c.idText, "alice", "bob", "accepted", c.iso⟩] := by
  have hsend : sendFriendRequest c s "alice" "bob" =
      ({ s with friendRequests := Slot.value [⟨c.idText, "alice", "bob", "pending", c.iso⟩] },
        ⟨c.idText, "alice", "bob", "pending", c.iso⟩) := by
    simp [sendFriendRequest, hreqs, findFirst]
  rw [hsend]
  simp only [getUsers] at husers
  have hab : strictEq (getField ua "username") (some (JVal.str "bob")) = false := by
    rw [hna]; decide
  have haa : strictEq (getField ua "username") (some (JVal.str "alice")) = true := by
    rw [hna]; decide
  have hbb : strictEq (getField ub "username") (some (JVal.str "bob")) = true := by
    rw [hnb]; decide
  have hba : strictEq (getField ub "username") (some (JVal.str "alice")) = false := by
    rw [hnb]; decide
  have hrun : acceptFriendRequest
      { s with friendRequests := Slot.value [⟨c.idText, "alice", "bob", "pending", c.iso⟩] }
      c.idText =
      (refreshCurrentUser
        { s with
          friendRequests := Slot.value [⟨c.idText, "alice", "bob", "accepted", c.iso⟩],
          users := Slot.value
            [setField ua "friends" (JVal.arr [JVal.str "bob"]),
             setField ub "friends" (JVal.arr [JVal.str "alice"])] }
        ⟨c.idText, "alice", "bob", "accepted", c.iso⟩
        [setField ua "friends" (JVal.arr [JVal.str "bob"]),
         setField ub "friends" (JVal.arr [JVal.str "alice"])] 0 1,
        Except.ok (some ⟨c.idText, "alice", "bob", "accepted", c.iso⟩)) := by
    have htruthy : truthy none = false := rfl
    simp [acceptFriendRequest, getFriendRequests, getUsers, readList_value, husers, findIndex,
      modifyAt, elemAt, haa, hab, hbb, hba, ensureFriends, addFriend, hfa, hfb, htruthy,
      getField_setField_same, setField_setField_same, includes]
  rw [hrun]
  simp [getUserByUsername, getUsers, refreshCurrentUser_users, readList_value, findFirst,
    getField_setField_other, getField_setField_same, haa, hab, hbb, hba, getFriendRequests,
    refreshCurrentUser_friendRequests]

theorem scenario_alice_bob_friends_witness :
    (getUserByUsername
        (acceptFriendRequest
          (sendFriendRequest ⟨3000, "t3"⟩
            (handleRegister ⟨2000, "t2"⟩
              (handleRegister ⟨1000, "t1"⟩ Store.empty "alice" "alice@x.org" "pw1")
              "bob" "bob@x.org" "pw2")
            "alice" "bob").1
          (sendFriendRequest ⟨3000, "t3"⟩
            (handleRegister ⟨2000, "t2"⟩
              (handleRegister ⟨1000, "t1"⟩ Store.empty "alice" "alice@x.org" "pw1")
              "bob" "bob@x.org" "pw2")
            "alice" "bob").2.id).1 "alice").bind
        (fun u => getField u "friends") = some (JVal.arr [JVal.str "bob"]) :=
  (scenario_alice_bob_friends ⟨3000, "t3"⟩
    (handleRegister ⟨2000, "t2"⟩
      (handleRegister ⟨1000, "t1"⟩ Store.empty "alice" "alice@x.org" "pw1")
      "bob" "bob@x.org" "pw2")
    [("id", JVal.str "1000"), ("username", JVal.str "alice"),
      ("email", JVal.str "alice@x.org"), ("password", JVal.str "pw1")]
    [("id", JVal.str "2000"), ("username", JVal.str "bob"),
      ("email", JVal.str "bob@x.org"), ("password", JVal.str "pw2")]
    (by decide) (by decide) (by decide) (by decide) (by decide) (by decide)).1

/-! ## Likes -/

/-- C5 (as stated, refuted): when `u` already likes `p`, two calls of
`toggleLike(p,u)` return `false` and then `true`; and when the collection holds
two likes of `p` by `u`, `getPostLikes(p)` has length two before the calls and
one after them. -/
theorem toggleLike_twice_counterexample :
    ((toggleLike ⟨1000, "t1"⟩
          { Store.empty with likes := Slot.value [⟨"1", "p", "u", "t0"⟩] } "p" "u").2 = false ∧
      (toggleLike ⟨2000, "t2"⟩
        (toggleLike ⟨1000, "t1"⟩
          { Store.empty with likes := Slot.value [⟨"1", "p", "u", "t0"⟩] } "p" "u").1
        "p" "u").2 = true) ∧
      ((getPostLikes
          { Store.empty with
            likes := Slot.value [⟨"1", "p", "u", "t0"⟩, ⟨"2", "p", "u", "t0"⟩] } "p").length = 2 ∧
        (getPostLikes
          (toggleLike ⟨2000, "t2"⟩
            (toggleLike ⟨1000, "t1"⟩
              { Store.empty with
                likes := Slot.value [⟨"1", "p", "u", "t0"⟩, ⟨"2", "p", "u", "t0"⟩] }
              "p" "u").1
            "p" "u").1 "p").length = 1) := by
  decide

theorem filter_not_eq_self_of_any_false {α : Type} (q : α → Bool) (l : List α)
    (h : findFirst q l = none) : l.filter (fun x => !q x) = l := by
  rw [findFirst_eq_find?, List.find?_eq_none] at h
  rw [List.filter_eq_self]
  intro x hx
  simpa using h x hx

theorem isPostLiked_eq_findFirst (s : Store) (p u : String) :
    isPostLiked s p u
      = (findFirst (fun l : Like => l.postId == p && l.username == u) (getLikes s)).isSome := by
  unfold isPostLiked
  rw [findFirst_eq_find?, Bool.eq_iff_iff, List.any_eq_true, List.find?_isSome]

/-- The call that likes: no like of the pair is stored, one is appended. -/
theorem toggleLike_of_none (c : Clock) (s : Store) (p u : String)
    (h : findFirst (fun l : Like => l.postId == p && l.username == u) (getLikes s) = none) :
    toggleLike c s p u
      = ({ s with likes := Slot.value (getLikes s ++ [⟨c.idText, p, u, c.iso⟩]) }, true) := by
  simp [toggleLike, h]

/-- The call that unlikes: every like of the pair is taken out. -/
theorem toggleLike_of_some (c : Clock) (s : Store) (p u : String) (l : Like)
    (h : findFirst (fun l : Like => l.postId == p && l.username == u) (getLikes s) = some l) :
    toggleLike c s p u
      = ({ s with
           likes := Slot.value
             ((getLikes s).filter (fun l => !(l.postId == p && l.username == u))) }, false) := by
  simp [toggleLike, h]

theorem findFirst_filter_not {α : Type} (q : α → Bool) (l : List α) :
    findFirst q (l.filter (fun x => !q x)) = none := by
  rw [findFirst_eq_none_iff]
  induction l with
  | nil => rfl
  | cons x l ih =>
    cases hx : q x <;> simp [List.filter_cons, hx, ih]

/-- The elements a filter keeps, counted apart from those a narrower test picks. -/
theorem filter_length_split {α : Type} (keep q : α → Bool) (l : List α)
    (hq : ∀ x, q x = true → keep x = true) :
    (l.filter keep).length
      = ((l.filter (fun x => !q x)).filter keep).length + (l.filter q).length := by
  induction l with
  | nil => rfl
  | cons x l ih =>
    cases hx : q x
    · cases hk : keep x
      · simp [List.filter_cons, hx, hk, ih]
      · simp [List.filter_cons, hx, hk, ih]
        omega
    · have hk := hq x hx
      simp [List.filter_cons, hx, hk, ih]
      omega

theorem filter_length_pos_of_findFirst {α : Type} (q : α → Bool) (l : List α) (x : α)
    (h : findFirst q l = some x) : 0 < (l.filter q).length := by
  have hmem := findFirst_some_mem q l x h
  exact List.length_pos_of_mem (List.mem_filter.2 hmem)

/-- C5 (amended): two calls of `toggleLike(p,u)` in a row return the negation of
`isPostLiked(p,u)` as it was before them and then its value: `true` and then
`false` when `u` did not like `p`, `false` and then `true` when `u` did.  When
`u` did not like `p` the likes collection is again what it was; and when the
collection held at most one like of `p` by `u`, `getPostLikes(p)` has the
length it had before the first call. -/
theorem toggleLike_twice (c1 c2 : Clock) (s : Store) (p u : String) :
    (toggleLike c1 s p u).2 = !isPostLiked s p u ∧
      (toggleLike c2 (toggleLike c1 s p u).1 p u).2 = isPostLiked s p u ∧
      (isPostLiked s p u = false →
        (toggleLike c1 s p u).2 = true ∧
        (toggleLike c2 (toggleLike c1 s p u).1 p u).2 = false ∧
        getLikes (toggleLike c2 (toggleLike c1 s p u).1 p u).1 = getLikes s) ∧
      (isPostLiked s p u = true →
        (toggleLike c1 s p u).2 = false ∧
        (toggleLike c2 (toggleLike c1 s p u).1 p u).2 = true) ∧
      (((getLikes s).filter (fun l => l.postId == p && l.username == u)).length ≤ 1 →
        (getPostLikes (toggleLike c2 (toggleLike c1 s p u).1 p u).1 p).length
          = (getPostLikes s p).length) := by
  rw [isPostLiked_eq_findFirst]
  cases hfind : findFirst (fun l : Like => l.postId == p && l.username == u) (getLikes s) with
  | none =>
    have hfind2 : findFirst (fun l : Like => l.postId == p && l.username == u)
        (getLikes
          ({ s with likes := Slot.value (getLikes s ++ [⟨c1.idText, p, u, c1.iso⟩]) } : Store))
        = some ⟨c1.idText, p, u, c1.iso⟩ := by
      show findFirst _ (getLikes s ++ [(⟨c1.idText, p, u, c1.iso⟩ : Like)]) = _
      rw [findFirst_append_of_none _ _ _ hfind]
      simp [findFirst]
    have hlikes : getLikes
        (toggleLike c2 (toggleLike c1 s p u).1 p u).1 = getLikes s := by
      rw [toggleLike_of_none c1 s p u hfind]
      dsimp only
      rw [toggleLike_of_some c2 _ p u _ hfind2]
      show (getLikes s ++ [(⟨c1.idText, p, u, c1.iso⟩ : Like)]).filter _ = getLikes s
      rw [List.filter_append, filter_not_eq_self_of_any_false _ _ hfind]
      simp
    have hfirst : (toggleLike c1 s p u).2 = true := by
      rw [toggleLike_of_none c1 s p u hfind]
    have hsecond : (toggleLike c2 (toggleLike c1 s p u).1 p u).2 = false := by
      rw [toggleLike_of_none c1 s p u hfind]
      dsimp only
      rw [toggleLike_of_some c2 _ p u _ hfind2]
    refine ⟨hfirst, hsecond, fun _ => ⟨hfirst, hsecond, hlikes⟩,
      (by intro h; simp at h), fun _ => ?_⟩
    unfold getPostLikes
    rw [hlikes]
  | some l =>
    have hfind2 : findFirst (fun l : Like => l.postId == p && l.username == u)
        (getLikes
          ({ s with
             likes := Slot.value
               ((getLikes s).filter (fun l => !(l.postId == p && l.username == u))) } : Store))
        = none :=
      findFirst_filter_not (fun l : Like => l.postId == p && l.username == u) (getLikes s)
    have hfirst : (toggleLike c1 s p u).2 = false := by
      rw [toggleLike_of_some c1 s p u l hfind]
    have hsecond : (toggleLike c2 (toggleLike c1 s p u).1 p u).2 = true := by
      rw [toggleLike_of_some c1 s p u l hfind]
      dsimp only
      rw [toggleLike_of_none c2 _ p u hfind2]
    refine ⟨hfirst, hsecond, (by intro h; simp at h), fun _ => ⟨hfirst, hsecond⟩,
      fun hone => ?_⟩
    have hpos := filter_length_pos_of_findFirst _ _ _ hfind
    have hsplit := filter_length_split (fun l : Like => l.postId == p)
      (fun l : Like => l.postId == p && l.username == u) (getLikes s)
      (fun x hx => by
        simp only [Bool.and_eq_true] at hx
        exact hx.1)
    have hlikes : getLikes (toggleLike c2 (toggleLike c1 s p u).1 p u).1
        = (getLikes s).filter (fun l => !(l.postId == p && l.username == u))
          ++ [⟨c2.idText, p, u, c2.iso⟩] := by
      rw [toggleLike_of_some c1 s p u l hfind]
      dsimp only
      rw [toggleLike_of_none c2 _ p u hfind2]
      rfl
    unfold getPostLikes
    rw [hlikes, List.filter_append, List.length_append, hsplit]
    simp
    omega

/-- C5 at a collection in which `u` likes `p` once and `v` likes `p`: the calls
return `false` and then `true`, and `getPostLikes(p)` has length two again. -/
theorem toggleLike_twice_witness :
    ((getLikes
          { Store.empty with
            likes := Slot.value [⟨"1", "p", "u", "t0"⟩, ⟨"2", "p", "v", "t0"⟩] }).filter
        (fun l => l.postId == "p" && l.username == "u")).length ≤ 1 ∧
      (getPostLikes
          { Store.empty with
            likes := Slot.value [⟨"1", "p", "u", "t0"⟩, ⟨"2", "p", "v", "t0"⟩] } "p").length = 2 ∧
      (getPostLikes
        (toggleLike ⟨2000, "t2"⟩
          (toggleLike ⟨1000, "t1"⟩
            { Store.empty with
              likes := Slot.value [⟨"1", "p", "u", "t0"⟩, ⟨"2", "p", "v", "t0"⟩] } "p" "u").1
          "p" "u").1 "p").length
        = (getPostLikes
          { Store.empty with
            likes := Slot.value [⟨"1", "p", "u", "t0"⟩, ⟨"2", "p", "v", "t0"⟩] } "p").length :=
  ⟨by decide, by decide,
    (toggleLike_twice ⟨1000, "t1"⟩ ⟨2000, "t2"⟩
      { Store.empty with
        likes := Slot.value [⟨"1", "p", "u", "t0"⟩, ⟨"2", "p", "v", "t0"⟩] } "p" "u").2.2.2.2
      (by decide)⟩

/-- C6: the empty likes collection holds at most one Like per (postId, username)
pair, and `toggleLike` takes a collection that does to one that does. -/
theorem toggleLike_preserves_likesUnique :
    likesUnique [] ∧
      ∀ (c : Clock) (s : Store) (p u : String),
        likesUnique (getLikes s) → likesUnique (getLikes (toggleLike c s p u).1) := by
  refine ⟨fun _ _ => by simp, ?_⟩
  intro c s p u hinv p' u'
  cases hfind : findFirst (fun l : Like => l.postId == p && l.username == u) (getLikes s) with
  | some l =>
    have hrun : getLikes (toggleLike c s p u).1 =
        (getLikes s).filter (fun l => !(l.postId == p && l.username == u)) := by
      simp only [getLikes] at hfind
      simp only [toggleLike, getLikes, hfind, readList_value]
    rw [hrun]
    have hsub : List.Sublist
        (((getLikes s).filter (fun l => !(l.postId == p && l.username == u))).filter
          (fun l => l.postId == p' && l.username == u'))
        ((getLikes s).filter (fun l => l.postId == p' && l.username == u')) :=
      (List.filter_sublist _).filter _
    exact le_trans hsub.length_le (hinv p' u')
  | none =>
    have hrun : getLikes (toggleLike c s p u).1 = getLikes s ++ [⟨c.idText, p, u, c.iso⟩] := by
      simp only [getLikes] at hfind
      simp only [toggleLike, getLikes, hfind, readList_value]
    rw [hrun, List.filter_append]
    by_cases hsame : p = p' ∧ u = u'
    · obtain ⟨rfl, rfl⟩ := hsame
      rw [(findFirst_eq_none_iff _ _).1 hfind]
      simp
    · have hnew : ((⟨c.idText, p, u, c.iso⟩ : Like).postId == p' &&
          (⟨c.idText, p, u, c.iso⟩ : Like).username == u') = false := by
        simp only [Bool.and_eq_false_imp, beq_iff_eq, beq_eq_false_iff_ne]
        intro hp hu
        exact hsame ⟨hp, hu⟩
      simp only [List.filter_cons, hnew, List.filter_nil, List.append_nil, Bool.false_eq_true,
        if_false]
      exact hinv p' u'

theorem toggleLike_preserves_likesUnique_witness :
    likesUnique (getLikes (toggleLike ⟨1000, "t1"⟩ Store.empty "p" "u").1) :=
  toggleLike_preserves_likesUnique.2 ⟨1000, "t1"⟩ Store.empty "p" "u"
    (fun _ _ => Nat.zero_le 1)

/-! ## Notifications -/

/-- C9: `getNotifications()` after `addNotification(x)` is the new record
followed by the notifications there were, unchanged and in their order. -/
theorem addNotification_prepends (c : Clock) (s : Store) (x : Record) :
    getNotifications (addNotification c s x).1
      = (addNotification c s x).2 :: getNotifications s := rfl

/-- C10 (as stated, refuted): a notification that carries `read`, `id` and
`timestamp` keeps its own values in the record `addNotification` stores and returns. -/
theorem addNotification_stamps_counterexample :
    getField
        (addNotification ⟨1000, "t1"⟩ Store.empty
          [("read", JVal.bool true), ("id", JVal.str "mine"), ("timestamp", JVal.str "t0")]).2
        "read" = some (JVal.bool true) ∧
      getField
        (addNotification ⟨1000, "t1"⟩ Store.empty
          [("read", JVal.bool true), ("id", JVal.str "mine"), ("timestamp", JVal.str "t0")]).2
        "id" = some (JVal.str "mine") ∧
      getField
        (addNotification ⟨1000, "t1"⟩ Store.empty
          [("read", JVal.bool true), ("id", JVal.str "mine"), ("timestamp", JVal.str "t0")]).2
        "timestamp" = some (JVal.str "t0") ∧
      getNotifications
        (addNotification ⟨1000, "t1"⟩ Store.empty
          [("read", JVal.bool true), ("id", JVal.str "mine"), ("timestamp", JVal.str "t0")]).1
        = [[("id", JVal.str "mine"), ("timestamp", JVal.str "t0"), ("read", JVal.bool true)]] := by
  decide

/-- C10 (amended): the record `addNotification(x)` returns is the one it stores
at the head; each of `id`, `timestamp` and `read` that `x` does not carry is the
id and timestamp generated at insertion and `read = false`; and every field `x`
carries, these three included, has the value `x` gives it. -/
theorem addNotification_stamps (c : Clock) (s : Store) (x : Record) :
    (getNotifications (addNotification c s x).1).head? = some (addNotification c s x).2 ∧
      (getField x "id" = none →
        getField (addNotification c s x).2 "id" = some (JVal.str c.idText)) ∧
      (getField x "timestamp" = none →
        getField (addNotification c s x).2 "timestamp" = some (JVal.str c.iso)) ∧
      (getField x "read" = none →
        getField (addNotification c s x).2 "read" = some (JVal.bool false)) ∧
      (∀ k v, getField x k = some v → getField (addNotification c s x).2 k = some v) := by
  refine ⟨rfl, ?_, ?_, ?_, ?_⟩
  · intro h
    simp [addNotification, getField_spread, h, getField]
  · intro h
    simp [addNotification, getField_spread, h, getField]
  · intro h
    simp [addNotification, getField_spread, h, getField]
  · intro k v h
    simp only [addNotification, getField_spread, h]

theorem addNotification_stamps_witness :
    getField
        (addNotification ⟨1000, "t1"⟩ Store.empty
          [("type", JVal.str "like"), ("to", JVal.str "alice")]).2 "read"
      = some (JVal.bool false) :=
  (addNotification_stamps ⟨1000, "t1"⟩ Store.empty
    [("type", JVal.str "like"), ("to", JVal.str "alice")]).2.2.2.1 (by decide)

/-! ## Sorting -/

theorem sortInsert_perm {α : Type} (cmp : α → α → Option Int) (a : α) (l : List α) :
    (sortInsert cmp a l).Perm (a :: l) := by
  induction l with
  | nil => exact List.Perm.refl _
  | cons b l ih =>
    unfold sortInsert
    split
    · exact List.Perm.refl _
    · exact (List.Perm.cons b ih).trans (List.Perm.swap a b l)

theorem jsSort_perm {α : Type} (cmp : α → α → Option Int) (l : List α) :
    (jsSort cmp l).Perm l := by
  induction l with
  | nil => exact List.Perm.refl _
  | cons a l ih =>
    unfold jsSort
    exact (sortInsert_perm cmp a _).trans (List.Perm.cons a ih)

theorem sortInsert_pairwise {α : Type} (cmp : α → α → Option Int) (key : α → Int) (a : α)
    (l : List α) (hcmp : ∀ y ∈ l, cmp a y = some (key a - key y))
    (hsorted : l.Pairwise (fun x y => key x ≤ key y)) :
    (sortInsert cmp a l).Pairwise (fun x y => key x ≤ key y) := by
  induction l with
  | nil => simp [sortInsert]
  | cons b l ih =>
    have hb := hcmp b (List.mem_cons_self _ _)
    obtain ⟨hbl, hl⟩ := List.pairwise_cons.1 hsorted
    unfold sortInsert
    by_cases hle : key a ≤ key b
    · have hstay : staysBefore (cmp a b) = true := by
        rw [hb]
        simp only [staysBefore, decide_eq_true_eq]
        omega
      rw [if_pos hstay]
      refine List.pairwise_cons.2 ⟨?_, hsorted⟩
      intro y hy
      rcases List.mem_cons.1 hy with rfl | hy
      · exact hle
      · exact le_trans hle (hbl y hy)
    · have hstay : ¬ staysBefore (cmp a b) = true := by
        rw [hb]
        simp only [staysBefore, decide_eq_true_eq]
        omega
      rw [if_neg hstay]
      refine List.pairwise_cons.2 ⟨?_, ih (fun y hy => hcmp y (List.mem_cons_of_mem _ hy)) hl⟩
      intro y hy
      rcases List.mem_cons.1 ((sortInsert_perm cmp a l).mem_iff.1 hy) with rfl | hy
      · omega
      · exact hbl y hy

/-- On elements whose comparator is the difference of an integer key, the sort
returns them in non-decreasing order of the key. -/
theorem jsSort_pairwise {α : Type} (cmp : α → α → Option Int) (key : α → Int) (l : List α)
    (hcmp : ∀ x ∈ l, ∀ y ∈ l, cmp x y = some (key x - key y)) :
    (jsSort cmp l).Pairwise (fun x y => key x ≤ key y) := by
  induction l with
  | nil => simp [jsSort]
  | cons a l ih =>
    unfold jsSort
    apply sortInsert_pairwise
    · intro y hy
      exact hcmp a (List.mem_cons_self _ _) y
        (List.mem_cons_of_mem _ ((jsSort_perm cmp l).mem_iff.1 hy))
    · exact ih (fun x hx y hy =>
        hcmp x (List.mem_cons_of_mem _ hx) y (List.mem_cons_of_mem _ hy))

theorem dateDiff_of_valid (parseDate : String → Option Int) (x y : String)
    (hx : (parseDate x).isSome = true) (hy : (parseDate y).isSome = true) :
    dateDiff parseDate x y = some ((parseDate x).getD 0 - (parseDate y).getD 0) := by
  obtain ⟨tx, htx⟩ := Option.isSome_iff_exists.1 hx
  obtain ⟨ty, hty⟩ := Option.isSome_iff_exists.1 hy
  simp [dateDiff, htx, hty]

theorem notAfter_of_valid (parseDate : String → Option Int) (x y : String)
    (hx : (parseDate x).isSome = true) (hy : (parseDate y).isSome = true)
    (hle : (parseDate x).getD 0 ≤ (parseDate y).getD 0) :
    notAfter parseDate x y = true := by
  obtain ⟨tx, htx⟩ := Option.isSome_iff_exists.1 hx
  obtain ⟨ty, hty⟩ := Option.isSome_iff_exists.1 hy
  simp only [htx, hty, Option.getD_some] at hle
  simp [notAfter, htx, hty, hle]

/-! ## Conversations and comment threads -/

/-- C7: when every stored message has a timestamp that is a date,
`getConversation(a,b)` is a rearrangement of exactly the messages from `a` to `b`
and from `b` to `a`, each as often as it is stored, in non-decreasing order of
timestamp. -/
theorem getConversation_sorted (parseDate : String → Option Int) (s : Store) (a b : String)
    (hvalid : ∀ m ∈ getMessages s, (parseDate m.timestamp).isSome = true) :
    (getConversation parseDate s a b).Perm
        ((getMessages s).filter
          (fun m => (m.from_ == a && m.to_ == b) || (m.from_ == b && m.to_ == a))) ∧
      (getConversation parseDate s a b).Pairwise
        (fun x y => notAfter parseDate x.timestamp y.timestamp = true) := by
  have hperm := jsSort_perm (fun x y : Message => dateDiff parseDate x.timestamp y.timestamp)
    ((getMessages s).filter
      (fun m => (m.from_ == a && m.to_ == b) || (m.from_ == b && m.to_ == a)))
  have hmem : ∀ m ∈ getConversation parseDate s a b, (parseDate m.timestamp).isSome = true :=
    fun m hm => hvalid m (List.mem_filter.1 (hperm.mem_iff.1 hm)).1
  refine ⟨hperm, ?_⟩
  have hsorted := jsSort_pairwise
    (fun x y : Message => dateDiff parseDate x.timestamp y.timestamp)
    (fun m => (parseDate m.timestamp).getD 0)
    ((getMessages s).filter
      (fun m => (m.from_ == a && m.to_ == b) || (m.from_ == b && m.to_ == a)))
    (fun x hx y hy => dateDiff_of_valid parseDate _ _
      (hvalid x (List.mem_filter.1 hx).1) (hvalid y (List.mem_filter.1 hy).1))
  exact hsorted.imp_of_mem
    (fun hx hy hle => notAfter_of_valid parseDate _ _ (hmem _ hx) (hmem _ hy) hle)

theorem getConversation_sorted_witness :
    (∀ m ∈ getMessages { Store.empty with messages := Slot.value sampleMessages },
        (sampleParseDate m.timestamp).isSome = true) ∧
      getConversation sampleParseDate
          { Store.empty with messages := Slot.value sampleMessages } "a" "b"
        = [⟨"1", "a", "b", "first", "2024-01-01T00:00:00.000Z", true⟩,
           ⟨"3", "b", "a", "later", "2024-01-01T00:00:02.000Z", false⟩] ∧
      (getConversation sampleParseDate
          { Store.empty with messages := Slot.value sampleMessages } "a" "b").Pairwise
        (fun x y => notAfter sampleParseDate x.timestamp y.timestamp = true) :=
  ⟨by decide, by decide,
    (getConversation_sorted sampleParseDate
      { Store.empty with messages := Slot.value sampleMessages } "a" "b" (by decide)).2⟩

/-- C8: when every stored comment has a timestamp that is a date,
`getPostComments(p)` is a rearrangement of exactly the comments whose `postId` is
`p`, each as often as it is stored, in non-increasing order of timestamp. -/
theorem getPostComments_sorted (parseDate : String → Option Int) (s : Store) (p : String)
    (hvalid : ∀ c ∈ getComments s, (parseDate c.timestamp).isSome = true) :
    (getPostComments parseDate s p).Perm
        ((getComments s).filter (fun c => c.postId == p)) ∧
      (getPostComments parseDate s p).Pairwise
        (fun x y => notAfter parseDate y.timestamp x.timestamp = true) := by
  have hperm := jsSort_perm (fun x y : Comment => dateDiff parseDate y.timestamp x.timestamp)
    ((getComments s).filter (fun c => c.postId == p))
  have hmem : ∀ c ∈ getPostComments parseDate s p, (parseDate c.timestamp).isSome = true :=
    fun c hc => hvalid c (List.mem_filter.1 (hperm.mem_iff.1 hc)).1
  refine ⟨hperm, ?_⟩
  have hsorted := jsSort_pairwise
    (fun x y : Comment => dateDiff parseDate y.timestamp x.timestamp)
    (fun c => -((parseDate c.timestamp).getD 0))
    ((getComments s).filter (fun c => c.postId == p))
    (fun x hx y hy => by
      show dateDiff parseDate y.timestamp x.timestamp
        = some (-((parseDate x.timestamp).getD 0) - -((parseDate y.timestamp).getD 0))
      rw [dateDiff_of_valid parseDate _ _
        (hvalid y (List.mem_filter.1 hy).1) (hvalid x (List.mem_filter.1 hx).1)]
      congr 1
      omega)
  exact hsorted.imp_of_mem
    (fun hx hy hle => notAfter_of_valid parseDate _ _ (hmem _ hy) (hmem _ hx)
      (by
        simp only at hle
        omega))

theorem getPostComments_sorted_witness :
    (∀ c ∈ getComments { Store.empty with comments := Slot.value sampleComments },
        (sampleParseDate c.timestamp).isSome = true) ∧
      getPostComments sampleParseDate
          { Store.empty with comments := Slot.value sampleComments } "p"
        = [⟨"3", "p", "b", "later", "2024-01-01T00:00:02.000Z"⟩,
           ⟨"1", "p", "a", "first", "2024-01-01T00:00:00.000Z"⟩] ∧
      (getPostComments sampleParseDate
          { Store.empty with comments := Slot.value sampleComments } "p").Pairwise
        (fun x y => notAfter sampleParseDate y.timestamp x.timestamp = true) :=
  ⟨by decide, by decide,
    (getPostComments_sorted sampleParseDate
      { Store.empty with comments := Slot.value sampleComments } "p" (by decide)).2⟩

/-! ## Bulk removal -/

theorem clearAllData_store (s : Store) :
    (clearAllData s).1 =
      { Store.empty with notifications := s.notifications, other := s.other } := by
  simp [clearAllData, multiRemove, removeItem, Store.empty]

/-- C11 (the code at the failing input): after `clearAllData` on a store that
holds a notification, the key `notifications` is still present with the
notification in it; the seven other keys of the app are gone. -/
theorem clearAllData_keeps_notifications :
    hasKey (clearAllData sampleStore).1 "notifications" = true ∧
      getNotifications (clearAllData sampleStore).1 = getNotifications sampleStore ∧
      getNotifications sampleStore ≠ [] ∧
      (∀ k ∈ ["users", "posts", "comments", "likes", "messages", "friendRequests",
          "currentUser"], hasKey (clearAllData sampleStore).1 k = false) := by
  decide

/-- C12: `clearAllData` leaves every key outside the key set of the app as it
is, present or not and with the text it holds; after `resetDatabase` the store
holds no key at all. -/
theorem clearAllData_keeps_other_keys (s : Store) (k : String) (hk : k ∉ appKeys) :
    hasKey (clearAllData s).1 k = hasKey s k ∧
      otherItem (clearAllData s).1 k = otherItem s k ∧
      (resetDatabase s).1 = Store.empty ∧
      ∀ k', hasKey (resetDatabase s).1 k' = false := by
  simp only [appKeys, List.mem_cons, List.mem_singleton, not_or, List.not_mem_nil,
    or_false] at hk
  obtain ⟨h1, h2, h3, h4, h5, h6, h7, h8⟩ := hk
  refine ⟨?_, ?_, rfl, ?_⟩
  · rw [clearAllData_store]
    simp [hasKey, h1, h2, h3, h4, h5, h6, h7, h8]
  · rw [clearAllData_store]
    rfl
  · intro k'
    simp only [resetDatabase, hasKey, Store.empty, Slot.present, List.any_nil]
    repeat' split
    all_goals rfl

theorem clearAllData_keeps_other_keys_witness :
    hasKey (clearAllData sampleStore).1 "theme" = true ∧
      otherItem (clearAllData sampleStore).1 "theme" = some "dark" ∧
      hasKey (resetDatabase sampleStore).1 "theme" = false :=
  ⟨(clearAllData_keeps_other_keys sampleStore "theme" (by decide)).1.trans (by decide),
    (clearAllData_keeps_other_keys sampleStore "theme" (by decide)).2.1.trans (by decide),
    (clearAllData_keeps_other_keys sampleStore "theme" (by decide)).2.2.2 "theme"⟩

/-! ## Read flags -/

/-- C13: `markMessagesAsRead(f,t)` returns the messages one for one in their
order; a message from `f` to `t` comes back with `read = true`, every other
message comes back as it was, and on no message a field other than `read`
changes. -/
theorem markMessagesAsRead_frame (s : Store) (f t : String) :
    (getMessages (markMessagesAsRead s f t)).length = (getMessages s).length ∧
      List.Forall₂
        (fun m m' =>
          m'.id = m.id ∧ m'.from_ = m.from_ ∧ m'.to_ = m.to_ ∧ m'.text = m.text ∧
            m'.timestamp = m.timestamp ∧
            (if m.from_ = f ∧ m.to_ = t then m'.read = true else m' = m))
        (getMessages s) (getMessages (markMessagesAsRead s f t)) := by
  have hrun : getMessages (markMessagesAsRead s f t) =
      (getMessages s).map (fun m =>
        if m.from_ == f && m.to_ == t && !m.read then { m with read := true } else m) := rfl
  rw [hrun]
  refine ⟨by simp, ?_⟩
  rw [List.forall₂_map_right_iff, List.forall₂_same]
  intro m _
  by_cases hf : m.from_ = f
  · by_cases ht : m.to_ = t
    · cases hr : m.read <;> simp [hf, ht, hr]
    · simp [hf, ht]
  · simp [hf]

/-- C14 (as stated, refuted): one unread notification addressed to `alice`;
`getUnreadNotificationCount("")` is 1, and no notification is addressed to the
empty string. -/
theorem getUnreadNotificationCount_counterexample :
    getUnreadNotificationCount sampleStore (some "") = 1 ∧
      unreadNotificationsTo (getNotifications sampleStore) "" = 0 := by
  decide

theorem strictEq_to_eq_addressedTo (n : Record) (u : String) :
    strictEq (getField n "to") (some (JVal.str u)) = addressedTo n u := by
  unfold addressedTo
  cases h : getField n "to" with
  | none => rfl
  | some v => cases v <;> rfl

/-- C14 (amended): for a non-empty username `u`, `getUnreadNotificationCount(u)`
is the number of notifications addressed to `u` that are not read; called with
no username, or with the empty string, it is the number of all notifications
that are not read. -/
theorem getUnreadNotificationCount_spec (s : Store) (u : String) :
    (u ≠ "" →
        getUnreadNotificationCount s (some u) = unreadNotificationsTo (getNotifications s) u) ∧
      getUnreadNotificationCount s (some "") = unreadNotifications (getNotifications s) ∧
      getUnreadNotificationCount s none = unreadNotifications (getNotifications s) := by
  refine ⟨fun hu => ?_, ?_, ?_⟩
  · simp only [getUnreadNotificationCount, unreadNotificationsTo, List.countP_eq_length_filter,
      strictEq_to_eq_addressedTo, isUnread]
    simp [hu]
  · simp only [getUnreadNotificationCount, unreadNotifications, List.countP_eq_length_filter]
    rfl
  · simp only [getUnreadNotificationCount, unreadNotifications, List.countP_eq_length_filter,
      isUnread]
    rfl

theorem getUnreadNotificationCount_spec_witness :
    getUnreadNotificationCount sampleStore (some "alice") = 1 ∧
      unreadNotificationsTo (getNotifications sampleStore) "alice" = 1 :=
  ⟨((getUnreadNotificationCount_spec sampleStore "alice").1 (by decide)).trans (by decide),
    by decide⟩

/-! ## The pending-request invariant -/

theorem findIndex_eq_none_iff {α : Type} (p : α → Bool) (l : List α) :
    findIndex p l = none ↔ ∀ x ∈ l, p x = false := by
  induction l with
  | nil => simp [findIndex]
  | cons y ys ih =>
    by_cases hp : p y = true
    · simp [findIndex, hp]
    · simp only [Bool.not_eq_true] at hp
      simp [findIndex, hp, ih]

theorem filter_modifyAt_length_le {α : Type} (p : α → Bool) (g : α → α)
    (hg : ∀ x, p (g x) = true → p x = true) :
    ∀ (l : List α) (i : Nat), ((modifyAt g i l).filter p).length ≤ (l.filter p).length := by
  intro l
  induction l with
  | nil => intro i; cases i <;> simp [modifyAt]
  | cons x xs ih =>
    intro i
    cases i with
    | zero =>
      simp only [modifyAt, List.filter_cons]
      by_cases h : p (g x) = true
      · simp [h, hg x h]
      · simp only [h, Bool.false_eq_true, if_false]
        split <;> simp
    | succ i =>
      simp only [modifyAt, List.filter_cons]
      have := ih i
      split <;> simp [this]

/-- The friend requests `acceptFriendRequest` leaves: the first request with
the id has its status set, whatever happens to the users afterwards. -/
theorem acceptFriendRequest_requests (s : Store) (i : String) :
    getFriendRequests (acceptFriendRequest s i).1 =
      match findIndex (fun r => r.id == i) (getFriendRequests s) with
      | none => getFriendRequests s
      | some ri =>
        modifyAt (fun r => { r with status := "accepted" }) ri (getFriendRequests s) := by
  cases hidx : findIndex (fun r : FriendRequest => r.id == i) (getFriendRequests s) with
  | none => simp [acceptFriendRequest, hidx]
  | some ri =>
    obtain ⟨x, hx, -, -⟩ := findIndex_some_spec _ _ _ hidx
    have hmod : elemAt (modifyAt (fun q : FriendRequest => { q with status := "accepted" }) ri
        (getFriendRequests s)) ri = some { x with status := "accepted" } := by
      rw [elemAt_modifyAt, hx]
      simp
    unfold acceptFriendRequest
    simp only [hidx, hmod]
    repeat' split
    all_goals simp [getFriendRequests, readList_value, refreshCurrentUser_friendRequests]

/-- C15: the empty collection holds at most one pending request per ordered
pair, and `sendFriendRequest`, `acceptFriendRequest` and `rejectFriendRequest`
each take a collection that does to one that does, whatever their arguments. -/
theorem pendingUnique_preserved :
    pendingUnique [] ∧
      ∀ (c : Clock) (s : Store) (a b i : String), pendingUnique (getFriendRequests s) →
        pendingUnique (getFriendRequests (sendFriendRequest c s a b).1) ∧
        pendingUnique (getFriendRequests (acceptFriendRequest s i).1) ∧
        pendingUnique (getFriendRequests (rejectFriendRequest s i)) := by
  refine ⟨fun _ _ => by simp, ?_⟩
  intro c s a b i hinv
  refine ⟨?_, ?_, ?_⟩
  · intro a' b'
    cases hfind : findFirst
        (fun r : FriendRequest => r.from_ == a && r.to_ == b && r.status == "pending")
        (getFriendRequests s) with
    | some r =>
      have hrun : sendFriendRequest c s a b = (s, r) := by
        simp [sendFriendRequest, hfind]
      rw [hrun]
      exact hinv a' b'
    | none =>
      have hrun : getFriendRequests (sendFriendRequest c s a b).1 =
          getFriendRequests s ++ [⟨c.idText, a, b, "pending", c.iso⟩] := by
        simp only [getFriendRequests] at hfind
        simp only [sendFriendRequest, getFriendRequests, hfind, readList_value]
      rw [hrun, List.filter_append]
      by_cases hsame : a = a' ∧ b = b'
      · obtain ⟨rfl, rfl⟩ := hsame
        rw [(findFirst_eq_none_iff _ _).1 hfind]
        simp
      · have hnew : ((⟨c.idText, a, b, "pending", c.iso⟩ : FriendRequest).from_ == a' &&
            (⟨c.idText, a, b, "pending", c.iso⟩ : FriendRequest).to_ == b' &&
            (⟨c.idText, a, b, "pending", c.iso⟩ : FriendRequest).status == "pending")
            = false := by
          by_cases ha : a = a'
          · have hb : ¬ b = b' := fun hb => hsame ⟨ha, hb⟩
            simp [hb]
          · simp [ha]
        simp only [List.filter_cons, hnew, List.filter_nil, List.append_nil,
          Bool.false_eq_true, if_false]
        exact hinv a' b'
  · intro a' b'
    rw [acceptFriendRequest_requests]
    split
    · exact hinv a' b'
    · refine le_trans (filter_modifyAt_length_le _ _ ?_ _ _) (hinv a' b')
      intro x hx
      simp at hx
  · intro a' b'
    have hrun : getFriendRequests (rejectFriendRequest s i) =
        (getFriendRequests s).filter (fun r => r.id != i) := rfl
    rw [hrun]
    exact le_trans ((List.filter_sublist _).filter _).length_le (hinv a' b')

theorem pendingUnique_preserved_witness :
    pendingUnique
      (getFriendRequests (sendFriendRequest ⟨1000, "t1"⟩ Store.empty "a" "b").1) :=
  (pendingUnique_preserved.2 ⟨1000, "t1"⟩ Store.empty "a" "b" "1"
    (fun _ _ => Nat.zero_le 1)).1

/-- On a storage that carries every call out, a getter returns what the slot reads as. -/
theorem getList_none {α : Type} (key : String) (slot : Slot (List α)) :
    getList Faults.none key slot = Except.ok (readList slot) := by
  cases slot <;> rfl

/-- C16: when no friend request carries the id `i`, `acceptFriendRequest(i)`
returns nothing and leaves the store as it is, `rejectFriendRequest(i)` leaves
the friend requests, the users and the session user as they are, and neither
raises. -/
theorem unknown_request_is_noop (s : Store) (i : String)
    (hnone : ∀ r ∈ getFriendRequests s, r.id ≠ i) :
    acceptFriendRequest s i = (s, Except.ok none) ∧
      getFriendRequests (rejectFriendRequest s i) = getFriendRequests s ∧
      (rejectFriendRequest s i).users = s.users ∧
      (rejectFriendRequest s i).currentUser = s.currentUser ∧
      (acceptFriendRequestF Faults.none s i).result = Except.ok none ∧
      (rejectFriendRequestF Faults.none s i).result = Except.ok () := by
  have hidx : findIndex (fun r : FriendRequest => r.id == i) (getFriendRequests s) = none := by
    rw [findIndex_eq_none_iff]
    intro r hr
    simpa using hnone r hr
  have hfilter : (getFriendRequests s).filter (fun r => r.id != i) = getFriendRequests s := by
    rw [List.filter_eq_self]
    intro r hr
    simpa using hnone r hr
  refine ⟨by simp [acceptFriendRequest, hidx], ?_, rfl, rfl, ?_, ?_⟩
  · show (getFriendRequests s).filter (fun r => r.id != i) = getFriendRequests s
    exact hfilter
  · simp only [acceptFriendRequestF, getFriendRequestsF, getList_none]
    simp only [getFriendRequests] at hidx
    simp only [hidx]
  · simp only [rejectFriendRequestF, getFriendRequestsF, getList_none]
    rfl

theorem unknown_request_is_noop_witness :
    acceptFriendRequest sampleStore "7" = (sampleStore, Except.ok none) :=
  (unknown_request_is_noop sampleStore "7" (by decide)).1

/-! ## Storage faults -/

theorem getList_spec {α : Type} (f : Faults) (key : String) (slot : Slot (List α)) :
    getList f key slot = Except.ok (if f.rejectsRead key = true then [] else readList slot) := by
  unfold getList getItem
  by_cases h : f.rejectsRead key = true
  · simp [h]
  · simp only [h, Bool.false_eq_true, if_false]
    cases slot <;> rfl

theorem getList_failsSoft {α : Type} (f : Faults) (key : String) (slot : Slot (List α)) :
    FailsSoft (getList f key slot) (f.rejectsRead key) slot := by
  rw [getList_spec]
  refine ⟨⟨_, rfl⟩, ?_, ?_, ?_⟩
  · intro h
    subst h
    split <;> rfl
  · intro h
    subst h
    split <;> rfl
  · intro h
    simp [h]

/-- C18: each collection getter returns a list and never raises, and the list
is empty when the key is absent, when the stored text does not parse, and
when the read itself is rejected. -/
theorem getters_fail_soft (f : Faults) (s : Store) :
    FailsSoft (getUsersF f s) (f.rejectsRead "users") s.users ∧
      FailsSoft (getFriendRequestsF f s) (f.rejectsRead "friendRequests") s.friendRequests ∧
      FailsSoft (getMessagesF f s) (f.rejectsRead "messages") s.messages ∧
      FailsSoft (getCommentsF f s) (f.rejectsRead "comments") s.comments ∧
      FailsSoft (getLikesF f s) (f.rejectsRead "likes") s.likes ∧
      FailsSoft (getNotificationsF f s) (f.rejectsRead "notifications") s.notifications :=
  ⟨getList_failsSoft f _ _, getList_failsSoft f _ _, getList_failsSoft f _ _,
    getList_failsSoft f _ _, getList_failsSoft f _ _, getList_failsSoft f _ _⟩

/-- C17 (as stated, refuted): the storage rejects every write; `markMessagesAsRead`,
`markNotificationAsRead` and `markAllNotificationsAsRead` each have their write
rejected and return normally, the store as it was. -/
theorem write_rejection_counterexample :
    ((markMessagesAsReadF Faults.noWrites
          { Store.empty with messages := Slot.value sampleMessages } "b" "a").rejected
        = ["messages"] ∧
      (markMessagesAsReadF Faults.noWrites
          { Store.empty with messages := Slot.value sampleMessages } "b" "a").result
        = Except.ok () ∧
      getMessages
        (markMessagesAsReadF Faults.noWrites
          { Store.empty with messages := Slot.value sampleMessages } "b" "a").store
        = sampleMessages) ∧
      ((markNotificationAsReadF Faults.noWrites sampleStore "1").rejected = ["notifications"] ∧
        (markNotificationAsReadF Faults.noWrites sampleStore "1").result = Except.ok ()) ∧
      ((markAllNotificationsAsReadF Faults.noWrites sampleStore).rejected = ["notifications"] ∧
        (markAllNotificationsAsReadF Faults.noWrites sampleStore).result = Except.ok ()) :=
  ⟨⟨rfl, rfl, rfl⟩, ⟨rfl, rfl⟩, ⟨rfl, rfl⟩⟩

theorem propagates_clean {α : Type} (s : Store) (r : Except String α) :
    Propagates (Run.mk s [] r) := fun h => absurd rfl h

theorem propagates_raised {α : Type} (s : Store) (keys : List String) :
    Propagates (Run.mk s keys (Except.error "setItem rejected" : Except String α)) :=
  fun _ => rfl

theorem refreshCurrentUserF_propagates (f : Faults) (s : Store) (r : FriendRequest)
    (users : List Record) (fi ti : Nat) :
    Propagates (refreshCurrentUserF f s r users fi ti) := by
  unfold refreshCurrentUserF
  split
  · exact propagates_clean _ _
  · exact propagates_clean _ _
  · simp only
    split
    · exact propagates_clean _ _
    · split
      · exact propagates_raised _ _
      · exact propagates_clean _ _

theorem acceptFriendRequestF_propagates (f : Faults) (s : Store) (i : String) :
    Propagates (acceptFriendRequestF f s i) := by
  unfold acceptFriendRequestF
  repeat' first
    | split
    | dsimp only
  all_goals first
    | exact propagates_clean _ _
    | exact propagates_raised _ _
    | exact refreshCurrentUserF_propagates _ _ _ _ _ _

theorem saveUserF_rejected (f : Faults) (s : Store) (u : Record) :
    (f.rejectsWrite "users" = true →
        (saveUserF f s u).result = Except.error "setItem rejected" ∧
        (saveUserF f s u).store = s) ∧
      (f.rejectsWrite "currentUser" = true →
        (saveUserF f s u).result = Except.error "setItem rejected") := by
  unfold saveUserF
  simp only [getUsersF, getList_spec]
  constructor
  · intro h
    simp [h]
  · intro h
    by_cases hu : f.rejectsWrite "users" = true <;> simp [h, hu]

theorem sendFriendRequestF_rejected (f : Faults) (c : Clock) (s : Store) (a b : String)
    (requests : List FriendRequest)
    (hread : getFriendRequestsF f s = Except.ok requests)
    (hnone : findFirst (fun r => r.from_ == a && r.to_ == b && r.status == "pending") requests
      = none)
    (h : f.rejectsWrite "friendRequests" = true) :
    (sendFriendRequestF f c s a b).result = Except.error "setItem rejected" ∧
      (sendFriendRequestF f c s a b).store = s := by
  unfold sendFriendRequestF
  simp [hread, hnone, h]

theorem rejectFriendRequestF_rejected (f : Faults) (s : Store) (i : String)
    (h : f.rejectsWrite "friendRequests" = true) :
    (rejectFriendRequestF f s i).result = Except.error "setItem rejected" ∧
      (rejectFriendRequestF f s i).store = s := by
  unfold rejectFriendRequestF
  simp [getFriendRequestsF, getList_spec, h]

theorem sendMessageF_rejected (f : Faults) (c : Clock) (s : Store) (a b t : String)
    (h : f.rejectsWrite "messages" = true) :
    (sendMessageF f c s a b t).result = Except.error "setItem rejected" ∧
      (sendMessageF f c s a b t).store = s := by
  unfold sendMessageF
  simp [getMessagesF, getList_spec, h]

theorem addCommentF_rejected (f : Faults) (c : Clock) (s : Store) (p a t : String)
    (h : f.rejectsWrite "comments" = true) :
    (addCommentF f c s p a t).result = Except.error "setItem rejected" ∧
      (addCommentF f c s p a t).store = s := by
  unfold addCommentF
  simp [getCommentsF, getList_spec, h]

theorem deleteCommentF_rejected (f : Faults) (s : Store) (i : String)
    (h : f.rejectsWrite "comments" = true) :
    (deleteCommentF f s i).result = Except.error "setItem rejected" ∧
      (deleteCommentF f s i).store = s := by
  unfold deleteCommentF
  simp [getCommentsF, getList_spec, h]

theorem toggleLikeF_rejected (f : Faults) (c : Clock) (s : Store) (p a : String)
    (h : f.rejectsWrite "likes" = true) :
    (toggleLikeF f c s p a).result = Except.error "setItem rejected" ∧
      (toggleLikeF f c s p a).store = s := by
  unfold toggleLikeF
  simp only [getLikesF, getList_spec, h, if_true]
  split <;> exact ⟨rfl, rfl⟩

theorem addNotificationF_rejected (f : Faults) (c : Clock) (s : Store) (u : Record)
    (h : f.rejectsWrite "notifications" = true) :
    (addNotificationF f c s u).result = Except.error "setItem rejected" ∧
      (addNotificationF f c s u).store = s := by
  unfold addNotificationF
  simp [getNotificationsF, getList_spec, h]

theorem elemAt_isSome_iff {α : Type} :
    ∀ (l : List α) (i : Nat), (elemAt l i).isSome = true ↔ i < l.length := by
  intro l
  induction l with
  | nil => intro i; simp [elemAt]
  | cons x xs ih =>
    intro i
    cases i with
    | zero => simp [elemAt]
    | succ i => simp [elemAt, ih]

theorem modifyAt_length {α : Type} (g : α → α) :
    ∀ (l : List α) (i : Nat), (modifyAt g i l).length = l.length := by
  intro l
  induction l with
  | nil => intro i; cases i <;> rfl
  | cons x xs ih =>
    intro i
    cases i with
    | zero => rfl
    | succ i => simp [modifyAt, ih]

theorem addFriend_length (i : Nat) (name : String) (l l' : List Record)
    (h : addFriend i name l = Except.ok l') : l'.length = l.length := by
  unfold addFriend at h
  repeat' split at h
  all_goals first
    | cases h; rfl
    | cases h; exact modifyAt_length _ _ _
    | cases h

/-- The refresh of the session user, when its write is rejected. -/
theorem refreshCurrentUserF_rejected (f : Faults) (s : Store) (r : FriendRequest)
    (users : List Record) (fi ti : Nat) (cu : Record)
    (hcur : getCurrentUserF f s = Except.ok (some cu))
    (hfi : (elemAt users fi).isSome = true) (hti : (elemAt users ti).isSome = true)
    (hparty : strictEq (getField cu "username") (some (JVal.str r.from_)) = true ∨
      strictEq (getField cu "username") (some (JVal.str r.to_)) = true)
    (h : f.rejectsWrite "currentUser" = true) :
    (refreshCurrentUserF f s r users fi ti).result = Except.error "setItem rejected" := by
  obtain ⟨x, hx⟩ := Option.isSome_iff_exists.1 hfi
  obtain ⟨y, hy⟩ := Option.isSome_iff_exists.1 hti
  unfold refreshCurrentUserF
  simp only [hcur]
  by_cases hf : strictEq (getField cu "username") (some (JVal.str r.from_)) = true
  · simp [hf, hx, h]
  · have ht := hparty.resolve_left hf
    simp [hf, ht, hy, h]

/-- The three writes of `acceptFriendRequest`, each rejected in turn. -/
theorem acceptFriendRequestF_rejected (f : Faults) (s : Store) (i : String)
    (requests : List FriendRequest) (r : FriendRequest)
    (hread : getFriendRequestsF f s = Except.ok requests)
    (hreq : findFirst (fun q => q.id == i) requests = some r) :
    (f.rejectsWrite "friendRequests" = true →
        (acceptFriendRequestF f s i).result = Except.error "setItem rejected" ∧
        (acceptFriendRequestF f s i).store = s) ∧
      ∀ (users : List Record) (ua ub : Record), getUsersF f s = Except.ok users →
        findFirst (fun u => strictEq (getField u "username") (some (JVal.str r.from_))) users
          = some ua →
        findFirst (fun u => strictEq (getField u "username") (some (JVal.str r.to_))) users
          = some ub →
        (f.rejectsWrite "users" = true →
          ∃ e, (acceptFriendRequestF f s i).result = Except.error e) ∧
        (f.rejectsWrite "currentUser" = true →
          ∀ cu, getCurrentUserF f s = Except.ok (some cu) →
            strictEq (getField cu "username") (some (JVal.str r.from_)) = true ∨
              strictEq (getField cu "username") (some (JVal.str r.to_)) = true →
            ∃ e, (acceptFriendRequestF f s i).result = Except.error e) := by
  obtain ⟨ri, hri, hrelem⟩ := findFirst_some_findIndex _ _ _ hreq
  have hmod : elemAt (modifyAt (fun q : FriendRequest => { q with status := "accepted" }) ri
      requests) ri = some { r with status := "accepted" } := by
    rw [elemAt_modifyAt, hrelem]
    simp
  constructor
  · intro h
    unfold acceptFriendRequestF
    simp only [hread, hri, hmod, h, if_true]
    exact ⟨trivial, trivial⟩
  · intro users ua ub husers hua hub
    obtain ⟨fi, hfi, hfelem⟩ := findFirst_some_findIndex _ _ _ hua
    obtain ⟨ti, hti, htelem⟩ := findFirst_some_findIndex _ _ _ hub
    by_cases hw : f.rejectsWrite "friendRequests" = true
    · have hres : (acceptFriendRequestF f s i).result = Except.error "setItem rejected" := by
        unfold acceptFriendRequestF
        simp only [hread, hri, hmod, hw, if_true]
      exact ⟨fun _ => ⟨_, hres⟩, fun _ _ _ _ => ⟨_, hres⟩⟩
    · have husers1 : getUsersF f
          ({ s with
             friendRequests := Slot.value
               (modifyAt (fun q : FriendRequest => { q with status := "accepted" }) ri
                 requests) } : Store) = Except.ok users := husers
      cases h3 : addFriend fi r.to_ (ensureFriends ti (ensureFriends fi users)) with
      | error e =>
        have hres : (acceptFriendRequestF f s i).result = Except.error e := by
          unfold acceptFriendRequestF
          simp only [hread, hri, hmod, hw, husers1, hfi, hti, h3, Bool.false_eq_true, if_false]
        exact ⟨fun _ => ⟨_, hres⟩, fun _ _ _ _ => ⟨_, hres⟩⟩
      | ok users3 =>
        cases h4 : addFriend ti r.from_ users3 with
        | error e =>
          have hres : (acceptFriendRequestF f s i).result = Except.error e := by
            unfold acceptFriendRequestF
            simp only [hread, hri, hmod, hw, husers1, hfi, hti, h3, h4, Bool.false_eq_true,
              if_false]
          exact ⟨fun _ => ⟨_, hres⟩, fun _ _ _ _ => ⟨_, hres⟩⟩
        | ok users4 =>
          by_cases hwu : f.rejectsWrite "users" = true
          · have hres : (acceptFriendRequestF f s i).result
                = Except.error "setItem rejected" := by
              unfold acceptFriendRequestF
              simp only [hread, hri, hmod, hw, husers1, hfi, hti, h3, h4, hwu,
                Bool.false_eq_true, if_false, if_true]
            exact ⟨fun _ => ⟨_, hres⟩, fun _ _ _ _ => ⟨_, hres⟩⟩
          · refine ⟨fun h => absurd h hwu, fun hwc cu hcur hparty => ?_⟩
            have hlen : users4.length = users.length := by
              rw [addFriend_length _ _ _ _ h4, addFriend_length _ _ _ _ h3]
              unfold ensureFriends
              rw [modifyAt_length, modifyAt_length]
            have hsome : ∀ j x, elemAt users j = some x → (elemAt users4 j).isSome = true := by
              intro j x hx
              rw [elemAt_isSome_iff, hlen, ← elemAt_isSome_iff, hx]
              rfl
            refine ⟨"setItem rejected", ?_⟩
            unfold acceptFriendRequestF
            simp only [hread, hri, hmod, hw, husers1, hfi, hti, h3, h4, hwu,
              Bool.false_eq_true, if_false]
            exact refreshCurrentUserF_rejected f _ _ users4 fi ti cu hcur
              (hsome fi ua hfelem) (hsome ti ub htelem) hparty hwc

/-- C17 (amended): when the storage rejects a write that `saveUser`,
`sendFriendRequest`, `acceptFriendRequest`, `rejectFriendRequest`, `sendMessage`,
`addComment`, `deleteComment`, `toggleLike` or `addNotification` makes, the
operation ends in the error raised to its caller: for each of them, the keys it
writes and the cases in which it writes them are listed with that outcome.
`markMessagesAsRead`, `markNotificationAsRead` and `markAllNotificationsAsRead`
return normally whatever the storage does, a rejected write included, and leave
the store as it was when their write is rejected. -/
theorem write_rejection_outcome (f : Faults) (c : Clock) (s : Store) (u : Record)
    (a b t i : String) :
    (Propagates (saveUserF f s u) ∧
        (f.rejectsWrite "users" = true →
          (saveUserF f s u).result = Except.error "setItem rejected" ∧
          (saveUserF f s u).store = s) ∧
        (f.rejectsWrite "currentUser" = true →
          (saveUserF f s u).result = Except.error "setItem rejected")) ∧
      (Propagates (sendFriendRequestF f c s a b) ∧
        ∀ requests, getFriendRequestsF f s = Except.ok requests →
          findFirst (fun r => r.from_ == a && r.to_ == b && r.status == "pending") requests
            = none →
          f.rejectsWrite "friendRequests" = true →
          (sendFriendRequestF f c s a b).result = Except.error "setItem rejected" ∧
          (sendFriendRequestF f c s a b).store = s) ∧
      (Propagates (acceptFriendRequestF f s i) ∧
        ∀ requests r, getFriendRequestsF f s = Except.ok requests →
          findFirst (fun q => q.id == i) requests = some r →
          (f.rejectsWrite "friendRequests" = true →
            (acceptFriendRequestF f s i).result = Except.error "setItem rejected" ∧
            (acceptFriendRequestF f s i).store = s) ∧
          ∀ (users : List Record) (ua ub : Record), getUsersF f s = Except.ok users →
            findFirst (fun x => strictEq (getField x "username") (some (JVal.str r.from_)))
              users = some ua →
            findFirst (fun x => strictEq (getField x "username") (some (JVal.str r.to_)))
              users = some ub →
            (f.rejectsWrite "users" = true →
              ∃ e, (acceptFriendRequestF f s i).result = Except.error e) ∧
            (f.rejectsWrite "currentUser" = true →
              ∀ cu, getCurrentUserF f s = Except.ok (some cu) →
                strictEq (getField cu "username") (some (JVal.str r.from_)) = true ∨
                  strictEq (getField cu "username") (some (JVal.str r.to_)) = true →
                ∃ e, (acceptFriendRequestF f s i).result = Except.error e)) ∧
      (Propagates (rejectFriendRequestF f s i) ∧
        (f.rejectsWrite "friendRequests" = true →
          (rejectFriendRequestF f s i).result = Except.error "setItem rejected" ∧
          (rejectFriendRequestF f s i).store = s)) ∧
      (Propagates (sendMessageF f c s a b t) ∧
        (f.rejectsWrite "messages" = true →
          (sendMessageF f c s a b t).result = Except.error "setItem rejected" ∧
          (sendMessageF f c s a b t).store = s)) ∧
      (Propagates (addCommentF f c s i a t) ∧
        (f.rejectsWrite "comments" = true →
          (addCommentF f c s i a t).result = Except.error "setItem rejected" ∧
          (addCommentF f c s i a t).store = s)) ∧
      (Propagates (deleteCommentF f s i) ∧
        (f.rejectsWrite "comments" = true →
          (deleteCommentF f s i).result = Except.error "setItem rejected" ∧
          (deleteCommentF f s i).store = s)) ∧
      (Propagates (toggleLikeF f c s i a) ∧
        (f.rejectsWrite "likes" = true →
          (toggleLikeF f c s i a).result = Except.error "setItem rejected" ∧
          (toggleLikeF f c s i a).store = s)) ∧
      (Propagates (addNotificationF f c s u) ∧
        (f.rejectsWrite "notifications" = true →
          (addNotificationF f c s u).result = Except.error "setItem rejected" ∧
          (addNotificationF f c s u).store = s)) ∧
      (markMessagesAsReadF f s a b).result = Except.ok () ∧
      (markNotificationAsReadF f s i).result = Except.ok () ∧
      (markAllNotificationsAsReadF f s).result = Except.ok () ∧
      (f.rejectsWrite "messages" = true →
        (markMessagesAsReadF f s a b).rejected = ["messages"] ∧
        (markMessagesAsReadF f s a b).store = s) ∧
      (f.rejectsWrite "notifications" = true →
        ((markNotificationAsReadF f s i).rejected = ["notifications"] ∧
          (markAllNotificationsAsReadF f s).rejected = ["notifications"]) ∧
        (markNotificationAsReadF f s i).store = s ∧
        (markAllNotificationsAsReadF f s).store = s) := by
  refine ⟨⟨?_, saveUserF_rejected f s u⟩,
    ⟨?_, fun requests hread hnone h =>
      sendFriendRequestF_rejected f c s a b requests hread hnone h⟩,
    ⟨acceptFriendRequestF_propagates f s i, fun requests r hread hreq =>
      acceptFriendRequestF_rejected f s i requests r hread hreq⟩,
    ⟨?_, rejectFriendRequestF_rejected f s i⟩,
    ⟨?_, sendMessageF_rejected f c s a b t⟩,
    ⟨?_, addCommentF_rejected f c s i a t⟩,
    ⟨?_, deleteCommentF_rejected f s i⟩,
    ⟨?_, toggleLikeF_rejected f c s i a⟩,
    ⟨?_, addNotificationF_rejected f c s u⟩, ?_, ?_, ?_, ?_, ?_⟩
  · unfold saveUserF
    repeat' split
    all_goals first
      | exact propagates_clean _ _
      | exact propagates_raised _ _
  · unfold sendFriendRequestF
    repeat' split
    all_goals first
      | exact propagates_clean _ _
      | exact propagates_raised _ _
  · unfold rejectFriendRequestF
    repeat' split
    all_goals first
      | exact propagates_clean _ _
      | exact propagates_raised _ _
  · unfold sendMessageF
    repeat' split
    all_goals first
      | exact propagates_clean _ _
      | exact propagates_raised _ _
  · unfold addCommentF
    repeat' split
    all_goals first
      | exact propagates_clean _ _
      | exact propagates_raised _ _
  · unfold deleteCommentF
    repeat' split
    all_goals first
      | exact propagates_clean _ _
      | exact propagates_raised _ _
  · unfold toggleLikeF
    repeat' split
    all_goals first
      | exact propagates_clean _ _
      | exact propagates_raised _ _
  · unfold addNotificationF
    repeat' split
    all_goals first
      | exact propagates_clean _ _
      | exact propagates_raised _ _
  · unfold markMessagesAsReadF
    repeat' split
    all_goals rfl
  · unfold markNotificationAsReadF
    repeat' split
    all_goals rfl
  · unfold markAllNotificationsAsReadF
    repeat' split
    all_goals rfl
  · intro h
    simp [markMessagesAsReadF, getMessagesF, getList_spec, h]
  · intro h
    simp [markNotificationAsReadF, markAllNotificationsAsReadF, getNotificationsF, getList_spec,
      h]

/-- C17 at a storage that rejects every write: `saveUser` of a new user `bob`
raises and the store is as it was.  And at a storage that rejects the write of
`users` only: `acceptFriendRequest` of a request whose two users are stored
raises, the request stored as accepted. -/
theorem write_rejection_outcome_witness :
    (Faults.noWrites.rejectsWrite "users" = true ∧
      (saveUserF Faults.noWrites sampleStore [("username", JVal.str "bob")]).result
          = Except.error "setItem rejected" ∧
      (saveUserF Faults.noWrites sampleStore [("username", JVal.str "bob")]).store
          = sampleStore) ∧
      (acceptFriendRequestF ⟨fun _ => false, fun key => key == "users"⟩
          { chatStore with
            friendRequests := Slot.value [⟨"1", "alice", "bob", "pending", "t"⟩] } "1").result
        = Except.error "setItem rejected" ∧
      ∃ e,
        (acceptFriendRequestF ⟨fun _ => false, fun key => key == "users"⟩
          { chatStore with
            friendRequests := Slot.value [⟨"1", "alice", "bob", "pending", "t"⟩] } "1").result
        = Except.error e :=
  ⟨⟨rfl,
      (write_rejection_outcome Faults.noWrites ⟨1000, "t1"⟩ sampleStore
        [("username", JVal.str "bob")] "a" "b" "hi" "1").1.2.1 rfl⟩,
    rfl,
    ((((write_rejection_outcome ⟨fun _ => false, fun key => key == "users"⟩ ⟨1000, "t1"⟩
        { chatStore with
          friendRequests := Slot.value [⟨"1", "alice", "bob", "pending", "t"⟩] }
        [] "a" "b" "hi" "1").2.2.1.2
        [⟨"1", "alice", "bob", "pending", "t"⟩] ⟨"1", "alice", "bob", "pending", "t"⟩
        rfl (by decide)).2
        [[("username", JVal.str "alice")], [("username", JVal.str "bob")]]
        [("username", JVal.str "alice")] [("username", JVal.str "bob")]
        rfl (by decide) (by decide)).1 rfl)⟩

/-! ## Agreement of the two layers

On a storage that carries every call out, an operation followed through its
`try` / `catch` ends with no rejected write, in the store and with the value of
the operation defined first. -/

theorem getCurrentUserF_none (s : Store) :
    getCurrentUserF Faults.none s = Except.ok (getCurrentUser s) := by
  unfold getCurrentUserF getCurrentUser getItem
  cases s.currentUser <;> rfl

theorem saveUserF_none (s : Store) (u : Record) :
    saveUserF Faults.none s u = ⟨(saveUser s u).1, [], Except.ok (saveUser s u).2⟩ := by
  simp only [saveUserF, getUsersF, getList_none]
  rfl

theorem sendFriendRequestF_none (c : Clock) (s : Store) (a b : String) :
    sendFriendRequestF Faults.none c s a b =
      ⟨(sendFriendRequest c s a b).1, [], Except.ok (sendFriendRequest c s a b).2⟩ := by
  simp only [sendFriendRequestF, getFriendRequestsF, getList_none, sendFriendRequest,
    getFriendRequests]
  split <;> rfl

theorem refreshCurrentUserF_none (s : Store) (r : FriendRequest) (users : List Record)
    (fi ti : Nat) :
    refreshCurrentUserF Faults.none s r users fi ti =
      ⟨refreshCurrentUser s r users fi ti, [], Except.ok (some r)⟩ := by
  simp only [refreshCurrentUserF, getCurrentUserF_none, refreshCurrentUser]
  cases getCurrentUser s with
  | none => rfl
  | some cu =>
    simp only
    by_cases h1 : strictEq (getField cu "username") (some (JVal.str r.from_)) = true
    · simp only [h1, if_true]
      cases elemAt users fi <;> rfl
    · simp only [h1, Bool.false_eq_true, if_false]
      by_cases h2 : strictEq (getField cu "username") (some (JVal.str r.to_)) = true
      · simp only [h2, if_true]
        cases elemAt users ti <;> rfl
      · simp only [h2, Bool.false_eq_true, if_false]

theorem acceptFriendRequestF_none (s : Store) (i : String) :
    acceptFriendRequestF Faults.none s i =
      ⟨(acceptFriendRequest s i).1, [], (acceptFriendRequest s i).2⟩ := by
  simp only [acceptFriendRequestF, getFriendRequestsF, getUsersF, getList_none,
    acceptFriendRequest, getFriendRequests, getUsers, refreshCurrentUserF_none]
  repeat' first
    | split
    | dsimp only
  all_goals first
    | rfl
    | simp_all [Faults.none]

theorem rejectFriendRequestF_none (s : Store) (i : String) :
    rejectFriendRequestF Faults.none s i = ⟨rejectFriendRequest s i, [], Except.ok ()⟩ := by
  simp only [rejectFriendRequestF, getFriendRequestsF, getList_none]
  rfl

theorem sendMessageF_none (c : Clock) (s : Store) (a b t : String) :
    sendMessageF Faults.none c s a b t =
      ⟨(sendMessage c s a b t).1, [], Except.ok (sendMessage c s a b t).2⟩ := by
  simp only [sendMessageF, getMessagesF, getList_none]
  rfl

theorem markMessagesAsReadF_none (s : Store) (a b : String) :
    markMessagesAsReadF Faults.none s a b = ⟨markMessagesAsRead s a b, [], Except.ok ()⟩ := by
  simp only [markMessagesAsReadF, getMessagesF, getList_none]
  rfl

theorem addCommentF_none (c : Clock) (s : Store) (p u t : String) :
    addCommentF Faults.none c s p u t =
      ⟨(addComment c s p u t).1, [], Except.ok (addComment c s p u t).2⟩ := by
  simp only [addCommentF, getCommentsF, getList_none]
  rfl

theorem deleteCommentF_none (s : Store) (i : String) :
    deleteCommentF Faults.none s i = ⟨deleteComment s i, [], Except.ok ()⟩ := by
  simp only [deleteCommentF, getCommentsF, getList_none]
  rfl

theorem toggleLikeF_none (c : Clock) (s : Store) (p u : String) :
    toggleLikeF Faults.none c s p u =
      ⟨(toggleLike c s p u).1, [], Except.ok (toggleLike c s p u).2⟩ := by
  simp only [toggleLikeF, getLikesF, getList_none, toggleLike, getLikes]
  split <;> rfl

theorem addNotificationF_none (c : Clock) (s : Store) (n : Record) :
    addNotificationF Faults.none c s n =
      ⟨(addNotification c s n).1, [], Except.ok (addNotification c s n).2⟩ := by
  simp only [addNotificationF, getNotificationsF, getList_none]
  rfl

theorem markNotificationAsReadF_none (s : Store) (i : String) :
    markNotificationAsReadF Faults.none s i = ⟨markNotificationAsRead s i, [], Except.ok ()⟩ := by
  simp only [markNotificationAsReadF, getNotificationsF, getList_none]
  rfl

theorem markAllNotificationsAsReadF_none (s : Store) :
    markAllNotificationsAsReadF Faults.none s =
      ⟨markAllNotificationsAsRead s, [], Except.ok ()⟩ := by
  simp only [markAllNotificationsAsReadF, getNotificationsF, getList_none]
  rfl

/-! ## Notifications written by the callers -/

/-- The store operations behind the two handlers, and the handlers, never write
the notifications key. -/
theorem send_keeps_notifications (c : Clock) (s : Store) (a b text : String) :
    (sendFriendRequest c s a b).1.notifications = s.notifications ∧
      (sendMessage c s a b text).1.notifications = s.notifications ∧
      (handleSendRequest c s a b).notifications = s.notifications ∧
      (handleSend c s a b text).notifications = s.notifications := by
  have hsend : (sendFriendRequest c s a b).1.notifications = s.notifications := by
    unfold sendFriendRequest
    dsimp only
    split <;> rfl
  refine ⟨hsend, rfl, hsend, ?_⟩
  unfold handleSend loadChat
  repeat' first
    | split
    | dsimp only
  all_goals rfl

/-- C19 (the code at the failing input): `alice` and `bob` are stored and `alice`
is the session user.  `handleSendRequest("bob")` stores one pending request from
`alice` to `bob`, and `handleSend` with the text `hi` stores one message from
`alice` to `bob`; after either, and after the store call each makes, there is
no notification.  On the same store `handleLike` of a post of `bob` leaves one
notification. -/
theorem send_leaves_no_notification :
    (getFriendRequests (handleSendRequest ⟨1000, "t1"⟩ chatStore "alice" "bob")
        = [⟨"1000", "alice", "bob", "pending", "t1"⟩] ∧
      getNotifications (handleSendRequest ⟨1000, "t1"⟩ chatStore "alice" "bob") = [] ∧
      getNotifications (sendFriendRequest ⟨1000, "t1"⟩ chatStore "alice" "bob").1 = []) ∧
      (getMessages (handleSend ⟨1000, "t1"⟩ chatStore "alice" "bob" "hi")
          = [⟨"1000", "alice", "bob", "hi", "t1", false⟩] ∧
        getNotifications (handleSend ⟨1000, "t1"⟩ chatStore "alice" "bob" "hi") = [] ∧
        getNotifications (sendMessage ⟨1000, "t1"⟩ chatStore "alice" "bob" "hi").1 = []) ∧
      (getNotifications
        (handleLike ⟨1000, "t1"⟩ ⟨1001, "t2"⟩ chatStore
          ⟨"p", "2", "bob", [], none, "", "t0", 0, 0⟩ "alice")).map
        (fun n => (getField n "type", getField n "from", getField n "to"))
        = [(some (JVal.str "like"), some (JVal.str "alice"), some (JVal.str "bob"))] := by
  decide

/-- C20: from empty likes, comments and notifications and a post of `alice`,
`bob`'s like (`PostCard.handleLike`) and then his comment "nice!"
(`CommentsScreen.handleAddComment`) leave one like and one comment on the post,
and two notifications, the comment's before the like's, both to `alice`. -/
theorem scenario_like_and_comment (parseDate : String → Option Int) (c1 c2 c3 c4 : Clock)
    (s : Store) (post : Post)
    (hlikes : getLikes s = []) (hcomments : getComments s = [])
    (hnotes : getNotifications s = []) (howner : post.username = "alice") :
    (getPostLikes
        (handleAddComment c3 c4 (handleLike c1 c2 s post "bob") post "bob" "nice!")
        post.id).length = 1 ∧
      (getPostComments parseDate
        (handleAddComment c3 c4 (handleLike c1 c2 s post "bob") post "bob" "nice!")
        post.id).length = 1 ∧
      (getNotifications
        (handleAddComment c3 c4 (handleLike c1 c2 s post "bob") post "bob" "nice!")).map
          (fun n => (getField n "type", getField n "to"))
        = [(some (JVal.str "comment"), some (JVal.str "alice")),
           (some (JVal.str "like"), some (JVal.str "alice"))] := by
  have htrim : trim "nice!" = "nice!" := by decide
  have hother : ("alice" != "bob") = true := by decide
  simp only [getLikes] at hlikes
  simp only [getComments] at hcomments
  simp only [getNotifications] at hnotes
  have hlike : handleLike c1 c2 s post "bob" =
      { s with
        likes := Slot.value [⟨c1.idText, post.id, "bob", c1.iso⟩],
        notifications := Slot.value
          [spread
            [("id", JVal.str c2.idText), ("timestamp", JVal.str c2.iso),
              ("read", JVal.bool false)]
            [("type", JVal.str "like"), ("from", JVal.str "bob"),
              ("to", JVal.str post.username), ("message", JVal.str "liked your post"),
              ("postId", JVal.str post.id), ("postData", JVal.obj post.toRecord)]] } := by
    simp [handleLike, toggleLike, getLikes, hlikes, findFirst, addNotification,
      getNotifications, hnotes, howner, hother, readList_value]
  rw [hlike]
  simp [handleAddComment, htrim, addComment, getComments, hcomments, addNotification,
    getNotifications, readList_value, howner, hother, getPostLikes, getLikes, getPostComments,
    jsSort, sortInsert, getField_spread, getField]

theorem scenario_like_and_comment_witness :
    (getNotifications
        (handleAddComment ⟨3000, "t3"⟩ ⟨4000, "t4"⟩
          (handleLike ⟨1000, "t1"⟩ ⟨2000, "t2"⟩ Store.empty
            ⟨"77", "alice", "alice", [], none, "hello", "t0", 0, 0⟩ "bob")
          ⟨"77", "alice", "alice", [], none, "hello", "t0", 0, 0⟩ "bob" "nice!")).map
        (fun n => (getField n "type", getField n "to"))
      = [(some (JVal.str "comment"), some (JVal.str "alice")),
         (some (JVal.str "like"), some (JVal.str "alice"))] :=
  (scenario_like_and_comment sampleParseDate ⟨1000, "t1"⟩ ⟨2000, "t2"⟩ ⟨3000, "t3"⟩
    ⟨4000, "t4"⟩ Store.empty ⟨"77", "alice", "alice", [], none, "hello", "t0", 0, 0⟩
    (by decide) (by decide) (by decide) (by decide)).2.2

/-! ## The like flag -/

/-- C21: the boolean `toggleLike(p,u)` returns is `isPostLiked(p,u)` on the
collection after the call, and the negation of `isPostLiked(p,u)` on the
collection before it. -/
theorem toggleLike_returns_liked (c : Clock) (s : Store) (p u : String) :
    (toggleLike c s p u).2 = isPostLiked (toggleLike c s p u).1 p u ∧
      (toggleLike c s p u).2 = !isPostLiked s p u := by
  cases hfind : findFirst (fun l : Like => l.postId == p && l.username == u) (getLikes s) with
  | some l =>
    obtain ⟨hmem, hp⟩ := findFirst_some_mem _ _ _ hfind
    have hbefore : isPostLiked s p u = true := by
      unfold isPostLiked
      rw [List.any_eq_true]
      exact ⟨l, hmem, hp⟩
    have hrun : toggleLike c s p u =
        ({ s with
           likes := Slot.value
             ((getLikes s).filter (fun l => !(l.postId == p && l.username == u))) },
          false) := by
      simp only [getLikes] at hfind
      simp only [toggleLike, getLikes, hfind]
    rw [hrun, hbefore]
    refine ⟨?_, rfl⟩
    simp only [isPostLiked, getLikes, readList_value]
    symm
    rw [List.any_eq_false]
    intro x hx
    have hkeep := (List.mem_filter.1 hx).2
    cases hq : (x.postId == p && x.username == u)
    · decide
    · rw [hq] at hkeep
      exact absurd hkeep (by decide)
  | none =>
    have hbefore : isPostLiked s p u = false := by
      unfold isPostLiked
      rw [List.any_eq_false]
      intro x hx
      rw [findFirst_eq_find?, List.find?_eq_none] at hfind
      exact hfind x hx
    have hrun : toggleLike c s p u =
        ({ s with likes := Slot.value (getLikes s ++ [⟨c.idText, p, u, c.iso⟩]) }, true) := by
      simp only [getLikes] at hfind
      simp only [toggleLike, getLikes, hfind]
    rw [hrun, hbefore]
    refine ⟨?_, rfl⟩
    simp [isPostLiked, getLikes, readList_value]

/-! ## Deleting a post -/

/-- C23: `handleDeletePost` leaves the comments, likes and notifications as
they are; `getPostComments` of the deleted post's id returns what it returned
before, every stored comment of that post included. -/
theorem handleDeletePost_no_cascade (parseDate : String → Option Int) (s : Store)
    (postId : String) :
    (handleDeletePost s postId).comments = s.comments ∧
      (handleDeletePost s postId).likes = s.likes ∧
      (handleDeletePost s postId).notifications = s.notifications ∧
      getPostComments parseDate (handleDeletePost s postId) postId
        = getPostComments parseDate s postId ∧
      ∀ c ∈ getComments s, c.postId = postId →
        c ∈ getPostComments parseDate (handleDeletePost s postId) postId := by
  have hcomments : (handleDeletePost s postId).comments = s.comments := by
    unfold handleDeletePost
    split <;> rfl
  have hlikes : (handleDeletePost s postId).likes = s.likes := by
    unfold handleDeletePost
    split <;> rfl
  have hnotes : (handleDeletePost s postId).notifications = s.notifications := by
    unfold handleDeletePost
    split <;> rfl
  have hsame : getPostComments parseDate (handleDeletePost s postId) postId
      = getPostComments parseDate s postId := by
    simp only [getPostComments, getComments, hcomments]
  refine ⟨hcomments, hlikes, hnotes, hsame, ?_⟩
  intro c hc hpost
  rw [hsame]
  unfold getPostComments
  rw [(jsSort_perm _ _).mem_iff]
  exact List.mem_filter.2 ⟨hc, by simp [hpost]⟩

/-! ## The session user -/

/-- What `getUserByUsername` finds after `saveUser(u)` under the username of `u`:
a record that carries every field of `u`. -/
theorem saveUser_lookup (s : Store) (u : Record) (name : String)
    (hname : getField u "username" = some (JVal.str name)) :
    (∀ stored, getUserByUsername s name = some stored →
        getUserByUsername (saveUser s u).1 name = some (spread stored u)) ∧
      (getUserByUsername s name = none → getUserByUsername (saveUser s u).1 name = some u) := by
  have hpred : (fun r : Record => strictEq (getField r "username") (getField u "username"))
      = (fun r => strictEq (getField r "username") (some (JVal.str name))) := by
    rw [hname]
  constructor
  · intro stored hstored
    obtain ⟨i, hi, -⟩ := findFirst_some_findIndex _ _ _ hstored
    have hkeep : ∀ y : Record,
        strictEq (getField y "username") (some (JVal.str name)) = true →
          strictEq (getField (spread y u) "username") (some (JVal.str name)) = true := by
      intro y _
      simp [getField_spread, hname, strictEq]
    have hfind := findFirst_modifyAt
      (fun r : Record => strictEq (getField r "username") (some (JVal.str name)))
      (fun old => spread old u) (getUsers s) i hi hkeep
    unfold getUserByUsername at hstored
    rw [hstored] at hfind
    simp only [getUsers] at hfind hi
    simp only [getUserByUsername, saveUser, hpred, hi, getUsers, readList_value]
    exact hfind
  · intro hnone
    unfold getUserByUsername at hnone
    have hi : findIndex
        (fun r : Record => strictEq (getField r "username") (some (JVal.str name)))
        (getUsers s) = none := by
      rw [findIndex_eq_none_iff]
      rw [findFirst_eq_find?, List.find?_eq_none] at hnone
      intro x hx
      simpa using hnone x hx
    have hfind := findFirst_append_of_none
      (fun r : Record => strictEq (getField r "username") (some (JVal.str name)))
      (getUsers s) [u] hnone
    simp only [getUsers] at hfind hi
    simp only [getUserByUsername, saveUser, hpred, hi, getUsers, readList_value]
    rw [hfind]
    simp [findFirst, hname, strictEq]

/-- C25: with a session user, `updateCurrentUser(partial)` returns the session
record shallow-merged with `partial`, `getCurrentUser()` then returns that
record, and `getUserByUsername` of its username finds a record carrying every
field of it; without a session user it returns `null` and the store is as it
was. -/
theorem updateCurrentUser_merges (s : Store) (updates : Record) :
    (∀ cu, getCurrentUser s = some cu →
        (updateCurrentUser s updates).2 = some (spread cu updates) ∧
        getCurrentUser (updateCurrentUser s updates).1 = some (spread cu updates) ∧
        ∀ name, getField (spread cu updates) "username" = some (JVal.str name) →
          ∃ found, getUserByUsername (updateCurrentUser s updates).1 name = some found ∧
            ∀ k v, getField (spread cu updates) k = some v → getField found k = some v) ∧
      (getCurrentUser s = none → updateCurrentUser s updates = (s, none)) := by
  constructor
  · intro cu hcu
    have hrun : updateCurrentUser s updates =
        ((saveUser s (spread cu updates)).1, some (spread cu updates)) := by
      simp only [updateCurrentUser, hcu]
    rw [hrun]
    refine ⟨rfl, rfl, ?_⟩
    intro name hname
    obtain ⟨hsome, hnone⟩ := saveUser_lookup s (spread cu updates) name hname
    cases hstored : getUserByUsername s name with
    | none => exact ⟨_, hnone hstored, fun _ _ h => h⟩
    | some stored =>
      refine ⟨_, hsome stored hstored, ?_⟩
      intro k v hk
      rw [getField_spread, hk]
  · intro hnone
    simp only [updateCurrentUser, hnone]

theorem updateCurrentUser_merges_witness :
    (updateCurrentUser sampleStore [("bio", JVal.str "hi")]).2
      = some [("username", JVal.str "alice"), ("bio", JVal.str "hi")] :=
  ((updateCurrentUser_merges sampleStore [("bio", JVal.str "hi")]).1
    [("username", JVal.str "alice")] (by decide)).1.trans (by decide)

/-- C27: after `saveUser(u)` the session user is `u` itself, whoever it was
before; and when the record stored under the username of `u` has a field that
`u` does not carry, `getUserByUsername` of that username finds a record other
than the session record. -/
theorem saveUser_session_is_argument (s : Store) (u : Record) :
    getCurrentUser (saveUser s u).1 = some u ∧
      ∀ (name : String) (stored : Record) (k : String) (v : JVal),
        getField u "username" = some (JVal.str name) →
        getUserByUsername s name = some stored →
        getField stored k = some v → getField u k = none →
        getUserByUsername (saveUser s u).1 name ≠ getCurrentUser (saveUser s u).1 := by
  refine ⟨rfl, ?_⟩
  intro name stored k v hname hstored hk hu heq
  rw [(saveUser_lookup s u name hname).1 stored hstored] at heq
  have hsession : getCurrentUser (saveUser s u).1 = some u := rfl
  rw [hsession] at heq
  have hfield : getField (spread stored u) k = some v := by
    rw [getField_spread, hu, hk]
  rw [Option.some.inj heq, hu] at hfield
  exact absurd hfield (by simp)

theorem saveUser_session_is_argument_witness :
    getUserByUsername
        (saveUser
          { Store.empty with
            users := Slot.value [[("username", JVal.str "alice"), ("bio", JVal.str "hi")]] }
          [("username", JVal.str "alice")]).1 "alice"
      ≠ getCurrentUser
        (saveUser
          { Store.empty with
            users := Slot.value [[("username", JVal.str "alice"), ("bio", JVal.str "hi")]] }
          [("username", JVal.str "alice")]).1 :=
  (saveUser_session_is_argument
    { Store.empty with
      users := Slot.value [[("username", JVal.str "alice"), ("bio", JVal.str "hi")]] }
    [("username", JVal.str "alice")]).2 "alice"
    [("username", JVal.str "alice"), ("bio", JVal.str "hi")] "bio" (JVal.str "hi")
    (by decide) (by decide) (by decide) (by decide)

/-! ## Accepting with a missing user -/

theorem findIndex_none_of_findFirst_none {α : Type} (p : α → Bool) (l : List α)
    (h : findFirst p l = none) : findIndex p l = none := by
  rw [findIndex_eq_none_iff]
  rw [findFirst_eq_find?, List.find?_eq_none] at h
  intro x hx
  simpa using h x hx

/-- C28: when the first request with id `i` names a sender or a recipient that
is not in the users collection, `acceptFriendRequest(i)` returns the request
with status `accepted`, stores it so, and leaves the users collection and the
session user as they are. -/
theorem acceptFriendRequest_missing_user (s : Store) (i : String) (r : FriendRequest)
    (hreq : findFirst (fun q => q.id == i) (getFriendRequests s) = some r)
    (hmissing : getUserByUsername s r.from_ = none ∨ getUserByUsername s r.to_ = none) :
    (acceptFriendRequest s i).2 = Except.ok (some { r with status := "accepted" }) ∧
      findFirst (fun q => q.id == i) (getFriendRequests (acceptFriendRequest s i).1)
        = some { r with status := "accepted" } ∧
      (acceptFriendRequest s i).1.users = s.users ∧
      (acceptFriendRequest s i).1.currentUser = s.currentUser := by
  obtain ⟨ri, hri, hrelem⟩ := findFirst_some_findIndex _ _ _ hreq
  have hmod : elemAt (modifyAt (fun q : FriendRequest => { q with status := "accepted" }) ri
      (getFriendRequests s)) ri = some { r with status := "accepted" } := by
    rw [elemAt_modifyAt, hrelem]
    simp
  have hrun : acceptFriendRequest s i =
      ({ s with
          friendRequests := Slot.value
            (modifyAt (fun q : FriendRequest => { q with status := "accepted" }) ri
              (getFriendRequests s)) },
        Except.ok (some { r with status := "accepted" })) := by
    unfold acceptFriendRequest
    simp only [hri, hmod]
    rcases hmissing with hfrom | hto
    · have hnone := findIndex_none_of_findFirst_none _ _ hfrom
      simp only [getUsers] at hnone
      simp only [getUsers, hnone]
    · have hnone := findIndex_none_of_findFirst_none _ _ hto
      simp only [getUsers] at hnone
      simp only [getUsers, hnone]
      split
      · rename_i heq
        simp at heq
      · rfl
  rw [hrun]
  refine ⟨rfl, ?_, rfl, rfl⟩
  simp only [getFriendRequests, readList_value]
  have hfind := findFirst_modifyAt (fun q : FriendRequest => q.id == i)
    (fun q : FriendRequest => { q with status := "accepted" }) (getFriendRequests s) ri hri
    (fun y hy => hy)
  rw [hreq] at hfind
  simpa [getFriendRequests] using hfind

theorem acceptFriendRequest_missing_user_witness :
    (acceptFriendRequest
        { sampleStore with
          friendRequests := Slot.value [⟨"1", "alice", "bob", "pending", "t"⟩] } "1").1.users
      = sampleStore.users :=
  (acceptFriendRequest_missing_user
    { sampleStore with friendRequests := Slot.value [⟨"1", "alice", "bob", "pending", "t"⟩] }
    "1" ⟨"1", "alice", "bob", "pending", "t"⟩ (by decide) (Or.inr (by decide))).2.2.1

/-! ## Unread counts -/

theorem unread_after_mark (f t : String) (l : List Message) :
    ((l.map (fun m =>
        if m.from_ == f && m.to_ == t && !m.read then { m with read := true } else m)).filter
        (fun m => m.to_ == t && !m.read)).length
      + (l.filter (fun m => m.from_ == f && m.to_ == t && !m.read)).length
      = (l.filter (fun m => m.to_ == t && !m.read)).length := by
  induction l with
  | nil => rfl
  | cons m ms ih =>
    simp only [List.map_cons, List.filter_cons]
    by_cases hf : m.from_ = f <;> by_cases ht : m.to_ = t <;> cases hr : m.read <;>
      simp [hf, ht, hr] at ih ⊢ <;> omega

theorem unread_other_after_mark (f t u : String) (hu : u ≠ t) (l : List Message) :
    (l.map (fun m =>
        if m.from_ == f && m.to_ == t && !m.read then { m with read := true } else m)).filter
        (fun m => m.to_ == u && !m.read)
      = l.filter (fun m => m.to_ == u && !m.read) := by
  induction l with
  | nil => rfl
  | cons m ms ih =>
    simp only [List.map_cons, List.filter_cons]
    by_cases hf : m.from_ = f <;> by_cases ht : m.to_ = t <;> cases hr : m.read <;>
      simp [hf, ht, hr, Ne.symm hu] at ih ⊢ <;> first
        | exact ih
        | simp_all

/-- C29: `markMessagesAsRead(f,t)` lowers `getUnreadCount(t)` by the number of
unread messages from `f` to `t` there were and leaves `getUnreadCount(u)` as it
is for every other user `u`; `sendMessage(f,t,text)` raises `getUnreadCount(t)`
by one. -/
theorem unread_count_changes (c : Clock) (s : Store) (f t u text : String) (hu : u ≠ t) :
    getUnreadCount (markMessagesAsRead s f t) t
        + ((getMessages s).filter (fun m => m.from_ == f && m.to_ == t && !m.read)).length
        = getUnreadCount s t ∧
      getUnreadCount (markMessagesAsRead s f t) u = getUnreadCount s u ∧
      getUnreadCount (sendMessage c s f t text).1 t = getUnreadCount s t + 1 := by
  refine ⟨?_, ?_, ?_⟩
  · exact unread_after_mark f t (getMessages s)
  · show ((getMessages (markMessagesAsRead s f t)).filter _).length = _
    have hrun : getMessages (markMessagesAsRead s f t) =
        (getMessages s).map (fun m =>
          if m.from_ == f && m.to_ == t && !m.read then { m with read := true } else m) := rfl
    rw [hrun, unread_other_after_mark f t u hu]
    rfl
  · simp [getUnreadCount, sendMessage, getMessages, readList_value]

theorem unread_count_changes_witness :
    getUnreadCount
        (markMessagesAsRead { Store.empty with messages := Slot.value sampleMessages } "b" "a")
        "a" + 1
      = getUnreadCount { Store.empty with messages := Slot.value sampleMessages } "a" :=
  (unread_count_changes ⟨1000, "t1"⟩ { Store.empty with messages := Slot.value sampleMessages }
    "b" "a" "c" "hi" (by decide)).1

/-! ## The username key -/

theorem strictEq_eq_of_true (a b : Option JVal) (h : strictEq a b = true) : a = b := by
  unfold strictEq at h
  split at h <;> simp_all

theorem usernames_modifyAt_at (f : Record → Record) :
    ∀ (l : List Record) (i : Nat) (x : Record), elemAt l i = some x →
      getField (f x) "username" = getField x "username" →
      usernames (modifyAt f i l) = usernames l := by
  intro l
  induction l with
  | nil => intro i x h; cases i <;> simp [elemAt] at h
  | cons y ys ih =>
    intro i x hx hf
    cases i with
    | zero =>
      simp only [elemAt, Option.some.injEq] at hx
      subst hx
      simp [modifyAt, usernames, hf]
    | succ i =>
      have := ih i x (by simpa [elemAt] using hx) hf
      simp only [usernames] at this
      simp [modifyAt, usernames, this]

theorem usernamesUnique_iff (l : List Record) :
    usernamesUnique l ↔ (usernames l).Pairwise (fun a b => strictEq a b = false) := by
  unfold usernamesUnique usernames
  rw [List.pairwise_map]

/-- `saveUser` keeps the usernames of the users collection unique. -/
theorem saveUser_keeps_usernamesUnique (s : Store) (u : Record)
    (hunique : usernamesUnique (getUsers s)) :
    usernamesUnique (getUsers (saveUser s u).1) := by
  cases hidx : findIndex
      (fun r : Record => strictEq (getField r "username") (getField u "username"))
      (getUsers s) with
  | none =>
    have hrun : getUsers (saveUser s u).1 = getUsers s ++ [u] := by
      simp only [getUsers] at hidx
      simp only [saveUser, getUsers, hidx, readList_value]
    rw [hrun]
    unfold usernamesUnique at hunique ⊢
    rw [List.pairwise_append]
    refine ⟨hunique, List.pairwise_singleton _ _, ?_⟩
    intro x hx y hy
    rw [List.mem_singleton] at hy
    subst hy
    exact (findIndex_eq_none_iff _ _).1 hidx x hx
  | some i =>
    obtain ⟨x, hx, -, hpx⟩ := findIndex_some_spec _ _ _ hidx
    have hrun : getUsers (saveUser s u).1 = modifyAt (fun old => spread old u) i (getUsers s) := by
      simp only [getUsers] at hidx
      simp only [saveUser, getUsers, hidx, readList_value]
    have hsame : getField (spread x u) "username" = getField x "username" := by
      have heq := strictEq_eq_of_true _ _ hpx
      rw [getField_spread]
      cases hu : getField u "username" with
      | none => rfl
      | some v => rw [heq, hu]
    rw [hrun, usernamesUnique_iff, usernames_modifyAt_at _ _ _ x hx hsame,
      ← usernamesUnique_iff]
    exact hunique

/-- C26 (the code at the failing input): the users collection holds `alice` with
one email; `handleRegister` with the username `alice` and another email succeeds
and the collection then holds two records with the username `alice`. -/
theorem handleRegister_duplicates_username :
    usernamesUnique (getUsers sampleStore) ∧
      getUsers (handleRegister ⟨1000, "t1"⟩ sampleStore "alice" "other@x.org" "pw")
        = [[("username", JVal.str "alice")],
           [("id", JVal.str "1000"), ("username", JVal.str "alice"),
            ("email", JVal.str "other@x.org"), ("password", JVal.str "pw")]] ∧
      ¬ usernamesUnique
        (getUsers (handleRegister ⟨1000, "t1"⟩ sampleStore "alice" "other@x.org" "pw")) := by
  unfold usernamesUnique
  decide

/-! ## Accepting twice -/

theorem modifyAt_id_at {α : Type} (f : α → α) :
    ∀ (l : List α) (i : Nat) (x : α), elemAt l i = some x → f x = x → modifyAt f i l = l := by
  intro l
  induction l with
  | nil => intro i x h; cases i <;> simp [elemAt] at h
  | cons y ys ih =>
    intro i x hx hf
    cases i with
    | zero =>
      simp only [elemAt, Option.some.injEq] at hx
      subst hx
      simp [modifyAt, hf]
    | succ i =>
      simp [modifyAt, ih i x (by simpa [elemAt] using hx) hf]

theorem truthy_of_hasName (u : Record) (name : String) (h : hasName u name = true) :
    truthy (getField u "friends") = true := by
  unfold hasName at h
  split at h
  · rename_i hf
    rw [hf]
    rfl
  · rename_i text hf
    rw [hf]
    simp only [Bool.and_eq_true, bne_iff_ne, ne_eq] at h
    simp [truthy, h.1]
  · simp at h

theorem ensureFriends_fix (i : Nat) (l : List Record) (u : Record) (h : elemAt l i = some u)
    (ht : truthy (getField u "friends") = true) : ensureFriends i l = l := by
  unfold ensureFriends
  exact modifyAt_id_at _ l i u h (by simp [ht])

/-- The step `if (!users[i].friends) users[i].friends = []` seen from any index:
the record at `i` has a truthy `friends` afterwards, and a record whose
`friends` is truthy is left as it is. -/
theorem ensureFriends_truthy (i : Nat) (l : List Record) (j : Nat) (u : Record)
    (h : elemAt l j = some u) :
    ∃ u', elemAt (ensureFriends i l) j = some u' ∧
      (j = i → truthy (getField u' "friends") = true) ∧
      (truthy (getField u "friends") = true → u' = u) := by
  unfold ensureFriends
  rw [elemAt_modifyAt, h]
  by_cases hji : j = i
  · simp only [hji, if_true, Option.map_some']
    by_cases ht : truthy (getField u "friends") = true
    · simp only [ht, if_true]
      exact ⟨u, rfl, fun _ => ht, fun _ => rfl⟩
    · simp only [ht, Bool.false_eq_true, if_false]
      refine ⟨_, rfl, fun _ => ?_, fun hx => hx.elim⟩
      rw [getField_setField_same]
      rfl
  · simp only [hji, if_false]
    exact ⟨u, rfl, fun hx => hx.elim, fun _ => rfl⟩

theorem addFriend_fix (i : Nat) (name : String) (l : List Record) (u : Record)
    (h : elemAt l i = some u) (hn : hasName u name = true) :
    addFriend i name l = Except.ok l := by
  unfold hasName at hn
  unfold addFriend
  rw [h]
  split at hn
  · rename_i fs hf
    simp [hf, hn]
  · rename_i text hf
    simp only [Bool.and_eq_true, decide_eq_true_eq] at hn
    simp [hf, hn.2]
  · simp at hn

/-- The step `if (!users[i].friends.includes(name)) users[i].friends.push(name)`
when it does not raise, on a record whose `friends` is truthy: usernames stay,
the record at `i` answers `includes(name)` afterwards, and every record keeps a
truthy `friends` and the names it answered for. -/
theorem addFriend_ok_spec (i : Nat) (name : String) (l l' : List Record) (u : Record)
    (hrun : addFriend i name l = Except.ok l') (h : elemAt l i = some u)
    (ht : truthy (getField u "friends") = true) :
    usernames l' = usernames l ∧
      (∃ u', elemAt l' i = some u' ∧ hasName u' name = true) ∧
      ∀ j w, elemAt l j = some w →
        ∃ w', elemAt l' j = some w' ∧
          (truthy (getField w "friends") = true → truthy (getField w' "friends") = true) ∧
          (∀ x, hasName w x = true → hasName w' x = true) := by
  unfold addFriend at hrun
  rw [h] at hrun
  simp only at hrun
  cases hf : getField u "friends" with
  | none => simp [hf] at hrun
  | some v =>
    cases v with
    | null => simp [hf] at hrun
    | bool b => simp [hf] at hrun
    | num n => simp [hf] at hrun
    | obj fields => simp [hf] at hrun
    | str text =>
      rw [hf] at hrun ht
      simp only at hrun
      by_cases hin : name.data <:+: text.data
      · simp only [hin, if_true, Except.ok.injEq] at hrun
        subst hrun
        have hne : text ≠ "" := by
          intro he
          subst he
          simp [truthy] at ht
        refine ⟨rfl, ⟨u, h, ?_⟩, fun j w hw => ⟨w, hw, fun hx => hx, fun _ hx => hx⟩⟩
        simp [hasName, hf, hne, hin]
      · simp [hin] at hrun
    | arr fs =>
      rw [hf] at hrun
      simp only at hrun
      by_cases hinc : includes fs name = true
      · simp only [hinc, if_true, Except.ok.injEq] at hrun
        subst hrun
        refine ⟨rfl, ⟨u, h, ?_⟩, fun j w hw => ⟨w, hw, fun hx => hx, fun _ hx => hx⟩⟩
        simp [hasName, hf, hinc]
      · simp only [hinc, Bool.false_eq_true, if_false, Except.ok.injEq] at hrun
        subst hrun
        refine ⟨?_, ⟨setField u "friends" (JVal.arr (fs ++ [JVal.str name])),
          by rw [elemAt_modifyAt, h]; simp, ?_⟩, ?_⟩
        · apply usernames_modifyAt
          intro r
          exact getField_setField_other _ _ _ _ (by decide)
        · simp only [hasName, getField_setField_same]
          exact includes_append_self _ _
        · intro j w hw
          rw [elemAt_modifyAt, hw]
          by_cases hji : j = i
          · subst hji
            rw [h] at hw
            cases hw
            simp only [if_true, Option.map_some']
            refine ⟨_, rfl, fun _ => ?_, fun x hx => ?_⟩
            · rw [getField_setField_same]
              rfl
            · simp only [hasName, hf] at hx
              simp only [hasName, getField_setField_same]
              exact includes_append _ _ _ hx
          · simp only [hji, if_false]
            exact ⟨w, rfl, fun hx => hx, fun _ hx => hx⟩

/-- The users array `acceptFriendRequest` wrote for a request is the array it
writes for that request again. -/
theorem acceptedUsers_idempotent (users users4 : List Record) (r : FriendRequest)
    (h : acceptedUsers users r = some users4) : acceptedUsers users4 r = some users4 := by
  unfold acceptedUsers at h
  cases hfi : findIndex
      (fun u => strictEq (getField u "username") (some (JVal.str r.from_))) users with
  | none => simp [hfi] at h
  | some fi =>
    cases hti : findIndex
        (fun u => strictEq (getField u "username") (some (JVal.str r.to_))) users with
    | none => simp [hfi, hti] at h
    | some ti =>
      rw [hfi, hti] at h
      simp only at h
      cases h3 : addFriend fi r.to_ (ensureFriends ti (ensureFriends fi users)) with
      | error e => simp [h3] at h
      | ok users3 =>
        rw [h3] at h
        simp only at h
        cases h4 : addFriend ti r.from_ users3 with
        | error e => simp [h4] at h
        | ok users4' =>
          rw [h4] at h
          simp only [Option.some.injEq] at h
          subst h
          obtain ⟨xa, hxa, -, -⟩ := findIndex_some_spec _ _ _ hfi
          obtain ⟨xb, hxb, -, -⟩ := findIndex_some_spec _ _ _ hti
          obtain ⟨x1, hx1, hx1t, -⟩ := ensureFriends_truthy fi users fi xa hxa
          obtain ⟨y1, hy1, -, -⟩ := ensureFriends_truthy fi users ti xb hxb
          obtain ⟨x2, hx2, -, hx2keep⟩ := ensureFriends_truthy ti _ fi x1 hx1
          obtain ⟨y2, hy2, hy2t, -⟩ := ensureFriends_truthy ti _ ti y1 hy1
          have hx2t : truthy (getField x2 "friends") = true := by
            rw [hx2keep (hx1t rfl)]
            exact hx1t rfl
          obtain ⟨hn3, ⟨x3, hx3, hx3b⟩, hkeep3⟩ :=
            addFriend_ok_spec fi r.to_ _ users3 x2 h3 hx2 hx2t
          obtain ⟨y3, hy3, hy3t, -⟩ := hkeep3 ti y2 hy2
          obtain ⟨hn4, ⟨y4, hy4, hy4a⟩, hkeep4⟩ :=
            addFriend_ok_spec ti r.from_ users3 users4' y3 h4 hy3 (hy3t (hy2t rfl))
          obtain ⟨x4, hx4, -, hx4keep⟩ := hkeep4 fi x3 hx3
          have hx4b : hasName x4 r.to_ = true := hx4keep _ hx3b
          have hnames : usernames users4' = usernames users := by
            rw [hn4, hn3, usernames_ensureFriends, usernames_ensureFriends]
          have hfi4 : findIndex
              (fun u => strictEq (getField u "username") (some (JVal.str r.from_))) users4'
              = some fi := by
            rw [findIndex_usernames, hnames, ← findIndex_usernames]
            exact hfi
          have hti4 : findIndex
              (fun u => strictEq (getField u "username") (some (JVal.str r.to_))) users4'
              = some ti := by
            rw [findIndex_usernames, hnames, ← findIndex_usernames]
            exact hti
          have he1 : ensureFriends fi users4' = users4' :=
            ensureFriends_fix fi users4' x4 hx4 (truthy_of_hasName _ _ hx4b)
          have he2 : ensureFriends ti users4' = users4' :=
            ensureFriends_fix ti users4' y4 hy4 (truthy_of_hasName _ _ hy4a)
          have ha1 : addFriend fi r.to_ users4' = Except.ok users4' :=
            addFriend_fix fi r.to_ users4' x4 hx4 hx4b
          have ha2 : addFriend ti r.from_ users4' = Except.ok users4' :=
            addFriend_fix ti r.from_ users4' y4 hy4 hy4a
          unfold acceptedUsers
          simp only [hfi4, hti4, he1, he2, ha1, ha2]

/-- The users slot `acceptFriendRequest` leaves: the array it writes when it
comes to write one, the slot as it was otherwise. -/
theorem acceptFriendRequest_users (s : Store) (i : String) :
    (acceptFriendRequest s i).1.users =
      match findFirst (fun q => q.id == i) (getFriendRequests s) with
      | none => s.users
      | some r =>
        match acceptedUsers (getUsers s) r with
        | some users4 => Slot.value users4
        | none => s.users := by
  cases hreq : findFirst (fun q : FriendRequest => q.id == i) (getFriendRequests s) with
  | none =>
    have hidx := findIndex_none_of_findFirst_none _ _ hreq
    simp [acceptFriendRequest, hidx]
  | some r =>
    obtain ⟨ri, hri, hrelem⟩ := findFirst_some_findIndex _ _ _ hreq
    have hmod : elemAt (modifyAt (fun q : FriendRequest => { q with status := "accepted" }) ri
        (getFriendRequests s)) ri = some { r with status := "accepted" } := by
      rw [elemAt_modifyAt, hrelem]
      simp
    unfold acceptFriendRequest acceptedUsers
    simp only [hri, hmod, getUsers]
    cases findIndex
        (fun u => strictEq (getField u "username") (some (JVal.str r.from_)))
        (readList s.users) with
    | none => rfl
    | some fi =>
      cases findIndex
          (fun u => strictEq (getField u "username") (some (JVal.str r.to_)))
          (readList s.users) with
      | none => rfl
      | some ti =>
        simp only
        cases addFriend fi r.to_ (ensureFriends ti (ensureFriends fi (readList s.users))) with
        | error e => rfl
        | ok users3 =>
          simp only
          cases addFriend ti r.from_ users3 with
          | error e => rfl
          | ok users4 =>
            simp only [refreshCurrentUser_users]

theorem friendsList_eq_iff (u : Record) (fs : List JVal) :
    friendsList u = some fs ↔ getField u "friends" = some (JVal.arr fs) := by
  unfold friendsList
  constructor
  · intro h
    split at h
    · rename_i hf
      simp only [Option.some.injEq] at h
      rw [hf, h]
    · simp at h
  · intro h
    rw [h]

/-- The step `if (!users[i].friends.includes(name)) users[i].friends.push(name)`
when it does not raise, seen from a record whose `friends` is an array: the
array is as it was, or `name` is appended and the array did not contain it. -/
theorem addFriend_appends (i : Nat) (name : String) (l l' : List Record)
    (hrun : addFriend i name l = Except.ok l') (j : Nat) (w : Record) (fs : List JVal)
    (hw : elemAt l j = some w) (hfs : friendsList w = some fs) :
    ∃ w', elemAt l' j = some w' ∧
      (friendsList w' = some fs ∨
        (friendsList w' = some (fs ++ [JVal.str name]) ∧ includes fs name = false)) := by
  unfold addFriend at hrun
  cases hu : elemAt l i with
  | none => simp [hu] at hrun
  | some u =>
    rw [hu] at hrun
    simp only at hrun
    cases hf : getField u "friends" with
    | none => simp [hf] at hrun
    | some v =>
      cases v with
      | null => simp [hf] at hrun
      | bool b => simp [hf] at hrun
      | num n => simp [hf] at hrun
      | obj fields => simp [hf] at hrun
      | str text =>
        rw [hf] at hrun
        simp only at hrun
        by_cases hin : name.data <:+: text.data
        · simp only [hin, if_true, Except.ok.injEq] at hrun
          subst hrun
          exact ⟨w, hw, Or.inl hfs⟩
        · simp [hin] at hrun
      | arr fs0 =>
        rw [hf] at hrun
        simp only at hrun
        by_cases hinc : includes fs0 name = true
        · simp only [hinc, if_true, Except.ok.injEq] at hrun
          subst hrun
          exact ⟨w, hw, Or.inl hfs⟩
        · simp only [hinc, Bool.false_eq_true, if_false, Except.ok.injEq] at hrun
          subst hrun
          rw [elemAt_modifyAt, hw]
          by_cases hji : j = i
          · subst hji
            rw [hu] at hw
            have hwu : u = w := Option.some.inj hw
            subst hwu
            have hsame : fs0 = fs := by
              have hget := (friendsList_eq_iff u fs).1 hfs
              rw [hf] at hget
              simpa using hget
            subst hsame
            simp only [if_true, Option.map_some']
            refine ⟨_, rfl, Or.inr ⟨friendsList_setField _ _, ?_⟩⟩
            simpa using hinc
          · simp only [hji, if_false]
            exact ⟨w, rfl, Or.inl hfs⟩

theorem includes_append_false (fs : List JVal) (b a : String)
    (h : includes (fs ++ [JVal.str b]) a = false) : includes fs a = false ∧ b ≠ a := by
  simp only [includes, List.any_append, Bool.or_eq_false_iff] at h
  refine ⟨h.1, ?_⟩
  intro hba
  subst hba
  simp [strictEq] at h

/-- What `acceptFriendRequest` writes into an array of friends: the array is
kept, followed by names it did not contain, none of them twice. -/
theorem acceptedUsers_appends (users users4 : List Record) (r : FriendRequest)
    (h : acceptedUsers users r = some users4) (j : Nat) (u : Record) (fs : List JVal)
    (hu : elemAt users j = some u) (hfs : friendsList u = some fs) :
    ∃ (u' : Record) (extra : List String), elemAt users4 j = some u' ∧
      friendsList u' = some (fs ++ extra.map JVal.str) ∧ extra.Nodup ∧
      ∀ x ∈ extra, includes fs x = false := by
  unfold acceptedUsers at h
  cases hfi : findIndex
      (fun u => strictEq (getField u "username") (some (JVal.str r.from_))) users with
  | none => simp [hfi] at h
  | some fi =>
    cases hti : findIndex
        (fun u => strictEq (getField u "username") (some (JVal.str r.to_))) users with
    | none => simp [hfi, hti] at h
    | some ti =>
      rw [hfi, hti] at h
      simp only at h
      cases h3 : addFriend fi r.to_ (ensureFriends ti (ensureFriends fi users)) with
      | error e => simp [h3] at h
      | ok users3 =>
        rw [h3] at h
        simp only at h
        cases h4 : addFriend ti r.from_ users3 with
        | error e => simp [h4] at h
        | ok users4' =>
          rw [h4] at h
          simp only [Option.some.injEq] at h
          subst h
          have htruthy := truthy_of_friendsList u fs hfs
          obtain ⟨u1, hu1, -, hu1keep⟩ := ensureFriends_truthy fi users j u hu
          rw [hu1keep htruthy] at hu1
          obtain ⟨u2, hu2, -, hu2keep⟩ := ensureFriends_truthy ti _ j u hu1
          rw [hu2keep htruthy] at hu2
          obtain ⟨u3, hu3, hcase3⟩ := addFriend_appends fi r.to_ _ users3 h3 j u fs hu2 hfs
          rcases hcase3 with hsame3 | ⟨happ3, hnew3⟩
          · obtain ⟨u4, hu4, hcase4⟩ :=
              addFriend_appends ti r.from_ users3 users4' h4 j u3 fs hu3 hsame3
            rcases hcase4 with hsame4 | ⟨happ4, hnew4⟩
            · exact ⟨u4, [], hu4, by simpa using hsame4, List.nodup_nil, by simp⟩
            · exact ⟨u4, [r.from_], hu4, by simpa using happ4, List.nodup_singleton _,
                by simpa using hnew4⟩
          · obtain ⟨u4, hu4, hcase4⟩ :=
              addFriend_appends ti r.from_ users3 users4' h4 j u3 _ hu3 happ3
            rcases hcase4 with hsame4 | ⟨happ4, hnew4⟩
            · exact ⟨u4, [r.to_], hu4, by simpa using hsame4, List.nodup_singleton _,
                by simpa using hnew3⟩
            · obtain ⟨hnot, hne⟩ := includes_append_false _ _ _ hnew4
              refine ⟨u4, [r.to_, r.from_], hu4, by simpa using happ4, ?_, ?_⟩
              · simp [hne]
              · intro x hx
                simp only [List.mem_cons, List.mem_singleton, List.not_mem_nil, or_false] at hx
                rcases hx with rfl | rfl
                · exact hnew3
                · exact hnot

/-- C22: `acceptFriendRequest` is an idempotent union on the friends lists:
a second `acceptFriendRequest(i)` leaves the users collection as the first
call left it, and a call keeps every friends array and appends to it only
names the array did not contain, none of them twice. -/
theorem acceptFriendRequest_idempotent_union (s : Store) (i : String) :
    (acceptFriendRequest (acceptFriendRequest s i).1 i).1.users
        = (acceptFriendRequest s i).1.users ∧
      ∀ (j : Nat) (u : Record) (fs : List JVal), elemAt (getUsers s) j = some u →
        friendsList u = some fs →
        ∃ (u' : Record) (extra : List String), elemAt (getUsers (acceptFriendRequest s i).1) j = some u' ∧
          friendsList u' = some (fs ++ extra.map JVal.str) ∧ extra.Nodup ∧
          ∀ x ∈ extra, includes fs x = false := by
  have husers := acceptFriendRequest_users s i
  cases hreq : findFirst (fun q : FriendRequest => q.id == i) (getFriendRequests s) with
  | none =>
    have hidx := findIndex_none_of_findFirst_none _ _ hreq
    have hrun : acceptFriendRequest s i = (s, Except.ok none) := by
      simp [acceptFriendRequest, hidx]
    rw [hrun]
    dsimp only
    rw [hrun]
    exact ⟨rfl, fun j u fs hu hfs => ⟨u, [], hu, by simpa using hfs, List.nodup_nil, by simp⟩⟩
  | some r =>
    rw [hreq] at husers
    simp only at husers
    obtain ⟨ri, hri, -⟩ := findFirst_some_findIndex _ _ _ hreq
    have hreqs := acceptFriendRequest_requests s i
    rw [hri] at hreqs
    simp only at hreqs
    have hreq2 : findFirst (fun q : FriendRequest => q.id == i)
        (getFriendRequests (acceptFriendRequest s i).1)
          = some { r with status := "accepted" } := by
      rw [hreqs, findFirst_modifyAt (fun q : FriendRequest => q.id == i)
        (fun q : FriendRequest => { q with status := "accepted" }) _ ri hri (fun y hy => hy),
        hreq]
      rfl
    have husers2 := acceptFriendRequest_users (acceptFriendRequest s i).1 i
    rw [hreq2] at husers2
    simp only at husers2
    have hsame : ∀ users : List Record,
        acceptedUsers users { r with status := "accepted" } = acceptedUsers users r :=
      fun _ => rfl
    cases hacc : acceptedUsers (getUsers s) r with
    | none =>
      rw [hacc] at husers
      simp only at husers
      have hget : getUsers (acceptFriendRequest s i).1 = getUsers s := by
        simp only [getUsers, husers]
      rw [hget, hsame, hacc] at husers2
      refine ⟨husers2, ?_⟩
      intro j u fs hu hfs
      rw [hget]
      exact ⟨u, [], hu, by simpa using hfs, List.nodup_nil, by simp⟩
    | some users4 =>
      rw [hacc] at husers
      simp only at husers
      have hget : getUsers (acceptFriendRequest s i).1 = users4 := by
        simp only [getUsers, husers, readList_value]
      rw [hget, hsame, acceptedUsers_idempotent _ _ _ hacc] at husers2
      refine ⟨husers2.trans husers.symm, ?_⟩
      intro j u fs hu hfs
      rw [hget]
      exact acceptedUsers_appends _ _ _ hacc j u fs hu hfs

theorem acceptFriendRequest_idempotent_union_witness :
    ∃ (u' : Record) (extra : List String),
      elemAt
          (getUsers
            (acceptFriendRequest
              { Store.empty with
                users := Slot.value
                  [[("username", JVal.str "alice"), ("friends", JVal.arr [JVal.str "bob"])],
                   [("username", JVal.str "bob")]],
                friendRequests := Slot.value [⟨"1", "alice", "bob", "pending", "t"⟩] }
              "1").1) 0 = some u' ∧
        friendsList u' = some ([JVal.str "bob"] ++ extra.map JVal.str) ∧ extra.Nodup ∧
        ∀ x ∈ extra, includes [JVal.str "bob"] x = false :=
  (acceptFriendRequest_idempotent_union
    { Store.empty with
      users := Slot.value
        [[("username", JVal.str "alice"), ("friends", JVal.arr [JVal.str "bob"])],
         [("username", JVal.str "bob")]],
      friendRequests := Slot.value [⟨"1", "alice", "bob", "pending", "t"⟩] }
    "1").2 0 [("username", JVal.str "alice"), ("friends", JVal.arr [JVal.str "bob"])]
    [JVal.str "bob"] (by decide) (by decide)

/-! ## The session user after accepting -/

/-- How `acceptFriendRequest` ends when the request is found, both users are
stored and their `friends` fields are arrays or falsy: the users array it
writes, with the two records it finds under the two usernames. -/
theorem acceptFriendRequest_run (s : Store) (i a b : String) (r : FriendRequest)
    (ua ub : Record)
    (hreq : findFirst (fun q => q.id == i) (getFriendRequests s) = some r)
    (hfrom : r.from_ = a) (hto : r.to_ = b)
    (hua : getUserByUsername s a = some ua) (hub : getUserByUsername s b = some ub)
    (hoka : friendsOk ua = true) (hokb : friendsOk ub = true) :
    ∃ (requests' : List FriendRequest) (users4 : List Record) (fi ti : Nat) (u4 v4 : Record),
      acceptFriendRequest s i =
        (refreshCurrentUser
            { s with friendRequests := Slot.value requests', users := Slot.value users4 }
            { r with status := "accepted" } users4 fi ti,
          Except.ok (some { r with status := "accepted" })) ∧
      elemAt users4 fi = some u4 ∧ elemAt users4 ti = some v4 ∧
      findFirst (fun u => strictEq (getField u "username") (some (JVal.str a))) users4
        = some u4 ∧
      findFirst (fun u => strictEq (getField u "username") (some (JVal.str b))) users4
        = some v4 ∧
      listsFriend u4 b = true ∧ listsFriend v4 a = true := by
  obtain ⟨ri, hri, hrelem⟩ := findFirst_some_findIndex _ _ _ hreq
  obtain ⟨fi, hfi, hfelem⟩ := findFirst_some_findIndex _ _ _ hua
  obtain ⟨ti, hti, htelem⟩ := findFirst_some_findIndex _ _ _ hub
  have hmod : elemAt (modifyAt (fun q : FriendRequest => { q with status := "accepted" }) ri
      (getFriendRequests s)) ri = some { r with status := "accepted" } := by
    rw [elemAt_modifyAt, hrelem]
    simp
  obtain ⟨users3, users4, h3, h4, hnames, ⟨u4, hu4, hu4b⟩, ⟨v4, hv4, hv4a⟩⟩ :=
    friends_steps (getUsers s) a b fi ti ua ub hfelem htelem hoka hokb
  have hfi4 : findIndex (fun u => strictEq (getField u "username") (some (JVal.str a))) users4
      = some fi := by
    rw [findIndex_usernames, hnames, ← findIndex_usernames]
    exact hfi
  have hti4 : findIndex (fun u => strictEq (getField u "username") (some (JVal.str b))) users4
      = some ti := by
    rw [findIndex_usernames, hnames, ← findIndex_usernames]
    exact hti
  obtain ⟨x, hx, hfx, -⟩ := findIndex_some_spec _ _ _ hfi4
  obtain ⟨y, hy, hfy, -⟩ := findIndex_some_spec _ _ _ hti4
  rw [hu4] at hx
  rw [hv4] at hy
  cases hx
  cases hy
  refine ⟨modifyAt (fun q : FriendRequest => { q with status := "accepted" }) ri
    (getFriendRequests s), users4, fi, ti, u4, v4, ?_, hu4, hv4, hfx, hfy, hu4b, hv4a⟩
  unfold acceptFriendRequest
  simp only [hri, hmod]
  subst hfrom hto
  simp only [getUsers] at hfi hti h3 h4
  simp only [getUsers, hfi, hti, h3, h4]

/-- C24 (as stated, refuted): `alice` and `bob` are stored, `bob` is the session
user and the request `1` goes from `alice` to `bob`; the `friends` field of
`alice` is the number `7`.  `acceptFriendRequest("1")` raises before any user is
written: the session user afterwards is the record of `bob` as it was, and
neither it nor the stored `bob` has a friends list that contains `alice`.  In a
second store an older request from `carol` to `dave` carries the same id `1`
and is the one accepted: `bob` stays without a friends list. -/
theorem acceptFriendRequest_refreshes_session_counterexample :
    ((acceptFriendRequest
          { Store.empty with
            users := Slot.value
              [[("username", JVal.str "alice"), ("friends", JVal.num 7)],
               [("username", JVal.str "bob")]],
            friendRequests := Slot.value [⟨"1", "alice", "bob", "pending", "t"⟩],
            currentUser := Slot.value [("username", JVal.str "bob")] }
          "1").2 = Except.error "TypeError" ∧
      getCurrentUser
          (acceptFriendRequest
            { Store.empty with
              users := Slot.value
                [[("username", JVal.str "alice"), ("friends", JVal.num 7)],
                 [("username", JVal.str "bob")]],
              friendRequests := Slot.value [⟨"1", "alice", "bob", "pending", "t"⟩],
              currentUser := Slot.value [("username", JVal.str "bob")] }
            "1").1
        = some [("username", JVal.str "bob")] ∧
      listsFriend [("username", JVal.str "bob")] "alice" = false ∧
      hasFriend
          (acceptFriendRequest
            { Store.empty with
              users := Slot.value
                [[("username", JVal.str "alice"), ("friends", JVal.num 7)],
                 [("username", JVal.str "bob")]],
              friendRequests := Slot.value [⟨"1", "alice", "bob", "pending", "t"⟩],
              currentUser := Slot.value [("username", JVal.str "bob")] }
            "1").1 "bob" "alice" = false) ∧
      (getCurrentUser
          (acceptFriendRequest
            { Store.empty with
              users := Slot.value
                [[("username", JVal.str "alice")], [("username", JVal.str "bob")],
                 [("username", JVal.str "carol")], [("username", JVal.str "dave")]],
              friendRequests := Slot.value
                [⟨"1", "carol", "dave", "pending", "t"⟩,
                 ⟨"1", "alice", "bob", "pending", "t"⟩],
              currentUser := Slot.value [("username", JVal.str "bob")] }
            "1").1
        = some [("username", JVal.str "bob")] ∧
      hasFriend
          (acceptFriendRequest
            { Store.empty with
              users := Slot.value
                [[("username", JVal.str "alice")], [("username", JVal.str "bob")],
                 [("username", JVal.str "carol")], [("username", JVal.str "dave")]],
              friendRequests := Slot.value
                [⟨"1", "carol", "dave", "pending", "t"⟩,
                 ⟨"1", "alice", "bob", "pending", "t"⟩],
              currentUser := Slot.value [("username", JVal.str "bob")] }
            "1").1 "bob" "alice" = false) :=
  ⟨⟨rfl, by decide, by decide, by decide⟩, by decide, by decide⟩

/-- C24 (amended): when the first request with id `i` goes from `a` to `b`, both
users are stored with `friends` fields that are arrays or falsy, and the session
user's username is `a` or `b`, then after `acceptFriendRequest(i)`
`getCurrentUser()` is the record `getUserByUsername` finds under that username,
and its friends list contains the other party. -/
theorem acceptFriendRequest_refreshes_session (s : Store) (i a b : String)
    (r : FriendRequest) (ua ub cu : Record)
    (hreq : findFirst (fun q => q.id == i) (getFriendRequests s) = some r)
    (hfrom : r.from_ = a) (hto : r.to_ = b)
    (hua : getUserByUsername s a = some ua) (hub : getUserByUsername s b = some ub)
    (hoka : friendsOk ua = true) (hokb : friendsOk ub = true)
    (hcur : getCurrentUser s = some cu) :
    (getField cu "username" = some (JVal.str a) →
        getCurrentUser (acceptFriendRequest s i).1
          = getUserByUsername (acceptFriendRequest s i).1 a ∧
        hasFriend (acceptFriendRequest s i).1 a b = true) ∧
      (getField cu "username" = some (JVal.str b) →
        getCurrentUser (acceptFriendRequest s i).1
          = getUserByUsername (acceptFriendRequest s i).1 b ∧
        hasFriend (acceptFriendRequest s i).1 b a = true) := by
  obtain ⟨requests', users4, fi, ti, u4, v4, hrun, hu4, hv4, hfx, hfy, hu4b, hv4a⟩ :=
    acceptFriendRequest_run s i a b r ua ub hreq hfrom hto hua hub hoka hokb
  have hcur2 : getCurrentUser
      ({ s with friendRequests := Slot.value requests', users := Slot.value users4 } : Store)
      = some cu := hcur
  have hfinda : getUserByUsername (acceptFriendRequest s i).1 a = some u4 := by
    rw [hrun]
    simp only [getUserByUsername, getUsers, refreshCurrentUser_users, readList_value, hfx]
  have hfindb : getUserByUsername (acceptFriendRequest s i).1 b = some v4 := by
    rw [hrun]
    simp only [getUserByUsername, getUsers, refreshCurrentUser_users, readList_value, hfy]
  have hfriendA : hasFriend (acceptFriendRequest s i).1 a b = true := by
    simp only [hasFriend, hfinda, hu4b]
  have hfriendB : hasFriend (acceptFriendRequest s i).1 b a = true := by
    simp only [hasFriend, hfindb, hv4a]
  have hsa : strictEq (some (JVal.str a)) (some (JVal.str a)) = true := by simp [strictEq]
  have hsb : strictEq (some (JVal.str b)) (some (JVal.str b)) = true := by simp [strictEq]
  constructor
  · intro hname
    refine ⟨?_, hfriendA⟩
    rw [hfinda, hrun]
    subst hfrom
    simp only [refreshCurrentUser, hcur2, hname, hsa, if_true, hu4]
    rfl
  · intro hname
    refine ⟨?_, hfriendB⟩
    rw [hfindb, hrun]
    subst hfrom hto
    by_cases hab : r.to_ = r.from_
    · have huv : u4 = v4 := by
        rw [hab] at hfy
        rw [hfx] at hfy
        exact Option.some.inj hfy
      have hsab : strictEq (some (JVal.str r.to_)) (some (JVal.str r.from_)) = true := by
        rw [hab]
        exact hsa
      simp only [refreshCurrentUser, hcur2, hname, hsab, if_true, hu4, huv]
      rfl
    · have hsab : strictEq (some (JVal.str r.to_)) (some (JVal.str r.from_)) = false := by
        simp [strictEq, hab]
      simp only [refreshCurrentUser, hcur2, hname, hsab, hsb, Bool.false_eq_true, if_false,
        if_true, hv4]
      rfl

theorem acceptFriendRequest_refreshes_session_witness :
    getCurrentUser
        (acceptFriendRequest
          { Store.empty with
            users := Slot.value [[("username", JVal.str "alice")], [("username", JVal.str "bob")]],
            friendRequests := Slot.value [⟨"1", "alice", "bob", "pending", "t"⟩],
            currentUser := Slot.value [("username", JVal.str "bob"), ("email", JVal.str "b@x")] }
          "1").1
      = getUserByUsername
        (acceptFriendRequest
          { Store.empty with
            users := Slot.value [[("username", JVal.str "alice")], [("username", JVal.str "bob")]],
            friendRequests := Slot.value [⟨"1", "alice", "bob", "pending", "t"⟩],
            currentUser := Slot.value [("username", JVal.str "bob"), ("email", JVal.str "b@x")] }
          "1").1 "bob" :=
  ((acceptFriendRequest_refreshes_session _ "1" "alice" "bob"
    ⟨"1", "alice", "bob", "pending", "t"⟩ [("username", JVal.str "alice")]
    [("username", JVal.str "bob")] [("username", JVal.str "bob"), ("email", JVal.str "b@x")]
    (by decide) rfl rfl (by decide) (by decide) (by decide) (by decide) (by decide)).2
    (by decide)).1

/-! ## The conversation list -/

theorem mapGet_mapSet_same {α : Type} (m : List (String × α)) (k : String) (v : α) :
    mapGet (mapSet m k v) k = some v := by
  induction m with
  | nil => simp [mapSet, mapGet]
  | cons kv rest ih =>
    obtain ⟨k', v'⟩ := kv
    by_cases hk : k' = k
    · simp [mapSet, mapGet, hk]
    · simp [mapSet, mapGet, hk, ih]

theorem mapGet_mapSet_other {α : Type} (m : List (String × α)) (k k' : String) (v : α)
    (hne : k' ≠ k) : mapGet (mapSet m k v) k' = mapGet m k' := by
  induction m with
  | nil => simp [mapSet, mapGet, Ne.symm hne]
  | cons kv rest ih =>
    obtain ⟨k₀, v₀⟩ := kv
    by_cases hk : k₀ = k
    · subst hk
      simp [mapSet, mapGet, Ne.symm hne]
    · by_cases hk' : k₀ = k'
      · subst hk'
        simp [mapSet, mapGet, hk]
      · simp [mapSet, mapGet, hk, hk', ih]

theorem mapGet_eq_none_iff {α : Type} (m : List (String × α)) (k : String) :
    mapGet m k = none ↔ k ∉ m.map Prod.fst := by
  induction m with
  | nil => simp [mapGet]
  | cons kv rest ih =>
    obtain ⟨k₀, v₀⟩ := kv
    by_cases hk : k₀ = k
    · simp [mapGet, hk]
    · simp [mapGet, hk, ih, Ne.symm hk]

theorem mapGet_of_mem {α : Type} (m : List (String × α)) (k : String) (v : α)
    (hnodup : (m.map Prod.fst).Nodup) (hmem : (k, v) ∈ m) : mapGet m k = some v := by
  induction m with
  | nil => simp at hmem
  | cons kv rest ih =>
    obtain ⟨k₀, v₀⟩ := kv
    simp only [List.map_cons, List.nodup_cons] at hnodup
    rcases List.mem_cons.1 hmem with heq | hrest
    · cases heq
      simp [mapGet]
    · have hne : k₀ ≠ k := by
        intro he
        subst he
        exact hnodup.1 (List.mem_map.2 ⟨(k₀, v), hrest, rfl⟩)
      simp [mapGet, hne, ih hnodup.2 hrest]

theorem mem_of_mapGet {α : Type} (m : List (String × α)) (k : String) (v : α)
    (h : mapGet m k = some v) : (k, v) ∈ m := by
  induction m with
  | nil => simp [mapGet] at h
  | cons kv rest ih =>
    obtain ⟨k₀, v₀⟩ := kv
    by_cases hk : k₀ = k
    · simp only [mapGet, hk, if_true, Option.some.injEq] at h
      subst hk h
      exact List.mem_cons_self _ _
    · simp only [mapGet, hk, if_false] at h
      exact List.mem_cons_of_mem _ (ih h)

theorem keys_mapSet {α : Type} (m : List (String × α)) (k : String) (v : α) :
    (mapSet m k v).map Prod.fst
      = if k ∈ m.map Prod.fst then m.map Prod.fst else m.map Prod.fst ++ [k] := by
  induction m with
  | nil => simp [mapSet]
  | cons kv rest ih =>
    obtain ⟨k₀, v₀⟩ := kv
    by_cases hk : k₀ = k
    · simp [mapSet, hk]
    · simp only [mapSet, hk, if_false, List.map_cons, ih, List.mem_cons, Ne.symm hk, false_or]
      split <;> simp

theorem nodup_keys_mapSet {α : Type} (m : List (String × α)) (k : String) (v : α)
    (h : (m.map Prod.fst).Nodup) : ((mapSet m k v).map Prod.fst).Nodup := by
  rw [keys_mapSet]
  split
  · exact h
  · rename_i hk
    rw [List.nodup_append]
    refine ⟨h, List.nodup_singleton _, ?_⟩
    intro x hx hx'
    rw [List.mem_singleton] at hx'
    subst hx'
    exact hk hx

theorem strictEq_str (x y : String) :
    strictEq (some (JVal.str x)) (some (JVal.str y)) = (x == y) := rfl

/-- A message is exchanged with the user it is filed under, and with no other. -/
theorem exchanged_iff_counterpart (me name : String) (m : Message)
    (hinv : m.from_ = me ∨ m.to_ = me) :
    exchanged me name m = true ↔ name = (if m.from_ = me then m.to_ else m.from_) := by
  unfold exchanged
  by_cases hf : m.from_ = me
  · simp only [hf, if_true, beq_self_eq_true, Bool.true_and, Bool.or_eq_true, beq_iff_eq,
      Bool.and_eq_true]
    constructor
    · rintro (h | ⟨h1, h2⟩)
      · exact h.symm
      · rw [h2, ← h1]
    · intro h
      exact Or.inl h.symm
  · have ht : m.to_ = me := hinv.resolve_left hf
    simp only [hf, if_false, ht, beq_self_eq_true, Bool.and_true, Bool.or_eq_true,
      beq_iff_eq, Bool.and_eq_true]
    constructor
    · rintro (⟨h1, -⟩ | h)
      · exact h1.elim
      · exact h.symm
    · intro h
      exact Or.inr h.symm

theorem exchanged_false_of_not_involved (me name : String) (m : Message)
    (hf : m.from_ ≠ me) (ht : m.to_ ≠ me) : exchanged me name m = false := by
  simp [exchanged, hf, ht]

theorem notAfter_refl (parseDate : String → Option Int) (x : String)
    (hx : (parseDate x).isSome = true) : notAfter parseDate x x = true := by
  obtain ⟨tx, htx⟩ := Option.isSome_iff_exists.1 hx
  simp [notAfter, htx]

theorem notAfter_trans (parseDate : String → Option Int) (x y z : String)
    (hxy : notAfter parseDate x y = true) (hyz : notAfter parseDate y z = true) :
    notAfter parseDate x z = true := by
  unfold notAfter at hxy hyz ⊢
  cases hx : parseDate x <;> cases hy : parseDate y <;> cases hz : parseDate z <;>
    simp_all
  omega

theorem notAfter_of_dateGreater (parseDate : String → Option Int) (x y : String)
    (h : dateGreater parseDate x y = true) : notAfter parseDate y x = true := by
  unfold dateGreater at h
  unfold notAfter
  cases hx : parseDate x <;> cases hy : parseDate y <;> simp_all
  omega

theorem notAfter_of_not_dateGreater (parseDate : String → Option Int) (x y : String)
    (hx : (parseDate x).isSome = true) (hy : (parseDate y).isSome = true)
    (h : dateGreater parseDate x y = false) : notAfter parseDate x y = true := by
  obtain ⟨tx, htx⟩ := Option.isSome_iff_exists.1 hx
  obtain ⟨ty, hty⟩ := Option.isSome_iff_exists.1 hy
  simp only [dateGreater, htx, hty, decide_eq_false_iff_not, not_lt] at h
  simp [notAfter, htx, hty, h]

/-- Filing under `other` a message exchanged with `other` alone, dated not
before any filed message exchanged with `other`, keeps the map as described. -/
theorem conversationInv_set (parseDate : String → Option Int) (me other : String)
    (done : List Message) (m : List (String × Message)) (msg : Message)
    (hinv : ConversationInv parseDate me done m)
    (hex : ∀ name, exchanged me name msg = true ↔ name = other)
    (hmsg : (parseDate msg.timestamp).isSome = true)
    (hmax : ∀ x ∈ done, exchanged me other x = true →
      notAfter parseDate x.timestamp msg.timestamp = true) :
    ConversationInv parseDate me (done ++ [msg]) (mapSet m other msg) := by
  obtain ⟨hnodup, hnone, hsome⟩ := hinv
  refine ⟨nodup_keys_mapSet _ _ _ hnodup, ?_, ?_⟩
  · intro name hget x hx
    have hne : name ≠ other := by
      intro he
      subst he
      rw [mapGet_mapSet_same] at hget
      simp at hget
    rw [mapGet_mapSet_other _ _ _ _ hne] at hget
    rcases List.mem_append.1 hx with hx | hx
    · exact hnone name hget x hx
    · rw [List.mem_singleton] at hx
      subst hx
      cases hq : exchanged me name x
      · rfl
      · exact absurd ((hex name).1 hq) hne
  · intro name last hget
    by_cases hne : name = other
    · subst hne
      rw [mapGet_mapSet_same] at hget
      cases hget
      refine ⟨by simp, (hex name).2 rfl, ?_⟩
      intro x hx hq
      rcases List.mem_append.1 hx with hx | hx
      · exact hmax x hx hq
      · rw [List.mem_singleton] at hx
        subst hx
        exact notAfter_refl parseDate _ hmsg
    · rw [mapGet_mapSet_other _ _ _ _ hne] at hget
      obtain ⟨hmem, hexl, hlast⟩ := hsome name last hget
      refine ⟨List.mem_append_left _ hmem, hexl, ?_⟩
      intro x hx hq
      rcases List.mem_append.1 hx with hx | hx
      · exact hlast x hx hq
      · rw [List.mem_singleton] at hx
        subst hx
        exact absurd ((hex name).1 hq) hne

/-- Leaving the map as it is, for a message that is exchanged with no user or
is dated not after the message filed under the one user it is exchanged with. -/
theorem conversationInv_keep (parseDate : String → Option Int) (me : String)
    (done : List Message) (m : List (String × Message)) (msg : Message)
    (hinv : ConversationInv parseDate me done m)
    (hcover : ∀ name, exchanged me name msg = true →
      ∃ last, mapGet m name = some last ∧
        notAfter parseDate msg.timestamp last.timestamp = true) :
    ConversationInv parseDate me (done ++ [msg]) m := by
  obtain ⟨hnodup, hnone, hsome⟩ := hinv
  refine ⟨hnodup, ?_, ?_⟩
  · intro name hget x hx
    rcases List.mem_append.1 hx with hx | hx
    · exact hnone name hget x hx
    · rw [List.mem_singleton] at hx
      subst hx
      cases hq : exchanged me name x
      · rfl
      · obtain ⟨last, hlast, -⟩ := hcover name hq
        rw [hget] at hlast
        simp at hlast
  · intro name last hget
    obtain ⟨hmem, hexl, hlast⟩ := hsome name last hget
    refine ⟨List.mem_append_left _ hmem, hexl, ?_⟩
    intro x hx hq
    rcases List.mem_append.1 hx with hx | hx
    · exact hlast x hx hq
    · rw [List.mem_singleton] at hx
      subst hx
      obtain ⟨last', hlast', hle⟩ := hcover name hq
      rw [hget] at hlast'
      cases hlast'
      exact hle

/-- One round of `messages.forEach` keeps the map as described. -/
theorem conversationStep_inv (parseDate : String → Option Int) (me : String)
    (done : List Message) (m : List (String × Message)) (msg : Message)
    (hinv : ConversationInv parseDate me done m)
    (hdone : ∀ x ∈ done, (parseDate x.timestamp).isSome = true)
    (hmsg : (parseDate msg.timestamp).isSome = true) :
    ConversationInv parseDate me (done ++ [msg])
      (conversationStep parseDate (some (JVal.str me)) m msg) := by
  unfold conversationStep
  simp only [strictEq_str, Bool.or_eq_true, beq_iff_eq]
  by_cases hinvolved : msg.from_ = me ∨ msg.to_ = me
  · rw [if_pos hinvolved]
    have hex := fun name => exchanged_iff_counterpart me name msg hinvolved
    generalize (if msg.from_ = me then msg.to_ else msg.from_) = other at hex ⊢
    cases hget : mapGet m other with
    | none =>
      refine conversationInv_set parseDate me other done m msg hinv hex hmsg ?_
      intro x hx hq
      rw [hinv.2.1 other hget x hx] at hq
      exact absurd hq (by decide)
    | some existing =>
      dsimp only
      obtain ⟨hmem, -, hlast⟩ := hinv.2.2 other existing hget
      by_cases hgt : dateGreater parseDate msg.timestamp existing.timestamp = true
      · rw [if_pos hgt]
        refine conversationInv_set parseDate me other done m msg hinv hex hmsg ?_
        intro x hx hq
        exact notAfter_trans parseDate _ _ _ (hlast x hx hq)
          (notAfter_of_dateGreater parseDate _ _ hgt)
      · rw [if_neg hgt]
        refine conversationInv_keep parseDate me done m msg hinv ?_
        intro name hq
        rw [(hex name).1 hq]
        exact ⟨existing, hget, notAfter_of_not_dateGreater parseDate _ _ hmsg
          (hdone existing hmem) (by simpa using hgt)⟩
  · rw [if_neg hinvolved]
    refine conversationInv_keep parseDate me done m msg hinv ?_
    intro name hq
    rw [not_or] at hinvolved
    rw [exchanged_false_of_not_involved me name msg hinvolved.1 hinvolved.2] at hq
    exact absurd hq (by decide)

/-- The map `messages.forEach` leaves, from the empty map. -/
theorem conversationFold_inv (parseDate : String → Option Int) (me : String) :
    ∀ (rest done : List Message) (m : List (String × Message)),
      ConversationInv parseDate me done m →
      (∀ x ∈ done, (parseDate x.timestamp).isSome = true) →
      (∀ x ∈ rest, (parseDate x.timestamp).isSome = true) →
      ConversationInv parseDate me (done ++ rest)
        (rest.foldl (conversationStep parseDate (some (JVal.str me))) m) := by
  intro rest
  induction rest with
  | nil => intro done m hinv _ _; simpa using hinv
  | cons msg rest ih =>
    intro done m hinv hdone hrest
    have hstep := conversationStep_inv parseDate me done m msg hinv hdone
      (hrest msg (List.mem_cons_self _ _))
    have := ih (done ++ [msg]) _ hstep
      (by
        intro x hx
        rcases List.mem_append.1 hx with hx | hx
        · exact hdone x hx
        · rw [List.mem_singleton] at hx
          subst hx
          exact hrest x (List.mem_cons_self _ _))
      (fun x hx => hrest x (List.mem_cons_of_mem _ hx))
    simpa using this

/-- The map `messages.forEach` builds from the empty map. -/
theorem conversationMap_inv (parseDate : String → Option Int) (me : String)
    (messages : List Message)
    (hvalid : ∀ m ∈ messages, (parseDate m.timestamp).isSome = true) :
    ConversationInv parseDate me messages
      (messages.foldl (conversationStep parseDate (some (JVal.str me))) []) := by
  have hempty : ConversationInv parseDate me [] [] :=
    ⟨List.nodup_nil, fun _ _ x hx => absurd hx (List.not_mem_nil x),
      fun _ _ h => by simp [mapGet] at h⟩
  have := conversationFold_inv parseDate me messages [] [] hempty
    (fun x hx => absurd hx (List.not_mem_nil x)) hvalid
  simpa using this

/-- C30: with a session user whose username is the text `me`, and every stored
message dated, `loadConversations` hands over a list in which no username
stands twice; a username stands in it exactly when a stored message goes
between `me` and that user; each entry shows the text and timestamp of a stored
message between `me` and its user that no such message is dated after; its
`unreadCount` is the number of stored unread messages from its user to `me`;
and no entry is dated before one that follows it. -/
theorem loadConversations_spec (parseDate : String → Option Int) (s : Store) (user : Record)
    (me : String)
    (huser : getCurrentUser s = some user)
    (hme : getField user "username" = some (JVal.str me))
    (hvalid : ∀ m ∈ getMessages s, (parseDate m.timestamp).isSome = true) :
    ∃ convs, loadConversations parseDate s = some convs ∧
      (convs.map (fun c => c.username)).Nodup ∧
      (∀ name, name ∈ convs.map (fun c => c.username) ↔
        ∃ m ∈ getMessages s, exchanged me name m = true) ∧
      (∀ c ∈ convs,
        (∃ m ∈ getMessages s, exchanged me c.username m = true ∧
          c.lastMessage = m.text ∧ c.timestamp = m.timestamp ∧
          ∀ x ∈ getMessages s, exchanged me c.username x = true →
            notAfter parseDate x.timestamp m.timestamp = true) ∧
        c.unreadCount =
          ((getMessages s).filter
            (fun m => m.from_ == c.username && m.to_ == me && !m.read)).length) ∧
      convs.Pairwise (fun x y => notAfter parseDate y.timestamp x.timestamp = true) := by
  obtain ⟨hnodup, hnone, hsome⟩ := conversationMap_inv parseDate me (getMessages s) hvalid
  generalize hmap :
    (getMessages s).foldl (conversationStep parseDate (some (JVal.str me))) [] = cmap
    at hnodup hnone hsome
  have hload : loadConversations parseDate s
      = some (jsSort (fun a b : Conversation => dateDiff parseDate b.timestamp a.timestamp)
          (cmap.map (conversationEntry (some (JVal.str me)) (getMessages s) (getUsers s)))) := by
    simp only [loadConversations, huser, hme, hmap]
  have hperm := jsSort_perm
    (fun a b : Conversation => dateDiff parseDate b.timestamp a.timestamp)
    (cmap.map (conversationEntry (some (JVal.str me)) (getMessages s) (getUsers s)))
  have hnames :
      (cmap.map (conversationEntry (some (JVal.str me)) (getMessages s) (getUsers s))).map
        (fun c => c.username) = cmap.map Prod.fst := by
    rw [List.map_map]
    rfl
  have hentry : ∀ c ∈ cmap.map
      (conversationEntry (some (JVal.str me)) (getMessages s) (getUsers s)),
      ∃ m, mapGet cmap c.username = some m ∧ c.lastMessage = m.text ∧
        c.timestamp = m.timestamp ∧
        c.unreadCount =
          ((getMessages s).filter
            (fun m => m.from_ == c.username && m.to_ == me && !m.read)).length := by
    intro c hc
    obtain ⟨e, he, rfl⟩ := List.mem_map.1 hc
    exact ⟨e.2, mapGet_of_mem cmap e.1 e.2 hnodup he, rfl, rfl, rfl⟩
  have hdated : ∀ c ∈ cmap.map
      (conversationEntry (some (JVal.str me)) (getMessages s) (getUsers s)),
      (parseDate c.timestamp).isSome = true := by
    intro c hc
    obtain ⟨m, hget, -, ht, -⟩ := hentry c hc
    rw [ht]
    exact hvalid m (hsome _ _ hget).1
  refine ⟨_, hload, ?_, ?_, ?_, ?_⟩
  · rw [(hperm.map (fun c => c.username)).nodup_iff, hnames]
    exact hnodup
  · intro name
    rw [(hperm.map (fun c => c.username)).mem_iff, hnames]
    constructor
    · intro hmem
      cases hget : mapGet cmap name with
      | none => exact absurd hmem ((mapGet_eq_none_iff cmap name).1 hget)
      | some last =>
        obtain ⟨hl, hex, -⟩ := hsome name last hget
        exact ⟨last, hl, hex⟩
    · rintro ⟨m, hm, hex⟩
      by_contra hmem
      have := hnone name ((mapGet_eq_none_iff cmap name).2 hmem) m hm
      rw [this] at hex
      exact absurd hex (by decide)
  · intro c hc
    obtain ⟨m, hget, htext, ht, hunread⟩ := hentry c (hperm.mem_iff.1 hc)
    obtain ⟨hm, hex, hlast⟩ := hsome _ _ hget
    exact ⟨⟨m, hm, hex, htext, ht, hlast⟩, hunread⟩
  · have hsorted := jsSort_pairwise
      (fun a b : Conversation => dateDiff parseDate b.timestamp a.timestamp)
      (fun c => -((parseDate c.timestamp).getD 0))
      (cmap.map (conversationEntry (some (JVal.str me)) (getMessages s) (getUsers s)))
      (fun x hx y hy => by
        show dateDiff parseDate y.timestamp x.timestamp
          = some (-((parseDate x.timestamp).getD 0) - -((parseDate y.timestamp).getD 0))
        rw [dateDiff_of_valid parseDate _ _ (hdated y hy) (hdated x hx)]
        congr 1
        omega)
    exact hsorted.imp_of_mem
      (fun hx hy hle => notAfter_of_valid parseDate _ _
        (hdated _ (hperm.mem_iff.1 hy)) (hdated _ (hperm.mem_iff.1 hx))
        (by
          simp only at hle
          omega))

/-- C30 at three stored messages read by `a`: one entry for `b` and one for
`c`, the later conversation first. -/
theorem loadConversations_spec_witness :
    getCurrentUser
        { Store.empty with
          messages := Slot.value sampleMessages,
          currentUser := Slot.value [("username", JVal.str "a")] }
      = some [("username", JVal.str "a")] ∧
    loadConversations sampleParseDate
        { Store.empty with
          messages := Slot.value sampleMessages,
          currentUser := Slot.value [("username", JVal.str "a")] }
      = some [⟨"b", JVal.str "b", none, "later", "2024-01-01T00:00:02.000Z", 1⟩,
              ⟨"c", JVal.str "c", none, "other", "2024-01-01T00:00:01.000Z", 0⟩] ∧
    ∃ convs,
      loadConversations sampleParseDate
          { Store.empty with
            messages := Slot.value sampleMessages,
            currentUser := Slot.value [("username", JVal.str "a")] }
        = some convs ∧
      (convs.map (fun c => c.username)).Nodup ∧
      convs.Pairwise (fun x y => notAfter sampleParseDate y.timestamp x.timestamp = true) :=
  ⟨by decide, by decide,
    (loadConversations_spec sampleParseDate
      { Store.empty with
        messages := Slot.value sampleMessages,
        currentUser := Slot.value [("username", JVal.str "a")] }
      [("username", JVal.str "a")] "a" (by decide) (by decide) (by decide)).imp
      (fun _ h => ⟨h.1, h.2.1, h.2.2.2.2⟩)⟩

end SocialApp
